import Mathlib

/-!
# pkt-line framing: a shallow embedding of `src/pkt-line.c`

Bytes are natural numbers (a `char` holds a value below 256), memory regions are
lists of bytes starting at the pointer they model, C `int` values are integers
and the narrowing conversions of the source are written out (`toU32`, `toI32`,
`toU64`).  The process state that the functions of the file share (the two
scratch buffers, the static trace flags, the trace sinks, the descriptors) is
the record `World`.  A call either returns (`Res.ok`), aborts the process
through `die` (`Res.die`), or leaves the modelled memory (`Res.ub`).
-/

namespace PktLine

/-! ## Integers of the C source -/

/-- Conversion of a C `int` to `unsigned int` (32 bits). -/
def toU32 (i : Int) : Nat := (i % 4294967296).toNat

/-- Conversion of an unsigned or wider value to a C `int` (32 bits, two's complement). -/
def toI32 (n : Nat) : Int :=
  if n % 4294967296 < 2147483648 then ((n % 4294967296 : Nat) : Int)
  else ((n % 4294967296 : Nat) : Int) - 4294967296

/-- Conversion of a C `int` to `size_t` (64 bits). -/
def toU64 (i : Int) : Nat := (i % 18446744073709551616).toNat

/-- Conversion of a `size_t` to `unsigned int`. -/
def u32 (n : Nat) : Nat := n % 4294967296

/-- The C operator `&` on two `int` values (two's complement, 32 bits). -/
def int_and (a b : Int) : Int := toI32 (toU32 a &&& toU32 b)

/-- The C operator `|` on two `int` values (two's complement, 32 bits). -/
def int_or (a b : Int) : Int := toI32 (toU32 a ||| toU32 b)

/-! ## Constants of `pkt-line.h` -/

/-- Modelled from the spec: `LARGE_PACKET_MAX` of `pkt-line.h`, the spec's
`MAX_PACKET_LEN` (65520). -/
def LARGE_PACKET_MAX : Nat := 65520

/-- Modelled from the spec: `PKTLINE_DATA_MAXLEN` of `pkt-line.h`, the spec's
`MAX_PACKET_LEN - 4`. -/
def PKTLINE_DATA_MAXLEN : Nat := LARGE_PACKET_MAX - 4

/-- Modelled from the spec: the gentle-EOF option bit of `pkt-line.h` (`1u << 0`). -/
def PACKET_READ_GENTLE_ON_EOF : Nat := 1

/-- Modelled from the spec: the chomp-newline option bit of `pkt-line.h` (`1u << 1`). -/
def PACKET_READ_CHOMP_NEWLINE : Nat := 2

/-- The four bytes of the literal `"0000"`. -/
def flush_pkt : List Nat := [48, 48, 48, 48]

/-! ## Outcomes -/

/-- The messages of the `die` calls reachable from the file. -/
inductive Fatal where
  /-- The abort `BUG: multiple sources given to packet_read` -/
  | multiple_sources
  /-- The abort `read error` (`die_errno`) -/
  | read_error
  /-- The abort `The remote end hung up unexpectedly` -/
  | hung_up
  /-- The abort `protocol error: bad line length character: %.4s` -/
  | bad_length_char (linelen : List Nat)
  /-- The abort `protocol error: bad line length %d` -/
  | bad_line_length (len : Int)
  /-- The abort `protocol error: impossibly long line` -/
  | impossibly_long_line
  /-- The abort of `write_or_die` -/
  | write_failure
  /-- The abort `you want to use way too much memory` (`strbuf_grow`) -/
  | too_much_memory
  /-- The abort `BUG: strbuf_setlen() beyond buffer` -/
  | setlen_beyond_buffer
  deriving DecidableEq, Repr

/-- Process state shared by the functions of `pkt-line.c`.  One input and one
output descriptor are modelled: every non-negative descriptor number stands for
them, a negative number is a bad descriptor. -/
structure World where
  /-- The array `char packet_buffer[LARGE_PACKET_MAX]` -/
  packet_buffer : List Nat
  /-- The array `char packet_write_buffer[LARGE_PACKET_MAX]` -/
  packet_write_buffer : List Nat
  /-- The string `static const char *packet_trace_prefix`, without its terminating NUL -/
  packet_trace_prefix_str : List Nat
  /-- The value of `in_async()` -/
  in_async : Bool
  /-- The value of `trace_want(&trace_packet)` -/
  want_packet : Bool
  /-- The value of `trace_want(&trace_pack)` -/
  want_pack : Bool
  /-- The flag `static int in_pack` of `packet_trace` -/
  in_pack : Bool
  /-- The flag `static int sideband` of `packet_trace` -/
  sideband : Bool
  /-- Whether plain `char` is a signed type on the platform -/
  char_signed : Bool
  /-- The buffers handed to `trace_strbuf(&trace_packet, ...)`, oldest first -/
  trace_packet_out : List (List Nat)
  /-- The buffers handed to `trace_verbatim(&trace_pack, ...)` while wanted, oldest first -/
  trace_pack_out : List (List Nat)
  /-- The bytes still to come on the input descriptor -/
  fd_in_data : List Nat
  /-- Whether the input descriptor fails with an error (rather than end of file)
  once `fd_in_data` is used up -/
  fd_in_broken : Bool
  /-- The bytes the output descriptor has taken -/
  fd_out_data : List Nat
  /-- The `write_in_full` calls made so far: descriptor and requested bytes -/
  fd_out_calls : List (Int × List Nat)
  /-- The number of bytes the output descriptor still takes (`none`: no limit) -/
  fd_out_room : Option Nat
  deriving DecidableEq, Repr

/-- Result of a call: normal return, `die`, or an access outside the modelled memory. -/
inductive Res (α : Type) where
  | ok (val : α) (w : World)
  | die (msg : Fatal) (w : World)
  | ub
  deriving DecidableEq, Repr

/-! ## Memory -/

/-- The effect of `memcpy(dst + off, src, src.length)` on the region `dst`;
`none` when the copy leaves the region. -/
def store (dst : List Nat) (off : Nat) (src : List Nat) : Option (List Nat) :=
  if off + src.length ≤ dst.length then
    some (dst.take off ++ src ++ dst.drop (off + src.length))
  else none

/-- The value of `buf[i]` for an `int` index; `none` outside the region. -/
def load (buf : List Nat) (i : Int) : Option Nat :=
  if i < 0 then none else buf.get? i.toNat

/-- The test `starts_with(str, pfx)` on NUL-terminated strings: compares byte by
byte and stops at the first difference.  The end of the modelled region `str`
counts as a difference. -/
def starts_with : List Nat → List Nat → Bool
  | _, [] => true
  | [], _ :: _ => false
  | c :: str, p :: pfx => if c = p then starts_with str pfx else false

/-! ## Collaborators outside `src/` -/

/-- Modelled from the spec: `trace_verbatim(&trace_pack, buf, len)` of `trace.c`,
the binary sink: when the key is wanted the `len` bytes are forwarded verbatim. -/
def trace_verbatim_pack (buf : List Nat) (len : Nat) (w : World) : World :=
  if w.want_pack then { w with trace_pack_out := w.trace_pack_out ++ [buf.take len] } else w

/-- Modelled from the spec: `trace_strbuf(&trace_packet, &out)` of `trace.c`,
the human-readable sink: when the key is wanted the buffer is recorded as one entry. -/
def trace_strbuf_packet (out : List Nat) (w : World) : World :=
  if w.want_packet then { w with trace_packet_out := w.trace_packet_out ++ [out] } else w

/-- Modelled from the spec: `write_in_full(fd, buf, count)` of `wrapper.c`:
one request for `count` bytes; the result is `count` when the descriptor took
them all and `-1` otherwise (a bad descriptor, an error or no room left). -/
def write_in_full (fd : Int) (buf : List Nat) (count : Nat) (w : World) : Int × World :=
  let req := buf.take count
  let w1 := { w with fd_out_calls := w.fd_out_calls ++ [(fd, req)] }
  if fd < 0 then (-1, w1)
  else
    match w.fd_out_room with
    | none => ((count : Int), { w1 with fd_out_data := w.fd_out_data ++ req })
    | some room =>
      if count ≤ room then
        ((count : Int), { w1 with fd_out_data := w.fd_out_data ++ req,
                                  fd_out_room := some (room - count) })
      else
        (-1, { w1 with fd_out_data := w.fd_out_data ++ req.take room,
                       fd_out_room := some 0 })

/-- Modelled from the spec: `read_in_full(fd, dst, count)` of `wrapper.c`: reads
until `count` bytes are there or the descriptor ends; the result is the number
of bytes read, or `-1` on a bad descriptor or a read error.  Returns the result
and the bytes that reached `dst`. -/
def read_in_full (fd : Int) (count : Nat) (w : World) : Int × List Nat × World :=
  if fd < 0 then (-1, [], w)
  else if count ≤ w.fd_in_data.length then
    ((count : Int), w.fd_in_data.take count, { w with fd_in_data := w.fd_in_data.drop count })
  else if w.fd_in_broken then
    (-1, w.fd_in_data, { w with fd_in_data := [] })
  else
    ((w.fd_in_data.length : Int), w.fd_in_data, { w with fd_in_data := [] })

/-- Modelled from the spec: the table behind `hexval` of `cache.h`/`hex.c`: the
value of a hexadecimal digit (either case), `-1` for any other character. -/
def hexval (c : Nat) : Int :=
  if 48 ≤ c ∧ c ≤ 57 then (c : Int) - 48
  else if 97 ≤ c ∧ c ≤ 102 then (c : Int) - 87
  else if 65 ≤ c ∧ c ≤ 70 then (c : Int) - 55
  else -1

/-- Modelled from the spec: `hex2chr(s)` of `cache.h`: two hexadecimal digits
as one byte value, negative when one of them is not a digit.  The argument is
the region at `s`. -/
def hex2chr (s : List Nat) : Int :=
  let val := hexval (s.getD 0 0)
  if val < 0 then val else int_or (val * 16) (hexval (s.getD 1 0))

/-- Modelled from the spec: a growable buffer (`struct strbuf` of `strbuf.h`):
`buf` holds the `len` bytes of content, `alloc` is the allocated size (0 for a
buffer that never allocated). -/
structure StrBuf where
  buf : List Nat
  alloc : Nat
  deriving DecidableEq, Repr

/-- Modelled from the spec: `strbuf_grow(sb, extra)` of `strbuf.c`: aborts when
`len + extra + 1` overflows `size_t`, otherwise raises `alloc` to at least
`len + extra + 1` by the rule of `ALLOC_GROW` (the allocation itself is taken
to succeed). -/
def strbuf_grow (sb : StrBuf) (extra : Nat) (w : World) : Res StrBuf :=
  if extra + 1 ≥ 18446744073709551616 ∨ sb.buf.length + (extra + 1) ≥ 18446744073709551616 then
    Res.die Fatal.too_much_memory w
  else
    let nr := sb.buf.length + extra + 1
    if nr > sb.alloc then
      Res.ok { sb with alloc := if (sb.alloc + 16) * 3 / 2 < nr then nr
                                 else (sb.alloc + 16) * 3 / 2 } w
    else Res.ok sb w

/-- Modelled from the spec: `strbuf_release(sb)` of `strbuf.c`: frees the
memory and leaves the empty, never-allocated buffer. -/
def strbuf_release (_sb : StrBuf) : StrBuf := { buf := [], alloc := 0 }

/-- Modelled from the spec: `strbuf_setlen(sb, len)` of `strbuf.h`: sets the
length, aborting when it lies beyond the allocation. -/
def strbuf_setlen (sb : StrBuf) (len : Nat) (w : World) : Res StrBuf :=
  if len > (if sb.alloc ≠ 0 then sb.alloc - 1 else 0) then Res.die Fatal.setlen_beyond_buffer w
  else Res.ok { sb with buf := sb.buf.take len } w

/-! ## Trace router (`packet_trace_pack`, `packet_trace`) -/

/-- The function `get_trace_prefix`. -/
def get_trace_prefix_str (w : World) : List Nat :=
  if w.in_async then [115, 105, 100, 101, 98, 97, 110, 100] else w.packet_trace_prefix_str

/-- The function `packet_trace_pack`: returns whether the packet went to the
binary sink. -/
def packet_trace_pack (buf : List Nat) (len : Nat) (sideband : Bool) (w : World) : Bool × World :=
  if !sideband then (true, trace_verbatim_pack buf len w)
  else if len ≠ 0 ∧ buf.head? = some 1 then (true, trace_verbatim_pack (buf.drop 1) (len - 1) w)
  else (false, w)

/-- The octal digits of `n` as characters (`%o`). -/
def octal (n : Nat) : List Nat := (Nat.toDigits 8 n).map Char.toNat

/-- The text appended for one payload byte in the loop of `packet_trace`. -/
def trace_byte (char_signed : Bool) (b : Nat) : List Nat :=
  if b = 10 then []
  else if 32 ≤ b ∧ b ≤ 126 then [b]
  else 92 :: octal (if char_signed ∧ 128 ≤ b then 4294967296 + b - 256 else b)

/-- The conversion `%12s`: right-aligned in 12 columns. -/
def pad12 (s : List Nat) : List Nat := List.replicate (12 - s.length) 32 ++ s

/-- The human-readable line built by the second half of `packet_trace`. -/
def trace_line (buf : List Nat) (len : Nat) (write : Bool) (w : World) : List Nat :=
  [112, 97, 99, 107, 101, 116, 58, 32] ++ pad12 (get_trace_prefix_str w)
    ++ [if write then 62 else 60, 32]
    ++ ((buf.take len).map (trace_byte w.char_signed)).flatten ++ [10]

/-- The function `packet_trace`: `buf` is the region at the pointer, `len` the
`unsigned int` length, `write` the direction.  (The loop counter is an `int`;
the lengths passed in this file stay below its range.) -/
def packet_trace (buf : List Nat) (len : Nat) (write : Bool) (w : World) : World :=
  if !w.want_packet && !w.want_pack then w
  else if w.in_pack then
    let r := packet_trace_pack buf len w.sideband w
    if r.1 then r.2
    else if !r.2.want_packet then r.2
    else trace_strbuf_packet (trace_line buf len write r.2) r.2
  else if starts_with buf [80, 65, 67, 75] || starts_with buf [1, 80, 65, 67, 75] then
    let sb := decide (buf.head? = some 1)
    let w1 := { w with in_pack := true, sideband := sb }
    let w2 := (packet_trace_pack buf len sb w1).2
    -- buf = "PACK ..."; len = strlen(buf)
    if !w2.want_packet then w2
    else trace_strbuf_packet (trace_line [80, 65, 67, 75, 32, 46, 46, 46] 8 write w2) w2
  else if !w.want_packet then w
  else trace_strbuf_packet (trace_line buf len write w) w

/-! ## Header codec (`set_packet_header`, `packet_length`) -/

/-- The array `hexchar` of `set_packet_header` (`"0123456789abcdef"`). -/
def hexchar : List Nat :=
  [48, 49, 50, 51, 52, 53, 54, 55, 56, 57, 97, 98, 99, 100, 101, 102]

/-- The function-like macro `hex(a)` of `set_packet_header`: `hexchar[(a) & 15]`. -/
def hex (a : Int) : Nat := hexchar.getD (int_and a 15).toNat 0

/-- The function `set_packet_header`: stores the four header characters at the
start of the region `buf`. -/
def set_packet_header (buf : List Nat) (size : Int) : List Nat :=
  (((buf.set 0 (hex (Int.shiftRight size 12))).set 1 (hex (Int.shiftRight size 8))).set 2
    (hex (Int.shiftRight size 4))).set 3 (hex size)

/-- The function `packet_length`: `linelen` is the region holding the header. -/
def packet_length (linelen : List Nat) : Int :=
  let val := hex2chr linelen
  if val < 0 then val else int_or (val * 256) (hex2chr (linelen.drop 2))

/-! ## Packet writer -/

/-- Modelled from the spec: `write_or_die(fd, buf, count)` of `write_or_die.c`:
the strict write, which aborts unless the descriptor took every byte. -/
def write_or_die (fd : Int) (buf : List Nat) (count : Nat) (w : World) : Res Unit :=
  let r := write_in_full fd buf count w
  if r.1 = (count : Int) then Res.ok () r.2 else Res.die Fatal.write_failure r.2

/-- The function `packet_flush`. -/
def packet_flush (fd : Int) (w : World) : Res Unit :=
  write_or_die fd flush_pkt 4 (packet_trace flush_pkt 4 true w)

/-- The function `packet_flush_gently`. -/
def packet_flush_gently (fd : Int) (w : World) : Res Int :=
  let r := write_in_full fd flush_pkt 4 (packet_trace flush_pkt 4 true w)
  Res.ok (if r.1 = 4 then 0 else -1) r.2

/-- The function `packet_buf_flush`; the buffer is represented by its content. -/
def packet_buf_flush (buf : List Nat) (w : World) : List Nat × World :=
  (buf ++ flush_pkt, packet_trace flush_pkt 4 true w)

/-- The function `format_packet`: `out` is the content of the buffer and `text`
the bytes that `strbuf_vaddf(out, fmt, args)` appends.  Returns the status and
the new content. -/
def format_packet (gentle : Bool) (out : List Nat) (text : List Nat) (w : World) :
    Res (Int × List Nat) :=
  let orig_len := out.length
  let out1 := out ++ flush_pkt
  let out2 := out1 ++ text
  let n := out2.length - orig_len
  if n > LARGE_PACKET_MAX then
    if gentle then Res.ok (-1, out2) w
    else Res.die Fatal.impossibly_long_line w
  else
    Res.ok (0, out2.take orig_len ++ set_packet_header (out2.drop orig_len) (toI32 n)) w

/-- The function `packet_write_fmt`; the static buffer is empty after `strbuf_reset`. -/
def packet_write_fmt (fd : Int) (text : List Nat) (w : World) : Res Unit :=
  match format_packet false [] text w with
  | Res.ok r w1 =>
    write_or_die fd r.2 r.2.length (packet_trace (r.2.drop 4) (u32 (r.2.length - 4)) true w1)
  | Res.die m w1 => Res.die m w1
  | Res.ub => Res.ub

/-- The function `packet_write_gently_fmt`; the static buffer is empty after
`strbuf_reset`, and the status of `format_packet` is not looked at. -/
def packet_write_gently_fmt (fd : Int) (text : List Nat) (w : World) : Res Int :=
  match format_packet true [] text w with
  | Res.ok r w1 =>
    let wr := write_in_full fd r.2 r.2.length
      (packet_trace (r.2.drop 4) (u32 (r.2.length - 4)) true w1)
    Res.ok (if wr.1 = (r.2.length : Int) then 0 else -1) wr.2
  | Res.die m w1 => Res.die m w1
  | Res.ub => Res.ub

/-- The function `packet_write_gently`: `buf` is the region at the pointer, of
which the first `size` bytes are the payload. -/
def packet_write_gently (fd_out : Int) (buf : List Nat) (size : Nat) (w : World) : Res Int :=
  if size > PKTLINE_DATA_MAXLEN then Res.ok (-1) w
  else
    let w1 := packet_trace buf (u32 size) true w
    if size > buf.length then Res.ub
    else
      match store w1.packet_write_buffer 4 (buf.take size) with
      | none => Res.ub
      | some pwb =>
        let size1 := size + 4
        let w2 := { w1 with packet_write_buffer := set_packet_header pwb (toI32 size1) }
        let wr := write_in_full fd_out w2.packet_write_buffer size1 w2
        Res.ok (if wr.1 = (size1 : Int) then 0 else -1) wr.2

/-- The loop of `packet_write_stream_with_flush_from_buf`; returns `err`.  The
first argument bounds the number of passes; a loop that used them all up ends
in `Res.ub`. -/
def stream_from_buf_loop (fd_out : Int) (src_in : List Nat) (len : Nat) :
    Nat → Nat → World → Res Int
  | 0, _, _ => Res.ub
  | fuel + 1, bytes_written, w =>
    let bytes_to_write :=
      if len - bytes_written > PKTLINE_DATA_MAXLEN then PKTLINE_DATA_MAXLEN
      else len - bytes_written
    if bytes_to_write = 0 then Res.ok 0 w
    else
      match packet_write_gently fd_out (src_in.drop bytes_written) bytes_to_write w with
      | Res.ok err w1 =>
        if err ≠ 0 then Res.ok err w1
        else stream_from_buf_loop fd_out src_in len fuel (bytes_written + bytes_to_write) w1
      | Res.die m w1 => Res.die m w1
      | Res.ub => Res.ub

/-- The function `packet_write_stream_with_flush_from_buf`; the loop runs at
most `len / PKTLINE_DATA_MAXLEN + 2` times. -/
def packet_write_stream_with_flush_from_buf (src_in : List Nat) (len : Nat) (fd_out : Int)
    (w : World) : Res Int :=
  match stream_from_buf_loop fd_out src_in len (len / PKTLINE_DATA_MAXLEN + 2) 0 w with
  | Res.ok err w1 => if err = 0 then packet_flush_gently fd_out w1 else Res.ok err w1
  | Res.die m w1 => Res.die m w1
  | Res.ub => Res.ub

/-! ## Packet reader -/

/-- The tail of `get_packet_data`: the complaint about a short read. -/
def get_packet_data_finish (ret : Int) (src : Option (List Nat)) (dst : List Nat) (size : Nat)
    (options : Nat) (w : World) : Res (Int × Option (List Nat) × List Nat) :=
  if ret < (size : Int) then
    if options &&& PACKET_READ_GENTLE_ON_EOF ≠ 0 then Res.ok (-1, src, dst) w
    else Res.die Fatal.hung_up w
  else Res.ok (toI32 ret.toNat, src, dst) w

/-- The function `get_packet_data`: `src` is the in-memory cursor (`none` when
`src_buf` or `*src_buf` is null, otherwise the `*src_size` bytes at `*src_buf`),
`dst` the destination region.  Returns the result, the cursor and the region. -/
def get_packet_data (fd : Int) (src : Option (List Nat)) (dst : List Nat) (size : Nat)
    (options : Nat) (w : World) : Res (Int × Option (List Nat) × List Nat) :=
  if fd ≥ 0 ∧ src.isSome then Res.die Fatal.multiple_sources w
  else
    match src with
    | some s =>
      let ret := if size < s.length then size else s.length
      match store dst 0 (s.take ret) with
      | none => Res.ub
      | some dst1 => get_packet_data_finish (ret : Int) (some (s.drop ret)) dst1 size options w
    | none =>
      let r := read_in_full fd size w
      match store dst 0 r.2.1 with
      | none => Res.ub
      | some dst1 =>
        if r.1 < 0 then Res.die Fatal.read_error r.2.2
        else get_packet_data_finish r.1 none dst1 size options r.2.2

/-- The function `packet_read`: `buffer` is the destination region and `size`
its declared capacity.  Returns the result, the cursor and the region.  (The
local array `linelen` is not initialised in the source; it is read only after
`get_packet_data` has filled it, and starts as zeros here.) -/
def packet_read (fd : Int) (src : Option (List Nat)) (buffer : List Nat) (size : Nat)
    (options : Nat) (w : World) : Res (Int × Option (List Nat) × List Nat) :=
  match get_packet_data fd src [0, 0, 0, 0] 4 options w with
  | Res.ub => Res.ub
  | Res.die m w1 => Res.die m w1
  | Res.ok r w1 =>
    if r.1 < 0 then Res.ok (r.1, r.2.1, buffer) w1
    else
      let len := packet_length r.2.2
      if len < 0 then Res.die (Fatal.bad_length_char r.2.2) w1
      else if len = 0 then Res.ok (0, r.2.1, buffer) (packet_trace flush_pkt 4 false w1)
      else
        let len := len - 4
        if toU32 len ≥ size then Res.die (Fatal.bad_line_length len) w1
        else
          match get_packet_data fd r.2.1 buffer (toU32 len) options w1 with
          | Res.ub => Res.ub
          | Res.die m w2 => Res.die m w2
          | Res.ok r2 w2 =>
            if r2.1 < 0 then Res.ok (r2.1, r2.2.1, r2.2.2) w2
            else
              let chomp : Option Bool :=
                if options &&& PACKET_READ_CHOMP_NEWLINE ≠ 0 ∧ len ≠ 0 then
                  (load r2.2.2 (len - 1)).map (fun c => decide (c = 10))
                else some false
              match chomp with
              | none => Res.ub
              | some c =>
                let len := if c then len - 1 else len
                if len < 0 then Res.ub
                else
                  match store r2.2.2 len.toNat [0] with
                  | none => Res.ub
                  | some buffer2 =>
                    Res.ok (len, r2.2.1, buffer2) (packet_trace buffer2 (toU32 len) false w2)

/-- The function `packet_read_line_generic`: `dst_len` is the cell behind the
pointer (`none` for a null pointer).  Returns the region at the returned
pointer (`none` for `NULL`), the cell and the cursor. -/
def packet_read_line_generic (fd : Int) (src : Option (List Nat)) (dst_len : Option Int)
    (w : World) : Res (Option (List Nat) × Option Int × Option (List Nat)) :=
  match packet_read fd src w.packet_buffer LARGE_PACKET_MAX PACKET_READ_CHOMP_NEWLINE w with
  | Res.ub => Res.ub
  | Res.die m w1 => Res.die m w1
  | Res.ok r w1 =>
    let w2 := { w1 with packet_buffer := r.2.2 }
    Res.ok (if r.1 ≠ 0 then some w2.packet_buffer else none,
            dst_len.map (fun _ => r.1), r.2.1) w2

/-- The function `packet_read_line`. -/
def packet_read_line (fd : Int) (len_p : Option Int) (w : World) :
    Res (Option (List Nat) × Option Int × Option (List Nat)) :=
  packet_read_line_generic fd none len_p w

/-- The function `packet_read_line_buf`. -/
def packet_read_line_buf (src : Option (List Nat)) (dst_len : Option Int) (w : World) :
    Res (Option (List Nat) × Option Int × Option (List Nat)) :=
  packet_read_line_generic (-1) src dst_len w

/-- The loop of `packet_read_till_flush`, up to the label `done`: returns the
value of `ret` there and the buffer.  The first argument bounds the number of
passes; a loop that used them all up ends in `Res.ub`. -/
def till_flush_loop (fd_in : Int) : Nat → StrBuf → World → Res (Int × StrBuf)
  | 0, _, _ => Res.ub
  | fuel + 1, sb, w =>
    match get_packet_data fd_in none [0, 0, 0, 0] 4 PACKET_READ_GENTLE_ON_EOF w with
    | Res.ub => Res.ub
    | Res.die m w1 => Res.die m w1
    | Res.ok r w1 =>
      if r.1 < 0 then Res.ok (r.1, sb) w1
      else
        let len := packet_length r.2.2
        if len < 0 then Res.die (Fatal.bad_length_char r.2.2) w1
        else if len = 0 then Res.ok (r.1, sb) (packet_trace flush_pkt 4 false w1)
        else
          let len := len - 4
          match strbuf_grow sb (toU64 len) w1 with
          | Res.ub => Res.ub
          | Res.die m w2 => Res.die m w2
          | Res.ok sb1 w2 =>
            match get_packet_data fd_in none (List.replicate (sb1.alloc - sb1.buf.length) 0)
                (toU32 len) PACKET_READ_GENTLE_ON_EOF w2 with
            | Res.ub => Res.ub
            | Res.die m w3 => Res.die m w3
            | Res.ok r2 w3 =>
              if r2.1 < 0 then Res.ok (r2.1, sb1) w3
              else if r2.1 ≠ len then Res.ok (r2.1, sb1) w3
              else
                till_flush_loop fd_in fuel
                  { sb1 with buf := sb1.buf ++ r2.2.2.take len.toNat }
                  (packet_trace r2.2.2 (toU32 len) false w3)

/-- The function `packet_read_till_flush`: every pass of the loop that goes on
takes at least the four header bytes from the descriptor, which bounds the
number of passes.  Returns the result and the buffer.  (The allocated bytes
behind the content of the buffer, into which a payload is read, start as zeros.) -/
def packet_read_till_flush (fd_in : Int) (sb_out : StrBuf) (w : World) : Res (Int × StrBuf) :=
  let oldlen := sb_out.buf.length
  let oldalloc := sb_out.alloc
  match till_flush_loop fd_in (w.fd_in_data.length + 1) sb_out w with
  | Res.ub => Res.ub
  | Res.die m w1 => Res.die m w1
  | Res.ok r w1 =>
    if r.1 < 0 then
      if oldalloc = 0 then Res.ok (r.1, strbuf_release r.2) w1
      else
        match strbuf_setlen r.2 oldlen w1 with
        | Res.ok sb w2 => Res.ok (r.1, sb) w2
        | Res.die m w2 => Res.die m w2
        | Res.ub => Res.ub
    else Res.ok (((r.2.buf.length : Int) - (oldlen : Int)), r.2) w1

/-! ## Vocabulary of the specification -/

/-- A hexadecimal digit character, in either case. -/
def isHexDigit (c : Nat) : Prop :=
  (48 ≤ c ∧ c ≤ 57) ∨ (97 ≤ c ∧ c ≤ 102) ∨ (65 ≤ c ∧ c ≤ 70)

instance (c : Nat) : Decidable (isHexDigit c) := by unfold isHexDigit; infer_instance

/-- The value of a hexadecimal digit character. -/
def hexDigitValue (c : Nat) : Nat :=
  if c ≤ 57 then c - 48 else if 97 ≤ c then c - 87 else c - 55

/-- The character of the lowercase hexadecimal alphabet `0-9a-f` for a digit value. -/
def lowerHexDigit (d : Nat) : Nat := if d < 10 then 48 + d else 87 + d

/-- The header of the wire format for a total length: four lowercase
hexadecimal digits, most significant first, of the low 16 bits. -/
def encode_header (total : Nat) : List Nat :=
  [lowerHexDigit (total / 4096 % 16), lowerHexDigit (total / 256 % 16),
   lowerHexDigit (total / 16 % 16), lowerHexDigit (total % 16)]

/-- A `write_in_full` request for `count` bytes on `fd` is complete in `w`: the
descriptor is valid and has room for all of them. -/
def write_completes (fd : Int) (count : Nat) (w : World) : Prop :=
  0 ≤ fd ∧ ∀ room, w.fd_out_room = some room → count ≤ room

instance (fd : Int) (count : Nat) (w : World) : Decidable (write_completes fd count w) := by
  unfold write_completes
  cases w.fd_out_room with
  | none => exact decidable_of_iff (0 ≤ fd) (by simp)
  | some r => exact decidable_of_iff (0 ≤ fd ∧ count ≤ r) (by simp)

/-- The part of the process state that tracing cannot touch: everything but
the two static flags and the two sinks. -/
def untraced (w : World) : World :=
  { w with in_pack := false, sideband := false, trace_packet_out := [], trace_pack_out := [] }

/-- An idle process: zeroed scratch buffers, both trace keys off, nothing on
the descriptors, no limit on the output descriptor. -/
def world0 : World :=
  { packet_buffer := List.replicate 65520 0
    packet_write_buffer := List.replicate 65520 0
    packet_trace_prefix_str := [103, 105, 116]
    in_async := false
    want_packet := false
    want_pack := false
    in_pack := false
    sideband := false
    char_signed := true
    trace_packet_out := []
    trace_pack_out := []
    fd_in_data := []
    fd_in_broken := false
    fd_out_data := []
    fd_out_calls := []
    fd_out_room := none }

/-- The gentle-EOF option is set in `options`. -/
def gentle (options : Nat) : Prop := options &&& PACKET_READ_GENTLE_ON_EOF ≠ 0

instance (options : Nat) : Decidable (gentle options) := by unfold gentle; infer_instance

/-- The chomp-newline option is set in `options`. -/
def chomp_newline (options : Nat) : Prop := options &&& PACKET_READ_CHOMP_NEWLINE ≠ 0

instance (options : Nat) : Decidable (chomp_newline options) := by
  unfold chomp_newline; infer_instance

/-- The length `packet_read` reports for a payload of `len` bytes lying at the
start of the region `buf`: one less when chomping is asked for and the last
payload byte is a newline. -/
def reported_length (options : Nat) (buf : List Nat) (len : Nat) : Nat :=
  if chomp_newline options ∧ len ≠ 0 ∧ buf.get? (len - 1) = some 10 then len - 1 else len

/-- The allocated size of a buffer after `strbuf_grow(sb, extra)`. -/
def grown_alloc (sb : StrBuf) (extra : Nat) : Nat :=
  if sb.buf.length + extra + 1 > sb.alloc then
    (if (sb.alloc + 16) * 3 / 2 < sb.buf.length + extra + 1 then sb.buf.length + extra + 1
     else (sb.alloc + 16) * 3 / 2)
  else sb.alloc

/-- The wire form of a data packet: the header for the payload length plus 4,
then the payload. -/
def data_packet (payload : List Nat) : List Nat :=
  encode_header (payload.length + 4) ++ payload

/-- The wire form of a sequence of data packets. -/
def data_packets : List (List Nat) → List Nat
  | [] => []
  | p :: ps => data_packet p ++ data_packets ps

/-- The length the specification gives for a read payload: one less when
chomping is asked for and the payload ends in a newline. -/
def chomped_length (options : Nat) (payload : List Nat) : Nat :=
  if chomp_newline options ∧ payload.getLast? = some 10 then payload.length - 1
  else payload.length

/-- The input ends inside a packet: fewer than four bytes are left where a
header is expected, or the bytes behind a header for a total of at least 4 are
fewer than the payload it announces. -/
def truncated_packet (tail : List Nat) : Prop :=
  tail.length < 4 ∨
    (4 ≤ packet_length (tail.take 4)
      ∧ (tail.length : Int) - 4 < packet_length (tail.take 4) - 4)

instance (tail : List Nat) : Decidable (truncated_packet tail) := by
  unfold truncated_packet; infer_instance

/-- The invariant of a growable buffer: a buffer that never allocated is empty,
and an allocated one has room for its content and a NUL. -/
def strbuf_ok (sb : StrBuf) : Prop :=
  (sb.alloc = 0 → sb.buf = []) ∧ (sb.alloc ≠ 0 → sb.buf.length < sb.alloc)

instance (sb : StrBuf) : Decidable (strbuf_ok sb) := by
  unfold strbuf_ok; infer_instance

/-- The consecutive chunks of at most `PKTLINE_DATA_MAXLEN` bytes of a byte
sequence, in at most as many steps as the first argument says. -/
def chunk_list : Nat → List Nat → List (List Nat)
  | 0, _ => []
  | _ + 1, [] => []
  | fuel + 1, a :: l =>
    (a :: l).take PKTLINE_DATA_MAXLEN :: chunk_list fuel ((a :: l).drop PKTLINE_DATA_MAXLEN)

/-- The consecutive chunks of at most `PKTLINE_DATA_MAXLEN` bytes of a byte sequence. -/
def chunks (l : List Nat) : List (List Nat) := chunk_list l.length l

/-- Some write request for the data packets of `cs` is not complete on `fd`:
the descriptor is bad and there is a packet, or the room left is less than the
packets take. -/
def data_write_fails (fd : Int) (cs : List (List Nat)) (w : World) : Prop :=
  (fd < 0 ∧ cs ≠ []) ∨ ∃ room, w.fd_out_room = some room ∧ room < (data_packets cs).length

instance (fd : Int) (cs : List (List Nat)) (w : World) : Decidable (data_write_fails fd cs w) := by
  unfold data_write_fails
  cases w.fd_out_room with
  | none => exact decidable_of_iff (fd < 0 ∧ cs ≠ []) (by simp)
  | some r =>
    exact decidable_of_iff ((fd < 0 ∧ cs ≠ []) ∨ r < (data_packets cs).length) (by simp)

/-! ## Integer lemmas -/

theorem toI32_of_lt (n : Nat) (h : n < 2147483648) : toI32 n = (n : Int) := by
  unfold toI32
  have : n % 4294967296 = n := Nat.mod_eq_of_lt (by omega)
  rw [this, if_pos h]

theorem toU32_of_nonneg (i : Int) (h0 : 0 ≤ i) (h1 : i < 4294967296) : toU32 i = i.toNat := by
  unfold toU32
  rw [Int.emod_eq_of_lt h0 h1]

theorem toU32_natCast (n : Nat) (h : n < 4294967296) : toU32 (n : Int) = n := by
  rw [toU32_of_nonneg _ (by omega) (by omega)]; simp

theorem toU32_neg_one : toU32 (-1) = 4294967295 := by decide

theorem int_and_15 (a : Int) : int_and a 15 = a % 16 := by
  unfold int_and
  have h15 : toU32 15 = 2 ^ 4 - 1 := by decide
  rw [h15, Nat.and_pow_two_sub_one_eq_mod]
  have hlt : toU32 a % 2 ^ 4 < 16 := Nat.mod_lt _ (by decide)
  rw [toI32_of_lt _ (by omega)]
  unfold toU32
  have h0 : 0 ≤ a % 4294967296 := Int.emod_nonneg _ (by decide)
  have : (((a % 4294967296).toNat % 2 ^ 4 : Nat) : Int) = (a % 4294967296) % 16 := by
    rw [Int.natCast_mod, Int.toNat_of_nonneg h0]; rfl
  rw [this]
  omega

theorem or_all_ones (x : Nat) (h : x < 4294967296) : x ||| 4294967295 = 4294967295 := by
  apply Nat.eq_of_testBit_eq
  intro i
  rw [Nat.testBit_or]
  have h1 : (4294967295 : Nat) = 2 ^ 32 - 1 := by norm_num
  rw [h1, Nat.testBit_two_pow_sub_one]
  by_cases hi : i < 32
  · simp [hi]
  · have : x.testBit i = false := by
      apply Nat.testBit_lt_two_pow
      calc x < 2 ^ 32 := by simpa using h
        _ ≤ 2 ^ i := Nat.pow_le_pow_right (by decide) (by omega)
    simp [this, hi]

/-- The value of `a << k | b` is `a * 2^k + b` when `b` fits in the `k` low bits. -/
theorem int_or_digits (k : Nat) (a b : Nat) (hk : k ≤ 8) (ha : a < 256) (hb : b < 2 ^ k) :
    int_or ((a : Int) * (2 ^ k : Nat)) (b : Int) = ((a * 2 ^ k + b : Nat) : Int) := by
  have hp : 2 ^ k ≤ 256 := by
    calc 2 ^ k ≤ 2 ^ 8 := Nat.pow_le_pow_right (by decide) hk
      _ = 256 := by norm_num
  have hmul : a * 2 ^ k < 65536 := by nlinarith
  unfold int_or
  have e1 : ((a : Int) * (2 ^ k : Nat)) = ((a * 2 ^ k : Nat) : Int) := by push_cast; ring
  rw [e1, toU32_natCast _ (by omega), toU32_natCast _ (by omega)]
  have := Nat.mul_add_lt_is_or hb a
  rw [Nat.mul_comm a, ← this]
  rw [toI32_of_lt _ (by nlinarith)]

theorem int_or_neg_one (a : Nat) (ha : a < 4294967296) : int_or (a : Int) (-1) = -1 := by
  unfold int_or
  rw [toU32_natCast _ ha, toU32_neg_one, or_all_ones _ ha]
  decide

/-! ## Header codec lemmas -/

theorem hexDigitValue_lt (c : Nat) (h : isHexDigit c) : hexDigitValue c < 16 := by
  unfold isHexDigit at h; unfold hexDigitValue
  split_ifs <;> omega

theorem hexval_of_digit (c : Nat) (h : isHexDigit c) : hexval c = (hexDigitValue c : Int) := by
  unfold isHexDigit at h; unfold hexval hexDigitValue
  split_ifs <;> omega

theorem hexval_of_not_digit (c : Nat) (h : ¬ isHexDigit c) : hexval c = -1 := by
  unfold isHexDigit at h; unfold hexval
  split_ifs <;> first | rfl | omega

theorem hex2chr_digits (c0 c1 : Nat) (rest : List Nat) (h0 : isHexDigit c0) (h1 : isHexDigit c1) :
    hex2chr (c0 :: c1 :: rest) = ((hexDigitValue c0 * 16 + hexDigitValue c1 : Nat) : Int) := by
  have l0 := hexDigitValue_lt c0 h0
  have l1 := hexDigitValue_lt c1 h1
  unfold hex2chr
  simp only [List.getD_cons_zero, List.getD_cons_succ]
  rw [hexval_of_digit c0 h0, hexval_of_digit c1 h1]
  rw [if_neg (by omega)]
  exact int_or_digits 4 _ _ (by decide) (by omega) (by simpa using l1)

theorem hex2chr_bad (c0 c1 : Nat) (rest : List Nat) (h : ¬ (isHexDigit c0 ∧ isHexDigit c1)) :
    hex2chr (c0 :: c1 :: rest) = -1 := by
  unfold hex2chr
  simp only [List.getD_cons_zero, List.getD_cons_succ]
  by_cases h0 : isHexDigit c0
  · have h1 : ¬ isHexDigit c1 := fun h1 => h ⟨h0, h1⟩
    have l0 := hexDigitValue_lt c0 h0
    rw [hexval_of_digit c0 h0, hexval_of_not_digit c1 h1, if_neg (by omega)]
    have e : ((hexDigitValue c0 : Int) * 16) = ((hexDigitValue c0 * 16 : Nat) : Int) := by
      push_cast; ring
    rw [e]
    exact int_or_neg_one _ (by omega)
  · rw [hexval_of_not_digit c0 h0]; rfl

theorem packet_length_digits (c0 c1 c2 c3 : Nat) (rest : List Nat)
    (h : isHexDigit c0 ∧ isHexDigit c1 ∧ isHexDigit c2 ∧ isHexDigit c3) :
    packet_length (c0 :: c1 :: c2 :: c3 :: rest) =
      (((hexDigitValue c0 * 16 + hexDigitValue c1) * 256
        + (hexDigitValue c2 * 16 + hexDigitValue c3) : Nat) : Int) := by
  obtain ⟨h0, h1, h2, h3⟩ := h
  have l0 := hexDigitValue_lt c0 h0
  have l1 := hexDigitValue_lt c1 h1
  have l2 := hexDigitValue_lt c2 h2
  have l3 := hexDigitValue_lt c3 h3
  unfold packet_length
  simp only [List.drop_succ_cons, List.drop_zero]
  rw [hex2chr_digits c0 c1 _ h0 h1, hex2chr_digits c2 c3 _ h2 h3, if_neg (by omega)]
  exact int_or_digits 8 _ _ (by decide) (by omega) (by norm_num; omega)

theorem packet_length_bad (c0 c1 c2 c3 : Nat) (rest : List Nat)
    (h : ¬ (isHexDigit c0 ∧ isHexDigit c1 ∧ isHexDigit c2 ∧ isHexDigit c3)) :
    packet_length (c0 :: c1 :: c2 :: c3 :: rest) = -1 := by
  unfold packet_length
  simp only [List.drop_succ_cons, List.drop_zero]
  by_cases h01 : isHexDigit c0 ∧ isHexDigit c1
  · have h23 : ¬ (isHexDigit c2 ∧ isHexDigit c3) := fun h23 => h ⟨h01.1, h01.2, h23.1, h23.2⟩
    have l0 := hexDigitValue_lt c0 h01.1
    have l1 := hexDigitValue_lt c1 h01.2
    rw [hex2chr_digits c0 c1 _ h01.1 h01.2, hex2chr_bad c2 c3 _ h23, if_neg (by omega)]
    have e : (((hexDigitValue c0 * 16 + hexDigitValue c1 : Nat) : Int) * 256)
        = (((hexDigitValue c0 * 16 + hexDigitValue c1) * 256 : Nat) : Int) := by push_cast; ring
    rw [e]
    exact int_or_neg_one _ (by omega)
  · rw [hex2chr_bad c0 c1 _ h01]; rfl

theorem hexchar_getD (d : Nat) (h : d < 16) : hexchar.getD d 0 = lowerHexDigit d := by
  interval_cases d <;> rfl

theorem hex_shift (size : Int) (k : Nat) :
    hex (Int.shiftRight size k) = lowerHexDigit ((size / ((2 ^ k : Nat) : Int)) % 16).toNat := by
  unfold hex
  rw [int_and_15]
  have e : Int.shiftRight size k = size / ((2 ^ k : Nat) : Int) := Int.shiftRight_eq_div_pow size k
  rw [e]
  apply hexchar_getD
  have h0 : 0 ≤ (size / ((2 ^ k : Nat) : Int)) % 16 := Int.emod_nonneg _ (by decide)
  have h1 : (size / ((2 ^ k : Nat) : Int)) % 16 < 16 := Int.emod_lt_of_pos _ (by decide)
  omega

theorem hex_plain (size : Int) : hex size = lowerHexDigit (size % 16).toNat := by
  unfold hex
  rw [int_and_15]
  apply hexchar_getD
  have h0 : 0 ≤ size % 16 := Int.emod_nonneg _ (by decide)
  have h1 : size % 16 < 16 := Int.emod_lt_of_pos _ (by decide)
  omega

theorem set_packet_header_cons (b0 b1 b2 b3 : Nat) (rest : List Nat) (size : Int) :
    set_packet_header (b0 :: b1 :: b2 :: b3 :: rest) size =
      encode_header (size % 65536).toNat ++ rest := by
  unfold set_packet_header encode_header
  simp only [List.set_cons_zero, List.set_cons_succ]
  rw [hex_shift, hex_shift, hex_shift, hex_plain]
  have e12 : (((2 ^ 12 : Nat) : Int)) = 4096 := by norm_num
  have e8 : (((2 ^ 8 : Nat) : Int)) = 256 := by norm_num
  have e4 : (((2 ^ 4 : Nat) : Int)) = 16 := by norm_num
  rw [e12, e8, e4]
  have a1 : (size / 4096 % 16).toNat = (size % 65536).toNat / 4096 % 16 := by omega
  have a2 : (size / 256 % 16).toNat = (size % 65536).toNat / 256 % 16 := by omega
  have a3 : (size / 16 % 16).toNat = (size % 65536).toNat / 16 % 16 := by omega
  have a4 : (size % 16).toNat = (size % 65536).toNat % 16 := by omega
  rw [a1, a2, a3, a4]
  rfl

theorem lowerHexDigit_isHexDigit (d : Nat) (h : d < 16) : isHexDigit (lowerHexDigit d) := by
  unfold isHexDigit lowerHexDigit
  split_ifs <;> omega

theorem hexDigitValue_lowerHexDigit (d : Nat) (h : d < 16) :
    hexDigitValue (lowerHexDigit d) = d := by
  unfold hexDigitValue lowerHexDigit
  split_ifs <;> omega

/-- Decoding the header written for a total below `2^16` gives the total back. -/
theorem packet_length_encode_header (n : Nat) (rest : List Nat) (h : n ≤ 65535) :
    packet_length (encode_header n ++ rest) = (n : Int) := by
  have l3 : n / 4096 % 16 < 16 := Nat.mod_lt _ (by decide)
  have l2 : n / 256 % 16 < 16 := Nat.mod_lt _ (by decide)
  have l1 : n / 16 % 16 < 16 := Nat.mod_lt _ (by decide)
  have l0 : n % 16 < 16 := Nat.mod_lt _ (by decide)
  unfold encode_header
  simp only [List.cons_append, List.nil_append]
  rw [packet_length_digits _ _ _ _ _ ⟨lowerHexDigit_isHexDigit _ l3, lowerHexDigit_isHexDigit _ l2,
    lowerHexDigit_isHexDigit _ l1, lowerHexDigit_isHexDigit _ l0⟩]
  rw [hexDigitValue_lowerHexDigit _ l3, hexDigitValue_lowerHexDigit _ l2,
    hexDigitValue_lowerHexDigit _ l1, hexDigitValue_lowerHexDigit _ l0]
  congr 1
  omega

/-! ## Claims on the header codec -/

/-- C2: `packet_length` of a four-character header is negative exactly when one
of the four characters is not a hexadecimal digit; on four digits it is the
value in `0..65535` whose high byte is given by the first two digits and whose
low byte by the last two; the header `0000` decodes to 0. -/
theorem packet_length_decodes_header (c0 c1 c2 c3 : Nat) (rest : List Nat) :
    (packet_length (c0 :: c1 :: c2 :: c3 :: rest) < 0 ↔
      ¬ (isHexDigit c0 ∧ isHexDigit c1 ∧ isHexDigit c2 ∧ isHexDigit c3)) ∧
    (isHexDigit c0 ∧ isHexDigit c1 ∧ isHexDigit c2 ∧ isHexDigit c3 →
      packet_length (c0 :: c1 :: c2 :: c3 :: rest)
          = 256 * (16 * (hexDigitValue c0 : Int) + hexDigitValue c1)
            + (16 * (hexDigitValue c2 : Int) + hexDigitValue c3)
        ∧ 0 ≤ packet_length (c0 :: c1 :: c2 :: c3 :: rest)
        ∧ packet_length (c0 :: c1 :: c2 :: c3 :: rest) ≤ 65535) ∧
    packet_length [48, 48, 48, 48] = 0 := by
  refine ⟨?_, ?_, by decide⟩
  · by_cases h : isHexDigit c0 ∧ isHexDigit c1 ∧ isHexDigit c2 ∧ isHexDigit c3
    · rw [packet_length_digits _ _ _ _ _ h]
      constructor
      · intro hneg; omega
      · intro hn; exact absurd h hn
    · rw [packet_length_bad _ _ _ _ _ h]
      constructor
      · intro _; exact h
      · intro _; decide
  · intro h
    have l0 := hexDigitValue_lt c0 h.1
    have l1 := hexDigitValue_lt c1 h.2.1
    have l2 := hexDigitValue_lt c2 h.2.2.1
    have l3 := hexDigitValue_lt c3 h.2.2.2
    rw [packet_length_digits _ _ _ _ _ h]
    refine ⟨by push_cast; ring, by omega, by omega⟩

/-- Witness for C2: the header `1f4a` decodes to `0x1f4a`. -/
theorem packet_length_decodes_header_witness :
    packet_length [49, 102, 52, 97]
        = 256 * (16 * (hexDigitValue 49 : Int) + hexDigitValue 102)
          + (16 * (hexDigitValue 52 : Int) + hexDigitValue 97)
      ∧ 0 ≤ packet_length [49, 102, 52, 97]
      ∧ packet_length [49, 102, 52, 97] ≤ 65535 :=
  (packet_length_decodes_header 49 102 52 97 []).2.1 (by decide)

/-- C3: `set_packet_header` stores exactly four characters, the lowercase
hexadecimal digits (most significant first) of the low 16 bits of `size`, and
leaves the rest of the region alone; for `0 ≤ size ≤ 65535` the function
`packet_length` reads `size` back from them. -/
theorem set_packet_header_roundtrip (b0 b1 b2 b3 : Nat) (rest : List Nat) (size : Int) :
    set_packet_header (b0 :: b1 :: b2 :: b3 :: rest) size
        = encode_header (size % 65536).toNat ++ rest ∧
    (encode_header (size % 65536).toNat).length = 4 ∧
    (∀ c ∈ encode_header (size % 65536).toNat, (48 ≤ c ∧ c ≤ 57) ∨ (97 ≤ c ∧ c ≤ 102)) ∧
    (0 ≤ size → size ≤ 65535 →
      packet_length (set_packet_header (b0 :: b1 :: b2 :: b3 :: rest) size) = size) := by
  refine ⟨set_packet_header_cons _ _ _ _ _ _, rfl, ?_, ?_⟩
  · intro c hc
    have key : ∀ d, d < 16 → (48 ≤ lowerHexDigit d ∧ lowerHexDigit d ≤ 57)
        ∨ (97 ≤ lowerHexDigit d ∧ lowerHexDigit d ≤ 102) := by
      intro d hd; unfold lowerHexDigit; split_ifs <;> omega
    unfold encode_header at hc
    simp only [List.mem_cons, List.mem_singleton, List.not_mem_nil, or_false] at hc
    rcases hc with rfl | rfl | rfl | rfl <;> exact key _ (Nat.mod_lt _ (by decide))
  · intro h0 h1
    rw [set_packet_header_cons]
    have e : (size % 65536).toNat = size.toNat := by omega
    rw [e, packet_length_encode_header _ _ (by omega)]
    omega

/-- Witness for C3: the header written for `MAX_PACKET_LEN` reads back as 65520. -/
theorem set_packet_header_roundtrip_witness :
    packet_length (set_packet_header [0, 0, 0, 0] 65520) = 65520 :=
  (set_packet_header_roundtrip 0 0 0 0 [] 65520).2.2.2 (by decide) (by decide)

/-! ## Frame of the trace router -/

theorem untraced_trace_verbatim_pack (buf : List Nat) (len : Nat) (w : World) :
    untraced (trace_verbatim_pack buf len w) = untraced w := by
  unfold trace_verbatim_pack
  split_ifs <;> rfl

theorem untraced_trace_strbuf_packet (out : List Nat) (w : World) :
    untraced (trace_strbuf_packet out w) = untraced w := by
  unfold trace_strbuf_packet
  split_ifs <;> rfl

theorem untraced_packet_trace_pack (buf : List Nat) (len : Nat) (sb : Bool) (w : World) :
    untraced (packet_trace_pack buf len sb w).2 = untraced w := by
  unfold packet_trace_pack
  split_ifs <;> simp only [untraced_trace_verbatim_pack]

/-- Tracing touches only the two static flags and the two sinks. -/
theorem untraced_packet_trace (buf : List Nat) (len : Nat) (wr : Bool) (w : World) :
    untraced (packet_trace buf len wr w) = untraced w := by
  unfold packet_trace
  dsimp only
  split_ifs <;>
    first
      | rfl
      | (simp only [untraced_trace_strbuf_packet, untraced_packet_trace_pack]; done)
      | (simp only [untraced_trace_strbuf_packet, untraced_packet_trace_pack]; rfl)

@[simp] theorem packet_trace_packet_write_buffer (buf : List Nat) (len : Nat) (wr : Bool)
    (w : World) : (packet_trace buf len wr w).packet_write_buffer = w.packet_write_buffer := by
  have h := congrArg World.packet_write_buffer (untraced_packet_trace buf len wr w)
  exact h

@[simp] theorem packet_trace_packet_buffer (buf : List Nat) (len : Nat) (wr : Bool)
    (w : World) : (packet_trace buf len wr w).packet_buffer = w.packet_buffer := by
  have h := congrArg World.packet_buffer (untraced_packet_trace buf len wr w)
  exact h

@[simp] theorem packet_trace_fd_out_calls (buf : List Nat) (len : Nat) (wr : Bool)
    (w : World) : (packet_trace buf len wr w).fd_out_calls = w.fd_out_calls := by
  have h := congrArg World.fd_out_calls (untraced_packet_trace buf len wr w)
  exact h

@[simp] theorem packet_trace_fd_out_data (buf : List Nat) (len : Nat) (wr : Bool)
    (w : World) : (packet_trace buf len wr w).fd_out_data = w.fd_out_data := by
  have h := congrArg World.fd_out_data (untraced_packet_trace buf len wr w)
  exact h

@[simp] theorem packet_trace_fd_out_room (buf : List Nat) (len : Nat) (wr : Bool)
    (w : World) : (packet_trace buf len wr w).fd_out_room = w.fd_out_room := by
  have h := congrArg World.fd_out_room (untraced_packet_trace buf len wr w)
  exact h

@[simp] theorem packet_trace_fd_in_data (buf : List Nat) (len : Nat) (wr : Bool)
    (w : World) : (packet_trace buf len wr w).fd_in_data = w.fd_in_data := by
  have h := congrArg World.fd_in_data (untraced_packet_trace buf len wr w)
  exact h

@[simp] theorem packet_trace_fd_in_broken (buf : List Nat) (len : Nat) (wr : Bool)
    (w : World) : (packet_trace buf len wr w).fd_in_broken = w.fd_in_broken := by
  have h := congrArg World.fd_in_broken (untraced_packet_trace buf len wr w)
  exact h

/-- With both trace keys off, tracing does nothing. -/
theorem packet_trace_off (buf : List Nat) (len : Nat) (wr : Bool) (w : World)
    (h1 : w.want_packet = false) (h2 : w.want_pack = false) : packet_trace buf len wr w = w := by
  unfold packet_trace
  simp [h1, h2]

/-! ## Memory lemmas -/

theorem store_eq_some (dst : List Nat) (off : Nat) (src : List Nat)
    (h : off + src.length ≤ dst.length) :
    store dst off src = some (dst.take off ++ src ++ dst.drop (off + src.length)) := by
  unfold store
  rw [if_pos h]

theorem store_zero (dst src : List Nat) (h : src.length ≤ dst.length) :
    store dst 0 src = some (src ++ dst.drop src.length) := by
  rw [store_eq_some dst 0 src (by omega)]
  simp

theorem store_eq_none (dst : List Nat) (off : Nat) (src : List Nat)
    (h : dst.length < off + src.length) : store dst off src = none := by
  unfold store
  rw [if_neg (by omega)]

theorem store_length (dst : List Nat) (off : Nat) (src dst1 : List Nat)
    (h : store dst off src = some dst1) : dst1.length = dst.length := by
  unfold store at h
  split_ifs at h with hle
  cases h
  simp
  omega

/-- A store leaves the bytes from `off + src.length` on as they were. -/
theorem store_drop (dst : List Nat) (off : Nat) (src dst1 : List Nat) (k : Nat)
    (h : store dst off src = some dst1) (hk : off + src.length ≤ k) :
    dst1.drop k = dst.drop k := by
  unfold store at h
  split_ifs at h with hle
  cases h
  have e : k = (off + src.length) + (k - (off + src.length)) := by omega
  have l1 : (dst.take off ++ src).length = off + src.length := by
    simp; omega
  rw [e, ← l1, List.append_assoc, ← List.append_assoc, ← List.drop_drop, List.drop_left, l1,
    List.drop_drop]

/-! ## Writer lemmas -/

theorem set_packet_header_of_length (buf : List Nat) (size : Int) (h : 4 ≤ buf.length) :
    set_packet_header buf size = encode_header (size % 65536).toNat ++ buf.drop 4 := by
  match buf, h with
  | b0 :: b1 :: b2 :: b3 :: rest, _ => exact set_packet_header_cons b0 b1 b2 b3 rest size

theorem encode_header_length (n : Nat) : (encode_header n).length = 4 := rfl

theorem write_in_full_calls (fd : Int) (buf : List Nat) (count : Nat) (w : World) :
    (write_in_full fd buf count w).2.fd_out_calls = w.fd_out_calls ++ [(fd, buf.take count)] := by
  obtain ⟨_, _, _, _, _, _, _, _, _, _, _, _, _, _, _, room⟩ := w
  unfold write_in_full
  cases room with
  | none => dsimp only; split_ifs <;> rfl
  | some room => dsimp only; split_ifs <;> rfl

theorem write_in_full_result (fd : Int) (buf : List Nat) (count : Nat) (w : World) :
    (write_in_full fd buf count w).1 = if write_completes fd count w then (count : Int) else -1 := by
  obtain ⟨_, _, _, _, _, _, _, _, _, _, _, _, _, _, _, room⟩ := w
  unfold write_in_full write_completes
  cases room with
  | none =>
    dsimp only
    by_cases hfd : fd < 0
    · rw [if_pos hfd, if_neg (by simp; omega)]
    · rw [if_neg hfd, if_pos (by simp; omega)]
  | some room =>
    dsimp only
    by_cases hfd : fd < 0
    · rw [if_pos hfd, if_neg (by simp; omega)]
    · rw [if_neg hfd]
      by_cases hc : count ≤ room
      · rw [if_pos hc, if_pos (by simp; omega)]
      · rw [if_neg hc, if_neg (by simp; omega)]

theorem write_in_full_data (fd : Int) (buf : List Nat) (count : Nat) (w : World)
    (h : write_completes fd count w) :
    (write_in_full fd buf count w).2.fd_out_data = w.fd_out_data ++ buf.take count := by
  obtain ⟨_, _, _, _, _, _, _, _, _, _, _, _, _, _, _, room⟩ := w
  unfold write_in_full
  unfold write_completes at h
  cases room with
  | none => dsimp only; rw [if_neg (by omega)]
  | some room =>
    dsimp only
    rw [if_neg (by omega), if_pos (h.2 room rfl)]

/-- Only the output descriptor is changed by `write_in_full`; when the request
is not complete the bytes taken are a strict initial part of it. -/
theorem write_in_full_frame (fd : Int) (buf : List Nat) (count : Nat) (w : World) :
    ∃ d r, (write_in_full fd buf count w).2 =
      { w with fd_out_data := d, fd_out_calls := w.fd_out_calls ++ [(fd, buf.take count)],
               fd_out_room := r } := by
  obtain ⟨_, _, _, _, _, _, _, _, _, _, _, _, _, _, _, room⟩ := w
  unfold write_in_full
  cases room with
  | none => dsimp only; split_ifs <;> exact ⟨_, _, rfl⟩
  | some room => dsimp only; split_ifs <;> exact ⟨_, _, rfl⟩

theorem drop_append_exact (a b : List Nat) (n : Nat) (h : a.length = n) :
    (a ++ b).drop n = b := by
  subst h; simp

theorem take_append_exact (a b : List Nat) (n : Nat) (h : a.length = n) :
    (a ++ b).take n = a := by
  subst h; simp

theorem write_in_full_status (fd : Int) (buf : List Nat) (count : Nat) (w : World) :
    (if (write_in_full fd buf count w).1 = (count : Int) then (0 : Int) else -1)
      = if write_completes fd count w then 0 else -1 := by
  rw [write_in_full_result]
  by_cases h : write_completes fd count w
  · simp [h]
  · simp only [h, if_false]
    rw [if_neg (by omega)]

/-- The steps of `packet_write_gently` on an accepted payload. -/
theorem packet_write_gently_accepted (fd_out : Int) (buf : List Nat) (size : Nat) (w : World)
    (hsize : size ≤ PKTLINE_DATA_MAXLEN) (hbuf : size ≤ buf.length)
    (hw : w.packet_write_buffer.length = LARGE_PACKET_MAX) :
    packet_write_gently fd_out buf size w =
      Res.ok (if write_completes fd_out (size + 4) w then 0 else -1)
        (write_in_full fd_out
          (encode_header (size + 4) ++ (buf.take size ++ w.packet_write_buffer.drop (size + 4)))
          (size + 4)
          { packet_trace buf (u32 size) true w with
            packet_write_buffer :=
              encode_header (size + 4) ++ (buf.take size
                ++ w.packet_write_buffer.drop (size + 4)) }).2 := by
  have hmax : PKTLINE_DATA_MAXLEN = 65516 := rfl
  have hlm : LARGE_PACKET_MAX = 65520 := rfl
  unfold packet_write_gently
  rw [if_neg (by omega)]
  dsimp only
  rw [if_neg (by omega)]
  have hlen : (buf.take size).length = size := by simp; omega
  rw [packet_trace_packet_write_buffer,
    store_eq_some _ _ _ (by rw [hlen, hw]; omega)]
  dsimp only
  rw [hlen]
  have h4 : 4 ≤ (List.take 4 w.packet_write_buffer ++ List.take size buf
      ++ List.drop (4 + size) w.packet_write_buffer).length := by
    simp; omega
  rw [set_packet_header_of_length _ _ h4, toI32_of_lt _ (by omega)]
  have e1 : (((size + 4 : Nat) : Int) % 65536).toNat = size + 4 := by omega
  have e2 : List.drop 4 (List.take 4 w.packet_write_buffer ++ List.take size buf
      ++ List.drop (4 + size) w.packet_write_buffer)
      = List.take size buf ++ List.drop (size + 4) w.packet_write_buffer := by
    have l4 : (List.take 4 w.packet_write_buffer).length = 4 := by simp; omega
    rw [List.append_assoc, drop_append_exact _ _ 4 l4, Nat.add_comm 4 size]
  rw [e1, e2, write_in_full_status]
  have e3 : write_completes fd_out (size + 4)
      { packet_trace buf (u32 size) true w with
        packet_write_buffer := encode_header (size + 4)
          ++ (List.take size buf ++ List.drop (size + 4) w.packet_write_buffer) }
      ↔ write_completes fd_out (size + 4) w := by
    unfold write_completes
    simp
  simp only [e3]

/-! ## Claims on the raw and formatted writers -/

theorem write_completes_congr (fd : Int) (count : Nat) (w w1 : World)
    (h : w1.fd_out_room = w.fd_out_room) :
    write_completes fd count w1 ↔ write_completes fd count w := by
  unfold write_completes
  rw [h]

theorem write_completes_packet_trace (fd : Int) (count : Nat) (buf : List Nat) (len : Nat)
    (wr : Bool) (w : World) :
    write_completes fd count (packet_trace buf len wr w) ↔ write_completes fd count w :=
  write_completes_congr fd count w _ (packet_trace_fd_out_room buf len wr w)

theorem world0_packet_write_buffer_length :
    world0.packet_write_buffer.length = LARGE_PACKET_MAX := by
  show (List.replicate 65520 0).length = 65520
  exact List.length_replicate _ _

/-- C4: `packet_write_gently` returns -1 with no write request made exactly
when the payload is longer than `MAX_PACKET_LEN - 4`, and then nothing at all
has changed (no trace either); an accepted payload of `size` bytes leads to one
write request, for the `size + 4` bytes made of the header for `size + 4` and
the payload, and the result is 0 when that request is complete and -1 when not. -/
theorem packet_write_gently_size_limit (fd_out : Int) (buf : List Nat) (size : Nat) (w : World)
    (hbuf : size ≤ buf.length) (hw : w.packet_write_buffer.length = LARGE_PACKET_MAX) :
    ((∃ w1, packet_write_gently fd_out buf size w = Res.ok (-1) w1
        ∧ w1.fd_out_calls = w.fd_out_calls) ↔ size > LARGE_PACKET_MAX - 4) ∧
    (size > LARGE_PACKET_MAX - 4 → packet_write_gently fd_out buf size w = Res.ok (-1) w) ∧
    (size ≤ LARGE_PACKET_MAX - 4 →
      ∃ w1, packet_write_gently fd_out buf size w
            = Res.ok (if write_completes fd_out (size + 4) w then 0 else -1) w1
        ∧ w1.fd_out_calls
            = w.fd_out_calls ++ [(fd_out, encode_header (size + 4) ++ buf.take size)]
        ∧ (write_completes fd_out (size + 4) w →
            w1.fd_out_data = w.fd_out_data ++ (encode_header (size + 4) ++ buf.take size))) := by
  have hrej : size > LARGE_PACKET_MAX - 4 → packet_write_gently fd_out buf size w = Res.ok (-1) w := by
    intro h
    have h1 : size > PKTLINE_DATA_MAXLEN := h
    unfold packet_write_gently
    rw [if_pos h1]
  have hacc : size ≤ LARGE_PACKET_MAX - 4 →
      ∃ w1, packet_write_gently fd_out buf size w
            = Res.ok (if write_completes fd_out (size + 4) w then 0 else -1) w1
        ∧ w1.fd_out_calls
            = w.fd_out_calls ++ [(fd_out, encode_header (size + 4) ++ buf.take size)]
        ∧ (write_completes fd_out (size + 4) w →
            w1.fd_out_data = w.fd_out_data ++ (encode_header (size + 4) ++ buf.take size)) := by
    intro h
    have htake : List.take (size + 4)
        (encode_header (size + 4) ++ (buf.take size ++ w.packet_write_buffer.drop (size + 4)))
        = encode_header (size + 4) ++ buf.take size := by
      rw [← List.append_assoc]
      apply take_append_exact
      simp [encode_header_length]; omega
    refine ⟨_, packet_write_gently_accepted fd_out buf size w h hbuf hw, ?_, ?_⟩
    · rw [write_in_full_calls, htake]
      simp
    · intro hc
      rw [write_in_full_data _ _ _ _ (by simpa [write_completes] using hc), htake]
      simp
  refine ⟨⟨?_, fun h => ⟨w, hrej h, rfl⟩⟩, hrej, hacc⟩
  rintro ⟨w1, h1, h2⟩
  by_contra hn
  obtain ⟨w2, e1, e2, _⟩ := hacc (by omega)
  rw [e1] at h1
  injection h1 with _ hw12
  rw [← hw12, e2] at h2
  simp at h2

/-- Witness for C4: the payload `hi` on an idle process goes out as `0006hi`
in one request. -/
theorem packet_write_gently_size_limit_witness :
    ∃ w1, packet_write_gently 1 [104, 105] 2 world0 = Res.ok 0 w1
      ∧ w1.fd_out_calls = [(1, [48, 48, 48, 54, 104, 105])]
      ∧ w1.fd_out_data = [48, 48, 48, 54, 104, 105] := by
  obtain ⟨w1, h1, h2, h3⟩ :=
    (packet_write_gently_size_limit 1 [104, 105] 2 world0 (by decide)
      world0_packet_write_buffer_length).2.2 (by decide)
  have hc : write_completes 1 (2 + 4) world0 := by decide
  refine ⟨w1, ?_, ?_, ?_⟩
  · rw [h1, if_pos hc]
  · rw [h2]; rfl
  · rw [h3 hc]; rfl

/-- The gentle `format_packet` on a text that makes the packet longer than
`LARGE_PACKET_MAX`: the status is -1 and the buffer holds the flush header and
the text. -/
theorem format_packet_gentle_oversize (text : List Nat) (w : World)
    (h : text.length + 4 > LARGE_PACKET_MAX) :
    format_packet true [] text w = Res.ok (-1, flush_pkt ++ text) w := by
  have hl : (flush_pkt ++ text).length > LARGE_PACKET_MAX := by
    have : (flush_pkt ++ text).length = text.length + 4 := by simp [flush_pkt]
    rw [this]; exact h
  unfold format_packet
  simp only [List.nil_append, List.length_nil, Nat.sub_zero]
  rw [if_pos hl]
  rfl

/-- The steps of `packet_write_gently_fmt` on a text that makes the packet
longer than `LARGE_PACKET_MAX`: the flush header stays in front of the text and
the whole is traced and written. -/
theorem packet_write_gently_fmt_oversize (fd : Int) (text : List Nat) (w : World)
    (h : text.length + 4 > LARGE_PACKET_MAX) :
    packet_write_gently_fmt fd text w =
      Res.ok (if write_completes fd (text.length + 4) w then 0 else -1)
        (write_in_full fd (flush_pkt ++ text) (text.length + 4)
          (packet_trace text (u32 text.length) true w)).2 := by
  have hl : (flush_pkt ++ text).length = text.length + 4 := by
    simp [flush_pkt]
  unfold packet_write_gently_fmt format_packet
  simp only [List.nil_append, List.length_nil, Nat.sub_zero]
  have h1 : (flush_pkt ++ text).length > LARGE_PACKET_MAX := by rw [hl]; exact h
  rw [if_pos h1]
  simp only [if_true]
  have hd : List.drop 4 (flush_pkt ++ text) = text := drop_append_exact _ _ 4 rfl
  rw [hd, hl, Nat.add_sub_cancel, write_in_full_status]
  simp only [write_completes_packet_trace]

/-- C5 (evaluation at the failing input): for the formatted text of 65517
bytes `a`, which makes a packet of 65521 bytes, the gentle `format_packet`
reports -1, yet `packet_write_gently_fmt` on an idle process returns 0 and has
written the 65521 bytes `0000aaa...` in one request. -/
theorem packet_write_gently_fmt_writes_oversize :
    format_packet true [] (List.replicate 65517 97) world0
      = Res.ok (-1, flush_pkt ++ List.replicate 65517 97) world0 ∧
    ∃ w1, packet_write_gently_fmt 1 (List.replicate 65517 97) world0 = Res.ok 0 w1
      ∧ w1.fd_out_calls = [(1, flush_pkt ++ List.replicate 65517 97)]
      ∧ w1.fd_out_data = flush_pkt ++ List.replicate 65517 97 := by
  have hlen : (List.replicate 65517 97).length = 65517 := List.length_replicate _ _
  have hover : (List.replicate 65517 97).length + 4 > LARGE_PACKET_MAX := by
    rw [hlen]; decide
  have hc : write_completes 1 ((List.replicate 65517 97).length + 4) world0 := by
    unfold write_completes
    exact ⟨by decide, by intro r hr; cases hr⟩
  have htake : List.take ((List.replicate 65517 97).length + 4)
      (flush_pkt ++ List.replicate 65517 97) = flush_pkt ++ List.replicate 65517 97 := by
    apply List.take_of_length_le
    rw [List.length_append, hlen]
    decide
  refine ⟨format_packet_gentle_oversize _ world0 hover, (write_in_full 1 (flush_pkt ++ List.replicate 65517 97)
    ((List.replicate 65517 97).length + 4)
    (packet_trace (List.replicate 65517 97) (u32 (List.replicate 65517 97).length) true
      world0)).2, ?_, ?_, ?_⟩
  · rw [packet_write_gently_fmt_oversize 1 _ world0 hover, if_pos hc]
  · rw [write_in_full_calls, packet_trace_fd_out_calls, htake]
    rfl
  · rw [write_in_full_data _ _ _ _ ((write_completes_packet_trace _ _ _ _ _ _).2 hc),
      packet_trace_fd_out_data, htake]
    rfl

/-! ## Reader lemmas: `get_packet_data` -/

/-- A cursor that holds the `size` bytes asked for: they are copied, the cursor
moves past them and the result is `size`. -/
theorem get_packet_data_cursor_full (fd : Int) (s dst : List Nat) (size options : Nat)
    (w : World) (hfd : fd < 0) (hs : size ≤ s.length) (hdst : size ≤ dst.length)
    (hsz : size < 2147483648) :
    get_packet_data fd (some s) dst size options w =
      Res.ok ((size : Int), some (s.drop size), s.take size ++ dst.drop size) w := by
  unfold get_packet_data
  rw [if_neg (by omega)]
  dsimp only
  have hmin : (if size < s.length then size else s.length) = size := by
    split_ifs <;> omega
  rw [hmin]
  have hl : (s.take size).length = size := by simp; omega
  rw [store_zero _ _ (by omega)]
  dsimp only
  unfold get_packet_data_finish
  rw [if_neg (by omega), hl]
  simp only [Int.toNat_ofNat]
  rw [toI32_of_lt _ hsz]

/-- A cursor that holds fewer bytes than asked for: what is there is copied and
the cursor is used up; the result is -1 under the gentle option, an abort
otherwise. -/
theorem get_packet_data_cursor_short (fd : Int) (s dst : List Nat) (size options : Nat)
    (w : World) (hfd : fd < 0) (hs : s.length < size) (hdst : s.length ≤ dst.length) :
    get_packet_data fd (some s) dst size options w =
      if gentle options then Res.ok (-1, some [], s ++ dst.drop s.length) w
      else Res.die Fatal.hung_up w := by
  unfold get_packet_data
  rw [if_neg (by omega)]
  dsimp only
  have hmin : (if size < s.length then size else s.length) = s.length := by
    split_ifs <;> omega
  rw [hmin, List.take_length, store_zero _ _ hdst]
  dsimp only
  unfold get_packet_data_finish gentle
  rw [if_pos (by omega), List.drop_length]

/-- A descriptor that holds the `size` bytes asked for. -/
theorem get_packet_data_fd_full (fd : Int) (dst : List Nat) (size options : Nat)
    (w : World) (hfd : 0 ≤ fd) (hs : size ≤ w.fd_in_data.length) (hdst : size ≤ dst.length)
    (hsz : size < 2147483648) :
    get_packet_data fd none dst size options w =
      Res.ok ((size : Int), none, w.fd_in_data.take size ++ dst.drop size)
        { w with fd_in_data := w.fd_in_data.drop size } := by
  unfold get_packet_data read_in_full
  rw [if_neg (by simp), if_neg (by omega), if_pos hs]
  dsimp only
  have hl : (w.fd_in_data.take size).length = size := by simp; omega
  rw [store_zero _ _ (by omega), hl]
  dsimp only
  rw [if_neg (by omega)]
  unfold get_packet_data_finish
  rw [if_neg (by omega)]
  simp only [Int.toNat_ofNat]
  rw [toI32_of_lt _ hsz]

/-- A descriptor that ends before the `size` bytes asked for are there. -/
theorem get_packet_data_fd_short (fd : Int) (dst : List Nat) (size options : Nat)
    (w : World) (hfd : 0 ≤ fd) (hs : w.fd_in_data.length < size)
    (hdst : w.fd_in_data.length ≤ dst.length) :
    get_packet_data fd none dst size options w =
      if w.fd_in_broken then Res.die Fatal.read_error { w with fd_in_data := [] }
      else if gentle options then
        Res.ok (-1, none, w.fd_in_data ++ dst.drop w.fd_in_data.length)
          { w with fd_in_data := [] }
      else Res.die Fatal.hung_up { w with fd_in_data := [] } := by
  unfold get_packet_data read_in_full
  rw [if_neg (by simp), if_neg (by omega), if_neg (by omega)]
  by_cases hb : w.fd_in_broken = true
  · rw [if_pos hb, if_pos hb]
    dsimp only
    rw [store_zero _ _ hdst]
    dsimp only
    rw [if_pos (by decide)]
  · rw [if_neg hb, if_neg hb]
    dsimp only
    rw [store_zero _ _ hdst]
    dsimp only
    rw [if_neg (by omega)]
    unfold get_packet_data_finish gentle
    rw [if_pos (by omega)]

/-- What a returning `get_packet_data` has done to the destination: it has the
same extent, nothing at or after index `size` has changed, and the result is
either the sentinel -1 (under the gentle option only) or `size` as an `int`. -/
theorem get_packet_data_ok_inv (fd : Int) (src : Option (List Nat)) (dst : List Nat)
    (size options : Nat) (w : World) (ret : Int) (src1 : Option (List Nat)) (dst1 : List Nat)
    (w1 : World)
    (h : get_packet_data fd src dst size options w = Res.ok (ret, src1, dst1) w1) :
    dst1.length = dst.length ∧ dst1.drop size = dst.drop size ∧
      ((ret = -1 ∧ gentle options) ∨ ret = toI32 size) := by
  have fin : ∀ (r : Nat) (s0 : Option (List Nat)) (d0 : List Nat) (w0 : World),
      r ≤ size →
      get_packet_data_finish (r : Int) s0 d0 size options w0 = Res.ok (ret, src1, dst1) w1 →
      d0 = dst1 ∧ ((ret = -1 ∧ gentle options) ∨ ret = toI32 size) := by
    intro r s0 d0 w0 hr hf
    unfold get_packet_data_finish at hf
    split_ifs at hf with h1 h2
    · injection hf with hv _
      injection hv with hv1 hv2
      injection hv2 with _ hv3
      exact ⟨hv3, Or.inl ⟨hv1.symm, h2⟩⟩
    · injection hf with hv _
      injection hv with hv1 hv2
      injection hv2 with _ hv3
      have : r = size := by omega
      subst this
      simp only [Int.toNat_ofNat] at hv1
      exact ⟨hv3, Or.inr hv1.symm⟩
  have st : ∀ (bytes d0 : List Nat), bytes.length ≤ size → store dst 0 bytes = some d0 →
      d0.length = dst.length ∧ d0.drop size = dst.drop size := by
    intro bytes d0 hb hst
    exact ⟨store_length _ _ _ _ hst, store_drop _ _ _ _ size hst (by omega)⟩
  unfold get_packet_data at h
  split_ifs at h with hboth
  cases src with
  | some s =>
    dsimp only at h
    cases hst : store dst 0 (List.take (if size < s.length then size else s.length) s) with
    | none => rw [hst] at h; cases h
    | some d0 =>
      rw [hst] at h
      dsimp only at h
      have hmin : (if size < s.length then size else s.length) ≤ size := by split_ifs <;> omega
      have hlen : (List.take (if size < s.length then size else s.length) s).length ≤ size := by
        rw [List.length_take]; omega
      obtain ⟨e1, e2⟩ := fin _ _ _ _ hmin h
      obtain ⟨e3, e4⟩ := st _ _ hlen hst
      subst e1
      exact ⟨e3, e4, e2⟩
  | none =>
    dsimp only at h
    cases hst : store dst 0 (read_in_full fd size w).2.1 with
    | none => rw [hst] at h; cases h
    | some d0 =>
      rw [hst] at h
      dsimp only at h
      split_ifs at h with hneg
      have hrd : (read_in_full fd size w).2.1.length ≤ size
          ∧ ∃ r : Nat, (read_in_full fd size w).1 = (r : Int) ∧ r ≤ size := by
        unfold read_in_full at hneg ⊢
        split_ifs at hneg ⊢ with c1 c2 c3
        · exact absurd (show ((-1 : Int) < 0) by decide) hneg
        · exact ⟨by simp, size, rfl, le_refl _⟩
        · exact absurd (show ((-1 : Int) < 0) by decide) hneg
        · exact ⟨by dsimp only; omega, _, rfl, by omega⟩
      obtain ⟨hlen, r, hr1, hr2⟩ := hrd
      rw [hr1] at h
      obtain ⟨e1, e2⟩ := fin _ _ _ _ hr2 h
      obtain ⟨e3, e4⟩ := st _ _ hlen hst
      subst e1
      exact ⟨e3, e4, e2⟩

/-- With room for `size` bytes in the destination, `get_packet_data` stays
inside the region. -/
theorem get_packet_data_not_ub (fd : Int) (src : Option (List Nat)) (dst : List Nat)
    (size options : Nat) (w : World) (hdst : size ≤ dst.length) :
    get_packet_data fd src dst size options w ≠ Res.ub := by
  have fin : ∀ (r : Int) (s0 : Option (List Nat)) (d0 : List Nat) (w0 : World),
      get_packet_data_finish r s0 d0 size options w0 ≠ Res.ub := by
    intro r s0 d0 w0
    unfold get_packet_data_finish
    split_ifs <;> simp
  unfold get_packet_data
  split_ifs with hboth
  · simp
  · cases src with
    | some s =>
      dsimp only
      have hmin : (if size < s.length then size else s.length) ≤ size := by split_ifs <;> omega
      rw [store_zero _ _ (by rw [List.length_take]; omega)]
      exact fin _ _ _ _
    | none =>
      dsimp only
      have hlen : (read_in_full fd size w).2.1.length ≤ size := by
        unfold read_in_full
        split_ifs
        · simp
        · simp
        · dsimp only; omega
        · dsimp only; omega
      rw [store_zero _ _ (by omega)]
      dsimp only
      split_ifs
      · simp
      · exact fin _ _ _ _

/-! ## Reader lemmas: `packet_read` after the header -/

/-- A header with a character that is no hexadecimal digit: `packet_read` aborts. -/
theorem packet_read_bad_header (fd : Int) (src src1 : Option (List Nat))
    (buffer linelen : List Nat) (size options : Nat) (w w1 : World)
    (hhdr : get_packet_data fd src [0, 0, 0, 0] 4 options w = Res.ok (4, src1, linelen) w1)
    (hlen : packet_length linelen < 0) :
    packet_read fd src buffer size options w = Res.die (Fatal.bad_length_char linelen) w1 := by
  unfold packet_read
  rw [hhdr]
  dsimp only
  rw [if_neg (by decide), if_pos hlen]

/-- The flush header: `packet_read` traces it and returns 0, the destination untouched. -/
theorem packet_read_flush (fd : Int) (src src1 : Option (List Nat))
    (buffer linelen : List Nat) (size options : Nat) (w w1 : World)
    (hhdr : get_packet_data fd src [0, 0, 0, 0] 4 options w = Res.ok (4, src1, linelen) w1)
    (hlen : packet_length linelen = 0) :
    packet_read fd src buffer size options w =
      Res.ok (0, src1, buffer) (packet_trace flush_pkt 4 false w1) := by
  unfold packet_read
  rw [hhdr]
  dsimp only
  rw [if_neg (by decide), hlen, if_neg (by decide), if_pos rfl]

/-- A header whose length, less 4 and read as `unsigned`, is not below the
capacity: `packet_read` aborts. -/
theorem packet_read_bad_line_length (fd : Int) (src src1 : Option (List Nat))
    (buffer linelen : List Nat) (size options : Nat) (w w1 : World) (T : Int)
    (hhdr : get_packet_data fd src [0, 0, 0, 0] 4 options w = Res.ok (4, src1, linelen) w1)
    (hlen : packet_length linelen = T) (hT : 0 < T) (hcap : toU32 (T - 4) ≥ size) :
    packet_read fd src buffer size options w = Res.die (Fatal.bad_line_length (T - 4)) w1 := by
  unfold packet_read
  rw [hhdr]
  dsimp only
  rw [if_neg (by decide), hlen, if_neg (by omega), if_neg (by omega), if_pos hcap]

/-- A header that passes the capacity check, followed by a payload read that
aborts: `packet_read` aborts the same way. -/
theorem packet_read_payload_die (fd : Int) (src src1 : Option (List Nat))
    (buffer linelen : List Nat) (size options : Nat) (w w1 w2 : World) (T : Int) (m : Fatal)
    (hhdr : get_packet_data fd src [0, 0, 0, 0] 4 options w = Res.ok (4, src1, linelen) w1)
    (hlen : packet_length linelen = T) (hT : 0 < T) (hcap : toU32 (T - 4) < size)
    (hpay : get_packet_data fd src1 buffer (toU32 (T - 4)) options w1 = Res.die m w2) :
    packet_read fd src buffer size options w = Res.die m w2 := by
  unfold packet_read
  rw [hhdr]
  dsimp only
  rw [if_neg (by decide), hlen, if_neg (by omega), if_neg (by omega), if_neg (by omega), hpay]

/-- A header that passes the capacity check, followed by a payload read that
gives the sentinel: `packet_read` returns the sentinel. -/
theorem packet_read_payload_sentinel (fd : Int) (src src1 src2 : Option (List Nat))
    (buffer linelen buf1 : List Nat) (size options : Nat) (w w1 w2 : World) (T ret : Int)
    (hhdr : get_packet_data fd src [0, 0, 0, 0] 4 options w = Res.ok (4, src1, linelen) w1)
    (hlen : packet_length linelen = T) (hT : 0 < T) (hcap : toU32 (T - 4) < size)
    (hpay : get_packet_data fd src1 buffer (toU32 (T - 4)) options w1
      = Res.ok (ret, src2, buf1) w2) (hret : ret < 0) :
    packet_read fd src buffer size options w = Res.ok (ret, src2, buf1) w2 := by
  unfold packet_read
  rw [hhdr]
  dsimp only
  rw [if_neg (by decide), hlen, if_neg (by omega), if_neg (by omega), if_neg (by omega), hpay]
  dsimp only
  rw [if_pos hret]

/-- A header for a payload of `L` bytes that passes the capacity check, followed
by a complete payload read: `packet_read` chomps, stores the NUL, traces and
returns the reported length. -/
theorem packet_read_payload_ok (fd : Int) (src src1 src2 : Option (List Nat))
    (buffer linelen buf1 : List Nat) (size options : Nat) (w w1 w2 : World) (L : Nat) (ret : Int)
    (hhdr : get_packet_data fd src [0, 0, 0, 0] 4 options w = Res.ok (4, src1, linelen) w1)
    (hlen : packet_length linelen = (L : Int) + 4) (hL : L < 4294967296) (hcap : L < size)
    (hpay : get_packet_data fd src1 buffer L options w1 = Res.ok (ret, src2, buf1) w2)
    (hret : 0 ≤ ret) (hbuf : L < buf1.length) :
    packet_read fd src buffer size options w =
      Res.ok ((reported_length options buf1 L : Int), src2,
          buf1.take (reported_length options buf1 L) ++ [0]
            ++ buf1.drop (reported_length options buf1 L + 1))
        (packet_trace (buf1.take (reported_length options buf1 L) ++ [0]
            ++ buf1.drop (reported_length options buf1 L + 1))
          (reported_length options buf1 L) false w2) := by
  have hu : toU32 ((L : Int) + 4 - 4) = L := by
    rw [show (L : Int) + 4 - 4 = (L : Int) by omega]
    exact toU32_natCast L hL
  unfold packet_read
  rw [hhdr]
  dsimp only
  rw [if_neg (by decide), hlen, if_neg (by omega), if_neg (by omega), hu, if_neg (by omega), hpay]
  dsimp only
  rw [if_neg (by omega)]
  have e4 : (L : Int) + 4 - 4 = (L : Int) := by omega
  rw [e4]
  obtain ⟨c, hc⟩ : ∃ c, buf1.get? (L - 1) = some c := by
    have : L - 1 < buf1.length := by omega
    exact ⟨_, List.get?_eq_get this⟩
  by_cases hch : chomp_newline options ∧ L ≠ 0
  · have hload : load buf1 ((L : Int) - 1) = some c := by
      unfold load
      rw [if_neg (by omega)]
      have : ((L : Int) - 1).toNat = L - 1 := by omega
      rw [this, hc]
    have hcond : (options &&& PACKET_READ_CHOMP_NEWLINE ≠ 0 ∧ (L : Int) ≠ 0) := by
      refine ⟨hch.1, ?_⟩
      have := hch.2
      omega
    rw [if_pos hcond, hload]
    simp only [Option.map_some']
    by_cases h10 : c = 10
    · subst h10
      have hr : reported_length options buf1 L = L - 1 := by
        unfold reported_length
        rw [if_pos ⟨hch.1, hch.2, hc⟩]
      rw [hr]
      simp only [decide_True, if_true]
      rw [if_neg (by omega)]
      have e5 : ((L : Int) - 1).toNat = L - 1 := by omega
      have e6 : toU32 ((L : Int) - 1) = L - 1 := by
        rw [show ((L : Int) - 1) = ((L - 1 : Nat) : Int) by omega]
        exact toU32_natCast _ (by omega)
      have e7 : ((L : Int) - 1) = ((L - 1 : Nat) : Int) := by omega
      rw [e5, store_eq_some _ _ _ (by simp; omega)]
      dsimp only
      rw [e6, e7]
      simp
    · have hr : reported_length options buf1 L = L := by
        unfold reported_length
        rw [if_neg]
        intro hh
        rw [hc] at hh
        exact h10 (Option.some.inj hh.2.2)
      rw [hr]
      simp only [h10, decide_False, Bool.false_eq_true, if_false]
      rw [if_neg (by omega)]
      simp only [Int.toNat_ofNat]
      rw [store_eq_some _ _ _ (by simp; omega)]
      dsimp only
      rw [toU32_natCast _ hL]
      rfl
  · have hr : reported_length options buf1 L = L := by
      unfold reported_length
      rw [if_neg]
      intro hh
      exact hch ⟨hh.1, hh.2.1⟩
    have hcond : ¬ (options &&& PACKET_READ_CHOMP_NEWLINE ≠ 0 ∧ (L : Int) ≠ 0) := by
      intro hh
      apply hch
      refine ⟨hh.1, ?_⟩
      have := hh.2
      omega
    rw [hr, if_neg hcond]
    simp only [Bool.false_eq_true, if_false]
    rw [if_neg (by omega)]
    simp only [Int.toNat_ofNat]
    rw [store_eq_some _ _ _ (by simp; omega)]
    dsimp only
    rw [toU32_natCast _ hL]
    rfl

/-! ## Claim on the single-packet round trip -/

theorem reported_length_no_chomp (options : Nat) (buf : List Nat) (len : Nat)
    (h : ¬ chomp_newline options) : reported_length options buf len = len := by
  unfold reported_length
  rw [if_neg (fun hh => h hh.1)]

/-- Reading back, from an in-memory cursor, a data packet made of the header
for `payload.length + 4` and the payload, with room in the destination. -/
theorem packet_read_cursor_packet (fd : Int) (payload rest buffer : List Nat)
    (size options : Nat) (w : World)
    (hfd : fd < 0) (hL : payload.length + 4 ≤ 65535) (hsize : payload.length < size)
    (hcap : size ≤ buffer.length) :
    packet_read fd (some (encode_header (payload.length + 4) ++ payload ++ rest)) buffer size
        options w =
      Res.ok ((reported_length options payload payload.length : Int), some rest,
          payload.take (reported_length options payload payload.length) ++ [0]
            ++ buffer.drop (reported_length options payload payload.length + 1))
        (packet_trace (payload.take (reported_length options payload payload.length) ++ [0]
            ++ buffer.drop (reported_length options payload payload.length + 1))
          (reported_length options payload payload.length) false w) := by
  have hhdr : get_packet_data fd
      (some (encode_header (payload.length + 4) ++ payload ++ rest)) [0, 0, 0, 0] 4 options w
      = Res.ok (4, some (payload ++ rest), encode_header (payload.length + 4) ++ []) w := by
    rw [get_packet_data_cursor_full fd _ _ 4 options w hfd (by simp [encode_header_length])
      (by simp) (by decide)]
    rw [List.append_assoc, drop_append_exact _ _ 4 (encode_header_length _),
      take_append_exact _ _ 4 (encode_header_length _)]
    rfl
  have hlen : packet_length (encode_header (payload.length + 4) ++ [])
      = (payload.length : Int) + 4 := by
    rw [packet_length_encode_header _ _ hL]; push_cast; rfl
  have hpay : get_packet_data fd (some (payload ++ rest)) buffer payload.length options w
      = Res.ok ((payload.length : Int), some rest, payload ++ buffer.drop payload.length) w := by
    rw [get_packet_data_cursor_full fd _ _ payload.length options w hfd (by simp) (by omega)
      (by omega)]
    rw [drop_append_exact _ _ _ rfl, take_append_exact _ _ _ rfl]
  have hb : payload.length < (payload ++ buffer.drop payload.length).length := by
    rw [List.length_append, List.length_drop]; omega
  rw [packet_read_payload_ok fd _ _ _ buffer _ _ size options w w w payload.length _ hhdr hlen
    (by omega) hsize hpay (by omega) hb]
  have hrl : reported_length options (payload ++ buffer.drop payload.length) payload.length
      = reported_length options payload payload.length := by
    unfold reported_length
    by_cases h0 : payload.length = 0
    · rw [if_neg (fun hh => hh.2.1 h0), if_neg (fun hh => hh.2.1 h0)]
    · have : (payload ++ buffer.drop payload.length).get? (payload.length - 1)
          = payload.get? (payload.length - 1) := by
        simp only [List.get?_eq_getElem?]
        exact List.getElem?_append_left (by omega)
      rw [this]
  have hcases : reported_length options payload payload.length = payload.length
      ∨ (reported_length options payload payload.length + 1 = payload.length) := by
    unfold reported_length; split_ifs <;> omega
  rw [hrl]
  generalize reported_length options payload payload.length = n at hcases
  have ht : List.take n (payload ++ buffer.drop payload.length) = payload.take n := by
    rw [List.take_append_of_le_length (by omega)]
  have hd : List.drop (n + 1) (payload ++ buffer.drop payload.length)
      = buffer.drop (n + 1) := by
    rcases hcases with h | h
    · rw [h, List.drop_append_eq_append_drop, List.drop_of_length_le (by omega)]
      simp [List.drop_drop, Nat.add_comm]
    · rw [h, drop_append_exact _ _ _ rfl]
  rw [ht, hd]

/-- C1: a payload of at most `MAX_PACKET_LEN - 4` bytes written by
`packet_write_gently` with a complete write, and the bytes that reached the
descriptor handed to `packet_read` as an in-memory cursor with options 0 and a
capacity above the payload length: the write returns 0, and `packet_read`
returns the payload length, leaves the payload at the start of the destination
with a NUL after it, and leaves the cursor empty. -/
theorem packet_roundtrip (fd_out fd : Int) (payload tail buffer : List Nat) (size : Nat)
    (w w2 : World)
    (hL : payload.length ≤ LARGE_PACKET_MAX - 4)
    (hw : w.packet_write_buffer.length = LARGE_PACKET_MAX)
    (hwrite : write_completes fd_out (payload.length + 4) w)
    (hfd : fd < 0) (hsize : payload.length < size) (hcap : size ≤ buffer.length) :
    ∃ w1 w3 buffer1,
      packet_write_gently fd_out (payload ++ tail) payload.length w = Res.ok 0 w1 ∧
      packet_read fd (some (w1.fd_out_data.drop w.fd_out_data.length)) buffer size 0 w2
        = Res.ok ((payload.length : Int), some [], buffer1) w3 ∧
      buffer1.take payload.length = payload ∧
      buffer1.get? payload.length = some 0 := by
  have hmax : LARGE_PACKET_MAX = 65520 := rfl
  have hacc := packet_write_gently_accepted fd_out (payload ++ tail) payload.length w
    (by show payload.length ≤ LARGE_PACKET_MAX - 4; exact hL) (by simp) hw
  rw [if_pos hwrite, take_append_exact _ _ _ rfl] at hacc
  have hdata := write_in_full_data fd_out
    (encode_header (payload.length + 4)
      ++ (payload ++ w.packet_write_buffer.drop (payload.length + 4)))
    (payload.length + 4)
    { packet_trace (payload ++ tail) (u32 payload.length) true w with
      packet_write_buffer := encode_header (payload.length + 4)
        ++ (payload ++ w.packet_write_buffer.drop (payload.length + 4)) }
    ((write_completes_congr _ _ w _ (packet_trace_fd_out_room _ _ _ _)).2 hwrite)
  have htake : List.take (payload.length + 4)
      (encode_header (payload.length + 4)
        ++ (payload ++ w.packet_write_buffer.drop (payload.length + 4)))
      = encode_header (payload.length + 4) ++ payload := by
    rw [← List.append_assoc]
    apply take_append_exact
    simp [encode_header_length]; omega
  rw [htake] at hdata
  have hdata2 : ∀ x : World, x.fd_out_data = (packet_trace (payload ++ tail)
      (u32 payload.length) true w).fd_out_data
        ++ (encode_header (payload.length + 4) ++ payload) →
      x.fd_out_data.drop w.fd_out_data.length
        = encode_header (payload.length + 4) ++ payload ++ [] := by
    intro x hx
    rw [hx, packet_trace_fd_out_data, drop_append_exact _ _ _ rfl, List.append_nil]
  have hread := packet_read_cursor_packet fd payload [] buffer size 0 w2 hfd (by omega) hsize hcap
  rw [reported_length_no_chomp 0 _ _ (by decide)] at hread
  refine ⟨_, packet_trace (payload.take payload.length ++ [0]
      ++ buffer.drop (payload.length + 1)) payload.length false w2,
    payload.take payload.length ++ [0] ++ buffer.drop (payload.length + 1), hacc, ?_, ?_, ?_⟩
  · rw [hdata2 _ hdata]
    exact hread
  · rw [List.take_length, List.append_assoc, take_append_exact _ _ _ rfl]
  · rw [List.take_length, List.append_assoc]
    simp only [List.get?_eq_getElem?]
    rw [List.getElem?_append_right (by simp)]
    simp

/-- Witness for C1: the payload `hi`, written on an idle process and read back
into a destination of four bytes. -/
theorem packet_roundtrip_witness :
    ∃ w1 w3 buffer1,
      packet_write_gently 1 ([104, 105] ++ []) [104, 105].length world0 = Res.ok 0 w1 ∧
      packet_read (-1) (some (w1.fd_out_data.drop world0.fd_out_data.length)) [7, 7, 7, 7] 4 0
          world0
        = Res.ok (([104, 105].length : Int), some [], buffer1) w3 ∧
      buffer1.take [104, 105].length = [104, 105] ∧
      buffer1.get? [104, 105].length = some 0 :=
  packet_roundtrip 1 (-1) [104, 105] [] [7, 7, 7, 7] 4 world0 world0 (by decide)
    world0_packet_write_buffer_length (by decide) (by decide) (by decide) (by decide)

/-! ## Claims on the checks of `packet_read` -/

/-- The only aborts inside `get_packet_data`. -/
theorem get_packet_data_die_msg (fd : Int) (src : Option (List Nat)) (dst : List Nat)
    (size options : Nat) (w w1 : World) (m : Fatal)
    (h : get_packet_data fd src dst size options w = Res.die m w1) :
    m = Fatal.multiple_sources ∨ m = Fatal.read_error ∨ m = Fatal.hung_up := by
  have fin : ∀ (r : Int) (s0 : Option (List Nat)) (d0 : List Nat) (w0 : World),
      get_packet_data_finish r s0 d0 size options w0 = Res.die m w1 → m = Fatal.hung_up := by
    intro r s0 d0 w0 hf
    unfold get_packet_data_finish at hf
    split_ifs at hf
    injection hf with hm _
    exact hm.symm
  unfold get_packet_data at h
  split_ifs at h with hboth
  · injection h with hm _
    exact Or.inl hm.symm
  · cases src with
    | some s =>
      dsimp only at h
      cases hst : store dst 0 (List.take (if size < s.length then size else s.length) s) with
      | none => rw [hst] at h; cases h
      | some d0 =>
        rw [hst] at h
        exact Or.inr (Or.inr (fin _ _ _ _ h))
    | none =>
      dsimp only at h
      cases hst : store dst 0 (read_in_full fd size w).2.1 with
      | none => rw [hst] at h; cases h
      | some d0 =>
        rw [hst] at h
        dsimp only at h
        split_ifs at h
        · injection h with hm _
          exact Or.inr (Or.inl hm.symm)
        · exact Or.inr (Or.inr (fin _ _ _ _ h))

/-- A header region of four bytes decodes to -1 or to a value below `2^16`. -/
theorem packet_length_range (linelen : List Nat) (h : linelen.length = 4) :
    packet_length linelen = -1 ∨ (0 ≤ packet_length linelen ∧ packet_length linelen ≤ 65535) := by
  match linelen, h with
  | [c0, c1, c2, c3], _ =>
    by_cases hd : isHexDigit c0 ∧ isHexDigit c1 ∧ isHexDigit c2 ∧ isHexDigit c3
    · right
      have l0 := hexDigitValue_lt c0 hd.1
      have l1 := hexDigitValue_lt c1 hd.2.1
      have l2 := hexDigitValue_lt c2 hd.2.2.1
      have l3 := hexDigitValue_lt c3 hd.2.2.2
      rw [packet_length_digits _ _ _ _ _ hd]
      omega
    · left
      exact packet_length_bad _ _ _ _ _ hd

/-- The header region that a returning header read leaves has four bytes. -/
theorem header_region_length (fd : Int) (src src1 : Option (List Nat)) (linelen : List Nat)
    (options : Nat) (w w1 : World) (ret : Int)
    (hhdr : get_packet_data fd src [0, 0, 0, 0] 4 options w = Res.ok (ret, src1, linelen) w1) :
    linelen.length = 4 :=
  (get_packet_data_ok_inv _ _ _ _ _ _ _ _ _ _ hhdr).1

/-- C6: after a header that decodes to a total `T ≥ 4`, `packet_read` aborts
with `bad line length` exactly when `T - 4` is not below the capacity `size`,
whatever the options; it never stores outside the destination; and when it
returns a length `n ≥ 0`, then `n < size`, the NUL is at index `n`, and no byte
at or after index `size` has changed. -/
theorem packet_read_capacity_check (fd : Int) (src src1 : Option (List Nat))
    (buffer linelen : List Nat) (size options : Nat) (w w1 : World) (T : Int)
    (hhdr : get_packet_data fd src [0, 0, 0, 0] 4 options w = Res.ok (4, src1, linelen) w1)
    (hlen : packet_length linelen = T) (hT : 4 ≤ T) (hcap : size ≤ buffer.length) :
    ((∃ len w2, packet_read fd src buffer size options w
        = Res.die (Fatal.bad_line_length len) w2) ↔ T - 4 ≥ (size : Int)) ∧
    packet_read fd src buffer size options w ≠ Res.ub ∧
    (∀ n src2 buffer1 w2,
      packet_read fd src buffer size options w = Res.ok (n, src2, buffer1) w2 → 0 ≤ n →
        n < (size : Int) ∧ buffer1.length = buffer.length ∧
        buffer1.drop size = buffer.drop size ∧ buffer1.get? n.toNat = some 0) := by
  have h4 := header_region_length _ _ _ _ _ _ _ _ hhdr
  have hr := packet_length_range linelen h4
  rw [hlen] at hr
  have hT2 : T ≤ 65535 := by omega
  obtain ⟨L, rfl⟩ : ∃ L : Nat, T = (L : Int) + 4 := ⟨(T - 4).toNat, by omega⟩
  have hu : toU32 ((L : Int) + 4 - 4) = L := by
    rw [show (L : Int) + 4 - 4 = (L : Int) by omega]
    exact toU32_natCast L (by omega)
  by_cases hbig : L ≥ size
  · -- the capacity check fails
    have hdie := packet_read_bad_line_length fd src src1 buffer linelen size options w w1
      ((L : Int) + 4) hhdr hlen (by omega) (by rw [hu]; exact hbig)
    refine ⟨⟨fun _ => by omega, fun _ => ⟨_, _, hdie⟩⟩, by rw [hdie]; simp, ?_⟩
    intro n src2 buffer1 w2 hok
    rw [hdie] at hok
    cases hok
  · -- the capacity check passes
    have hlt : L < size := by omega
    cases hpay : get_packet_data fd src1 buffer L options w1 with
    | ub => exact absurd hpay (get_packet_data_not_ub _ _ _ _ _ _ (by omega))
    | die m w2 =>
      have hdie := packet_read_payload_die fd src src1 buffer linelen size options w w1 w2
        ((L : Int) + 4) m hhdr hlen (by omega) (by rw [hu]; exact hlt) (by rw [hu]; exact hpay)
      have hm := get_packet_data_die_msg _ _ _ _ _ _ _ _ hpay
      refine ⟨⟨?_, fun h => by omega⟩, by rw [hdie]; simp, ?_⟩
      · rintro ⟨len, w3, h⟩
        rw [hdie] at h
        have hm2 := (Res.die.inj h).1
        rcases hm with e | e | e <;> (rw [e] at hm2; cases hm2)
      · intro n src2 buffer1 w3 hok
        rw [hdie] at hok
        cases hok
    | ok r w2 =>
      obtain ⟨ret, src2, buf1⟩ := r
      obtain ⟨hl1, hd1, hret⟩ := get_packet_data_ok_inv _ _ _ _ _ _ _ _ _ _ hpay
      by_cases hneg : ret < 0
      · have hs := packet_read_payload_sentinel fd src src1 src2 buffer linelen buf1 size options
          w w1 w2 ((L : Int) + 4) ret hhdr hlen (by omega) (by rw [hu]; exact hlt)
          (by rw [hu]; exact hpay) hneg
        refine ⟨⟨?_, fun h => by omega⟩, by rw [hs]; simp, ?_⟩
        · rintro ⟨len, w3, h⟩
          rw [hs] at h
          cases h
        · intro n src3 buffer1 w3 hok hn
          rw [hs] at hok
          injection hok with hv _
          injection hv with hv1 _
          omega
      · have hs := packet_read_payload_ok fd src src1 src2 buffer linelen buf1 size options
          w w1 w2 L ret hhdr hlen (by omega) hlt hpay (by omega) (by omega)
        have hle : reported_length options buf1 L ≤ L := by
          unfold reported_length; split_ifs <;> omega
        refine ⟨⟨?_, fun h => by omega⟩, by rw [hs]; simp, ?_⟩
        · rintro ⟨len, w3, h⟩
          rw [hs] at h
          cases h
        · intro n src3 buffer1 w3 hok _
          rw [hs] at hok
          injection hok with hv _
          injection hv with hv1 hv2
          injection hv2 with _ hv3
          subst hv1 hv3
          generalize reported_length options buf1 L = k at hle
          have hk : k < buf1.length := by omega
          refine ⟨by omega, ?_, ?_, ?_⟩
          · simp; omega
          · have hst : store buf1 k [0]
                = some (List.take k buf1 ++ [0] ++ List.drop (k + 1) buf1) :=
              store_eq_some _ _ _ (by simp; omega)
            rw [store_drop _ _ _ _ size hst (by simp; omega)]
            have e := congrArg (List.drop (size - L)) hd1
            rw [List.drop_drop, List.drop_drop] at e
            have e2 : L + (size - L) = size := by omega
            rw [e2] at e
            exact e
          · simp only [Int.toNat_ofNat, List.get?_eq_getElem?]
            rw [List.append_assoc, List.getElem?_append_right (by simp)]
            first
              | done
              | simp [List.length_take, Nat.min_eq_left (Nat.le_of_lt hk)]

/-- Witness for C6: the packet `0006hi` read from a cursor into a destination of
capacity 4. -/
theorem packet_read_capacity_check_witness :
    ((∃ len w2, packet_read (-1) (some [48, 48, 48, 54, 104, 105]) [7, 7, 7, 7] 4 0 world0
        = Res.die (Fatal.bad_line_length len) w2) ↔ (6 : Int) - 4 ≥ ((4 : Nat) : Int)) ∧
    packet_read (-1) (some [48, 48, 48, 54, 104, 105]) [7, 7, 7, 7] 4 0 world0 ≠ Res.ub ∧
    (∀ n src2 buffer1 w2,
      packet_read (-1) (some [48, 48, 48, 54, 104, 105]) [7, 7, 7, 7] 4 0 world0
          = Res.ok (n, src2, buffer1) w2 → 0 ≤ n →
        n < ((4 : Nat) : Int) ∧ buffer1.length = [7, 7, 7, 7].length ∧
        buffer1.drop 4 = [7, 7, 7, 7].drop 4 ∧ buffer1.get? n.toNat = some 0) :=
  packet_read_capacity_check (-1) (some [48, 48, 48, 54, 104, 105]) (some [104, 105])
    [7, 7, 7, 7] [48, 48, 48, 54] 4 0 world0 world0 6 rfl (by decide) (by decide) (by decide)

/-- C7: after a header that decodes to a total of 1, 2 or 3, `packet_read` with
a capacity below `2^31` aborts with `bad line length`, whatever the options; it
returns nothing. -/
theorem packet_read_short_length (fd : Int) (src src1 : Option (List Nat))
    (buffer linelen : List Nat) (size options : Nat) (w w1 : World) (T : Int)
    (hhdr : get_packet_data fd src [0, 0, 0, 0] 4 options w = Res.ok (4, src1, linelen) w1)
    (hlen : packet_length linelen = T) (hT : 1 ≤ T ∧ T ≤ 3) (hsize : size < 2147483648) :
    packet_read fd src buffer size options w = Res.die (Fatal.bad_line_length (T - 4)) w1 ∧
    ∀ r w2, packet_read fd src buffer size options w ≠ Res.ok r w2 := by
  have hu : toU32 (T - 4) ≥ size := by
    unfold toU32
    omega
  have hdie := packet_read_bad_line_length fd src src1 buffer linelen size options w w1 T
    hhdr hlen (by omega) hu
  refine ⟨hdie, ?_⟩
  intro r w2 h
  rw [hdie] at h
  cases h

/-- Witness for C7: the header `0003` read from a cursor. -/
theorem packet_read_short_length_witness :
    packet_read (-1) (some [48, 48, 48, 51, 104]) [7, 7, 7, 7] 4 0 world0
        = Res.die (Fatal.bad_line_length (3 - 4)) world0 ∧
    ∀ r w2, packet_read (-1) (some [48, 48, 48, 51, 104]) [7, 7, 7, 7] 4 0 world0
      ≠ Res.ok r w2 :=
  packet_read_short_length (-1) (some [48, 48, 48, 51, 104]) (some [104])
    [7, 7, 7, 7] [48, 48, 48, 51] 4 0 world0 world0 3 rfl (by decide) (by decide) (by decide)

/-! ## Claim on the gentle-EOF policy -/

/-- The header read of `packet_read` on a cursor that starts with four bytes. -/
theorem get_packet_data_cursor_header (fd : Int) (hdr s : List Nat) (options : Nat) (w : World)
    (hfd : fd < 0) (hh : hdr.length = 4) :
    get_packet_data fd (some (hdr ++ s)) [0, 0, 0, 0] 4 options w
      = Res.ok (4, some s, hdr) w := by
  rw [get_packet_data_cursor_full fd _ _ 4 options w hfd (by simp; omega) (by simp) (by decide)]
  rw [drop_append_exact _ _ 4 hh, take_append_exact _ _ 4 hh]
  simp

/-- A cursor that ends inside the header. -/
theorem packet_read_cursor_header_short (fd : Int) (s buffer : List Nat) (size options : Nat)
    (w : World) (hfd : fd < 0) (hs : s.length < 4) :
    packet_read fd (some s) buffer size options w =
      if gentle options then Res.ok (-1, some [], buffer) w else Res.die Fatal.hung_up w := by
  unfold packet_read
  rw [get_packet_data_cursor_short fd s _ 4 options w hfd hs (by simp; omega)]
  by_cases hg : gentle options
  · rw [if_pos hg, if_pos hg]
    dsimp only
    rw [if_pos (by decide)]
  · rw [if_neg hg, if_neg hg]

/-- A cursor that ends inside the payload of a well-formed header. -/
theorem packet_read_cursor_payload_short (fd : Int) (hdr s buffer : List Nat)
    (size options L : Nat) (w : World) (hfd : fd < 0) (hh : hdr.length = 4)
    (hlen : packet_length hdr = (L : Int) + 4) (hsize : L < size) (hcap : size ≤ buffer.length)
    (hs : s.length < L) :
    packet_read fd (some (hdr ++ s)) buffer size options w =
      if gentle options then Res.ok (-1, some [], s ++ buffer.drop s.length) w
      else Res.die Fatal.hung_up w := by
  have hhdr := get_packet_data_cursor_header fd hdr s options w hfd hh
  have hr := packet_length_range hdr hh
  have hu : toU32 ((L : Int) + 4 - 4) = L := by
    rw [show (L : Int) + 4 - 4 = (L : Int) by omega]
    exact toU32_natCast L (by omega)
  have hpay := get_packet_data_cursor_short fd s buffer L options w hfd hs (by omega)
  by_cases hg : gentle options
  · rw [if_pos hg] at hpay
    rw [if_pos hg]
    exact packet_read_payload_sentinel fd _ _ _ buffer hdr _ size options w w w ((L : Int) + 4)
      (-1) hhdr hlen (by omega) (by rw [hu]; exact hsize) (by rw [hu]; exact hpay) (by decide)
  · rw [if_neg hg] at hpay
    rw [if_neg hg]
    exact packet_read_payload_die fd _ _ buffer hdr size options w w w ((L : Int) + 4)
      _ hhdr hlen (by omega) (by rw [hu]; exact hsize) (by rw [hu]; exact hpay)

/-- A cursor that holds the whole packet of a well-formed header. -/
theorem packet_read_cursor_data (fd : Int) (hdr s buffer : List Nat)
    (size options L : Nat) (w : World) (hfd : fd < 0) (hh : hdr.length = 4)
    (hlen : packet_length hdr = (L : Int) + 4) (hsize : L < size) (hcap : size ≤ buffer.length)
    (hs : L ≤ s.length) :
    packet_read fd (some (hdr ++ s)) buffer size options w =
      Res.ok ((reported_length options (s.take L ++ buffer.drop L) L : Int), some (s.drop L),
          (s.take L ++ buffer.drop L).take (reported_length options (s.take L ++ buffer.drop L) L)
            ++ [0]
            ++ (s.take L ++ buffer.drop L).drop
                (reported_length options (s.take L ++ buffer.drop L) L + 1))
        (packet_trace
          ((s.take L ++ buffer.drop L).take (reported_length options (s.take L ++ buffer.drop L) L)
            ++ [0]
            ++ (s.take L ++ buffer.drop L).drop
                (reported_length options (s.take L ++ buffer.drop L) L + 1))
          (reported_length options (s.take L ++ buffer.drop L) L) false w) := by
  have hhdr := get_packet_data_cursor_header fd hdr s options w hfd hh
  have hr := packet_length_range hdr hh
  have hpay := get_packet_data_cursor_full fd s buffer L options w hfd hs (by omega) (by omega)
  exact packet_read_payload_ok fd _ _ _ buffer hdr _ size options w w w L _ hhdr hlen
    (by omega) hsize hpay (by omega) (by simp; omega)

/-- C10: on an in-memory cursor that ends before the bytes the next read asks
for (inside the header, or inside the payload of a well-formed header that
passed the capacity check), `packet_read` returns -1 when the gentle-EOF option
is set and aborts with `The remote end hung up unexpectedly` when it is not; on
a cursor that holds the whole packet it returns a length `n ≥ 0`, never the
sentinel. -/
theorem packet_read_gentle_eof (fd : Int) (buffer : List Nat) (size options : Nat) (w : World)
    (hfd : fd < 0) (hcap : size ≤ buffer.length) :
    (∀ s : List Nat, s.length < 4 →
      packet_read fd (some s) buffer size options w =
        if gentle options then Res.ok (-1, some [], buffer) w else Res.die Fatal.hung_up w) ∧
    (∀ (hdr s : List Nat) (L : Nat), hdr.length = 4 → packet_length hdr = (L : Int) + 4 →
      L < size → s.length < L →
      packet_read fd (some (hdr ++ s)) buffer size options w =
        if gentle options then Res.ok (-1, some [], s ++ buffer.drop s.length) w
        else Res.die Fatal.hung_up w) ∧
    (∀ (hdr s : List Nat) (L : Nat), hdr.length = 4 → packet_length hdr = (L : Int) + 4 →
      L < size → L ≤ s.length →
      ∃ n src2 buffer1 w2,
        packet_read fd (some (hdr ++ s)) buffer size options w = Res.ok (n, src2, buffer1) w2
          ∧ 0 ≤ n) := by
  refine ⟨?_, ?_, ?_⟩
  · intro s hs
    exact packet_read_cursor_header_short fd s buffer size options w hfd hs
  · intro hdr s L hh hlen hsize hs
    exact packet_read_cursor_payload_short fd hdr s buffer size options L w hfd hh hlen hsize
      hcap hs
  · intro hdr s L hh hlen hsize hs
    exact ⟨_, _, _, _,
      packet_read_cursor_data fd hdr s buffer size options L w hfd hh hlen hsize hcap hs,
      by omega⟩

/-- Witness for C10: the truncated packet `0009hel` (a payload of 5 bytes is
announced, 3 are there) read with and without the gentle-EOF option. -/
theorem packet_read_gentle_eof_witness :
    packet_read (-1) (some ([48, 48, 48, 57] ++ [104, 101, 108])) [7, 7, 7, 7, 7, 7] 6
        PACKET_READ_GENTLE_ON_EOF world0
      = Res.ok (-1, some [], [104, 101, 108, 7, 7, 7]) world0 ∧
    packet_read (-1) (some ([48, 48, 48, 57] ++ [104, 101, 108])) [7, 7, 7, 7, 7, 7] 6 0 world0
      = Res.die Fatal.hung_up world0 :=
  ⟨(packet_read_gentle_eof (-1) [7, 7, 7, 7, 7, 7] 6 PACKET_READ_GENTLE_ON_EOF world0
      (by decide) (by decide)).2.1 [48, 48, 48, 57] [104, 101, 108] 5 rfl (by decide)
      (by decide) (by decide),
   (packet_read_gentle_eof (-1) [7, 7, 7, 7, 7, 7] 6 0 world0
      (by decide) (by decide)).2.1 [48, 48, 48, 57] [104, 101, 108] 5 rfl (by decide)
      (by decide) (by decide)⟩

/-! ## Reader lemmas: the loop of `packet_read_till_flush` -/

theorem toU64_natCast (n : Nat) (h : n < 18446744073709551616) : toU64 (n : Int) = n := by
  unfold toU64
  rw [Int.emod_eq_of_lt (by omega) (by omega)]
  simp

theorem strbuf_grow_ok (sb : StrBuf) (extra : Nat) (w : World)
    (h : sb.buf.length + extra + 1 < 18446744073709551616) :
    strbuf_grow sb extra w = Res.ok { sb with alloc := grown_alloc sb extra } w := by
  unfold strbuf_grow grown_alloc
  rw [if_neg (by omega)]
  dsimp only
  split_ifs <;> rfl

theorem grown_alloc_ge (sb : StrBuf) (extra : Nat) :
    sb.buf.length + extra + 1 ≤ grown_alloc sb extra ∧ sb.alloc ≤ grown_alloc sb extra := by
  unfold grown_alloc
  split_ifs <;> omega

/-- The header read of the loop on a descriptor that starts with four bytes. -/
theorem get_packet_data_fd_header (fd : Int) (hdr rest : List Nat) (options : Nat) (w : World)
    (hfd : 0 ≤ fd) (hh : hdr.length = 4) (hdata : w.fd_in_data = hdr ++ rest) :
    get_packet_data fd none [0, 0, 0, 0] 4 options w
      = Res.ok (4, none, hdr) { w with fd_in_data := rest } := by
  rw [get_packet_data_fd_full fd _ 4 options w hfd (by rw [hdata]; simp; omega) (by simp)
    (by decide)]
  rw [hdata, drop_append_exact _ _ 4 hh, take_append_exact _ _ 4 hh]
  simp

/-- One pass of the loop of `packet_read_till_flush`, written out. -/
theorem till_flush_loop_succ (fd_in : Int) (fuel : Nat) (sb : StrBuf) (w : World) :
    till_flush_loop fd_in (fuel + 1) sb w =
    match get_packet_data fd_in none [0, 0, 0, 0] 4 PACKET_READ_GENTLE_ON_EOF w with
    | Res.ub => Res.ub
    | Res.die m w1 => Res.die m w1
    | Res.ok r w1 =>
      if r.1 < 0 then Res.ok (r.1, sb) w1
      else
        let len := packet_length r.2.2
        if len < 0 then Res.die (Fatal.bad_length_char r.2.2) w1
        else if len = 0 then Res.ok (r.1, sb) (packet_trace flush_pkt 4 false w1)
        else
          let len := len - 4
          match strbuf_grow sb (toU64 len) w1 with
          | Res.ub => Res.ub
          | Res.die m w2 => Res.die m w2
          | Res.ok sb1 w2 =>
            match get_packet_data fd_in none (List.replicate (sb1.alloc - sb1.buf.length) 0)
                (toU32 len) PACKET_READ_GENTLE_ON_EOF w2 with
            | Res.ub => Res.ub
            | Res.die m w3 => Res.die m w3
            | Res.ok r2 w3 =>
              if r2.1 < 0 then Res.ok (r2.1, sb1) w3
              else if r2.1 ≠ len then Res.ok (r2.1, sb1) w3
              else
                till_flush_loop fd_in fuel
                  { sb1 with buf := sb1.buf ++ r2.2.2.take len.toNat }
                  (packet_trace r2.2.2 (toU32 len) false w3) := rfl

/-- One pass of the loop over a header with a character that is no hexadecimal digit. -/
theorem till_flush_loop_bad_header (fd_in : Int) (fuel : Nat) (sb : StrBuf) (w : World)
    (hdr rest : List Nat) (hfd : 0 ≤ fd_in) (hh : hdr.length = 4)
    (hdata : w.fd_in_data = hdr ++ rest) (hlen : packet_length hdr < 0) :
    till_flush_loop fd_in (fuel + 1) sb w
      = Res.die (Fatal.bad_length_char hdr) { w with fd_in_data := rest } := by
  rw [till_flush_loop_succ]
  rw [get_packet_data_fd_header fd_in hdr rest _ w hfd hh hdata]
  dsimp only
  rw [if_neg (by decide), if_pos hlen]

/-- One pass of the loop over a flush packet. -/
theorem till_flush_loop_flush (fd_in : Int) (fuel : Nat) (sb : StrBuf) (w : World)
    (hdr rest : List Nat) (hfd : 0 ≤ fd_in) (hh : hdr.length = 4)
    (hdata : w.fd_in_data = hdr ++ rest) (hlen : packet_length hdr = 0) :
    till_flush_loop fd_in (fuel + 1) sb w
      = Res.ok (4, sb) (packet_trace flush_pkt 4 false { w with fd_in_data := rest }) := by
  rw [till_flush_loop_succ]
  rw [get_packet_data_fd_header fd_in hdr rest _ w hfd hh hdata]
  dsimp only
  rw [if_neg (by decide), hlen, if_neg (by decide), if_pos rfl]

/-- One pass of the loop over a data packet that is there in full: the payload
is appended and traced, and the loop goes on behind the packet. -/
theorem till_flush_loop_data (fd_in : Int) (fuel : Nat) (sb : StrBuf) (w : World)
    (hdr payload rest : List Nat) (hfd : 0 ≤ fd_in) (hh : hdr.length = 4)
    (hlen : packet_length hdr = (payload.length : Int) + 4)
    (hdata : w.fd_in_data = hdr ++ (payload ++ rest))
    (hmem : sb.buf.length + payload.length + 1 < 18446744073709551616) :
    till_flush_loop fd_in (fuel + 1) sb w =
      till_flush_loop fd_in fuel
        { buf := sb.buf ++ payload, alloc := grown_alloc sb payload.length }
        (packet_trace
          (payload ++ (List.replicate (grown_alloc sb payload.length - sb.buf.length) 0).drop
            payload.length)
          payload.length false { w with fd_in_data := rest }) := by
  have hr := packet_length_range hdr hh
  have hL : payload.length ≤ 65531 := by omega
  have hg := grown_alloc_ge sb payload.length
  have e4 : (payload.length : Int) + 4 - 4 = (payload.length : Int) := by omega
  rw [till_flush_loop_succ]
  rw [get_packet_data_fd_header fd_in hdr (payload ++ rest) _ w hfd hh hdata]
  dsimp only
  rw [if_neg (by decide), hlen, if_neg (by omega), if_neg (by omega), e4,
    toU64_natCast _ (by omega), strbuf_grow_ok _ _ _ hmem]
  dsimp only
  rw [toU32_natCast _ (by omega)]
  rw [get_packet_data_fd_full fd_in _ payload.length _ _ hfd (by simp) (by simp; omega)
    (by omega)]
  dsimp only
  rw [if_neg (by omega), if_neg (by simp)]
  rw [drop_append_exact _ _ _ rfl, take_append_exact _ _ _ rfl]
  simp only [Int.toNat_ofNat]
  rw [take_append_exact _ _ _ rfl]

/-! ## Claim on malformed headers -/

theorem untraced_fd_in_data (w1 w : World) (rest : List Nat)
    (h : untraced w1 = untraced { w with fd_in_data := rest }) : w1.fd_in_data = rest := by
  have := congrArg World.fd_in_data h
  exact this

theorem packet_length_data_packet_header (p : List Nat) (h : p.length + 4 ≤ 65535) :
    packet_length (encode_header (p.length + 4)) = (p.length : Int) + 4 := by
  have := packet_length_encode_header (p.length + 4) [] h
  rw [List.append_nil] at this
  rw [this]
  push_cast
  rfl

/-- The loop of `packet_read_till_flush` over a run of data packets that are
there in full: their payloads are appended in order and the loop goes on behind
them, with one pass used per packet. -/
theorem till_flush_loop_packets (fd_in : Int) (hfd : 0 ≤ fd_in) (ps : List (List Nat)) :
    ∀ (fuel : Nat) (sb : StrBuf) (w : World) (rest : List Nat),
      (∀ p ∈ ps, p.length + 4 ≤ 65535) →
      w.fd_in_data = data_packets ps ++ rest →
      sb.buf.length + ps.flatten.length + 1 < 18446744073709551616 →
      ∃ sb1 w1, till_flush_loop fd_in (fuel + ps.length) sb w = till_flush_loop fd_in fuel sb1 w1
        ∧ sb1.buf = sb.buf ++ ps.flatten ∧ sb.alloc ≤ sb1.alloc
        ∧ untraced w1 = untraced { w with fd_in_data := rest } := by
  induction ps with
  | nil =>
    intro fuel sb w rest _ hdata _
    refine ⟨sb, w, rfl, by simp, le_refl _, ?_⟩
    have : rest = w.fd_in_data := by rw [hdata]; rfl
    rw [this]
  | cons p ps ih =>
    intro fuel sb w rest hp hdata hmem
    have hp1 : p.length + 4 ≤ 65535 := hp p (List.mem_cons_self _ _)
    have hlenj : (p :: ps).flatten.length = p.length + ps.flatten.length := by
      rw [List.flatten_cons, List.length_append]
    have hd : w.fd_in_data
        = encode_header (p.length + 4) ++ (p ++ (data_packets ps ++ rest)) := by
      rw [hdata]
      show (data_packet p ++ data_packets ps) ++ rest = _
      unfold data_packet
      simp only [List.append_assoc]
    have hstep := till_flush_loop_data fd_in (fuel + ps.length) sb w
      (encode_header (p.length + 4)) p (data_packets ps ++ rest) hfd (encode_header_length _)
      (packet_length_data_packet_header p hp1) hd (by omega)
    obtain ⟨sb1, w1, h1, h2, h3, h4⟩ := ih fuel
      { buf := sb.buf ++ p, alloc := grown_alloc sb p.length }
      (packet_trace
        (p ++ (List.replicate (grown_alloc sb p.length - sb.buf.length) 0).drop p.length)
        p.length false { w with fd_in_data := data_packets ps ++ rest }) rest
      (fun q hq => hp q (List.mem_cons_of_mem _ hq))
      (by rw [packet_trace_fd_in_data])
      (by simp only [List.length_append]; omega)
    refine ⟨sb1, w1, ?_, ?_, ?_, ?_⟩
    · rw [List.length_cons, ← Nat.add_assoc, hstep, h1]
    · rw [h2, List.flatten_cons, List.append_assoc]
    · exact le_trans (grown_alloc_ge sb p.length).2 h3
    · rw [h4]
      have := untraced_packet_trace
        (p ++ (List.replicate (grown_alloc sb p.length - sb.buf.length) 0).drop p.length)
        p.length false { w with fd_in_data := data_packets ps ++ rest }
      have e := congrArg (fun x : World => { x with fd_in_data := rest }) this
      exact e

/-- C9: a header of four characters of which one is no hexadecimal digit makes
`packet_read` abort with `bad line length character` whatever the options (the
gentle-EOF option included), and makes `packet_read_till_flush` abort the same
way when it is met after any number of complete data packets; neither returns. -/
theorem malformed_header_is_fatal (c0 c1 c2 c3 : Nat)
    (hbad : ¬ (isHexDigit c0 ∧ isHexDigit c1 ∧ isHexDigit c2 ∧ isHexDigit c3)) :
    (∀ (fd : Int) (src src1 : Option (List Nat)) (buffer : List Nat) (size options : Nat)
        (w w1 : World),
      get_packet_data fd src [0, 0, 0, 0] 4 options w = Res.ok (4, src1, [c0, c1, c2, c3]) w1 →
      packet_read fd src buffer size options w
        = Res.die (Fatal.bad_length_char [c0, c1, c2, c3]) w1) ∧
    (∀ (fd_in : Int) (sb : StrBuf) (w : World) (ps : List (List Nat)) (rest : List Nat),
      0 ≤ fd_in → (∀ p ∈ ps, p.length + 4 ≤ 65535) →
      w.fd_in_data = data_packets ps ++ ([c0, c1, c2, c3] ++ rest) →
      sb.buf.length + ps.flatten.length + 1 < 18446744073709551616 →
      ∃ w1, packet_read_till_flush fd_in sb w
        = Res.die (Fatal.bad_length_char [c0, c1, c2, c3]) w1) := by
  have hneg : packet_length [c0, c1, c2, c3] < 0 := by
    rw [packet_length_bad _ _ _ _ _ hbad]; decide
  refine ⟨?_, ?_⟩
  · intro fd src src1 buffer size options w w1 hhdr
    exact packet_read_bad_header fd src src1 buffer _ size options w w1 hhdr hneg
  · intro fd_in sb w ps rest hfd hp hdata hmem
    have hlen : ∀ qs : List (List Nat), (data_packets qs).length ≥ 4 * qs.length := by
      intro qs
      induction qs with
      | nil => simp [data_packets]
      | cons q qs ih =>
        simp only [data_packets, data_packet, List.length_append, encode_header_length,
          List.length_cons]
        omega
    have hfuel : w.fd_in_data.length + 1 = (w.fd_in_data.length - ps.length) + ps.length + 1 := by
      have := hlen ps
      rw [hdata, List.length_append]
      omega
    obtain ⟨sb1, w1, h1, _, _, h4⟩ := till_flush_loop_packets fd_in hfd ps
      (w.fd_in_data.length - ps.length + 1) sb w ([c0, c1, c2, c3] ++ rest) hp hdata hmem
    have hstep := till_flush_loop_bad_header fd_in (w.fd_in_data.length - ps.length) sb1 w1
      [c0, c1, c2, c3] rest hfd rfl (untraced_fd_in_data _ _ _ h4) hneg
    refine ⟨{ w1 with fd_in_data := rest }, ?_⟩
    unfold packet_read_till_flush
    dsimp only
    rw [hfuel, Nat.add_right_comm, h1, hstep]

/-- Witness for C9: the header `00g0`, read by `packet_read` from a cursor and
by `packet_read_till_flush` after the data packet `0006hi`. -/
theorem malformed_header_is_fatal_witness :
    packet_read (-1) (some [48, 48, 103, 48, 104]) [7, 7, 7, 7] 4 PACKET_READ_GENTLE_ON_EOF
        world0
      = Res.die (Fatal.bad_length_char [48, 48, 103, 48]) world0 ∧
    ∃ w1, packet_read_till_flush 0 { buf := [], alloc := 0 }
        { world0 with fd_in_data := data_packets [[104, 105]] ++ ([48, 48, 103, 48] ++ [104]) }
      = Res.die (Fatal.bad_length_char [48, 48, 103, 48]) w1 :=
  ⟨(malformed_header_is_fatal 48 48 103 48 (by decide)).1 (-1) (some [48, 48, 103, 48, 104])
      (some [104]) [7, 7, 7, 7] 4 PACKET_READ_GENTLE_ON_EOF world0 world0 rfl,
   (malformed_header_is_fatal 48 48 103 48 (by decide)).2 0 { buf := [], alloc := 0 }
      { world0 with fd_in_data := data_packets [[104, 105]] ++ ([48, 48, 103, 48] ++ [104]) }
      [[104, 105]] [104] (by decide) (by decide) rfl (by decide)⟩

/-! ## Claim on the upper bound of accepted lengths -/

theorem data_packets_length_ge (qs : List (List Nat)) :
    (data_packets qs).length ≥ 4 * qs.length := by
  induction qs with
  | nil => simp [data_packets]
  | cons q qs ih =>
    simp only [data_packets, data_packet, List.length_append, encode_header_length,
      List.length_cons]
    omega

/-- A run of complete data packets followed by a flush packet on the
descriptor: `packet_read_till_flush` appends the payloads in order, returns the
number of bytes appended and stops behind the flush packet. -/
theorem packet_read_till_flush_packets (fd_in : Int) (sb : StrBuf) (w : World)
    (ps : List (List Nat)) (rest : List Nat) (hfd : 0 ≤ fd_in)
    (hp : ∀ p ∈ ps, p.length + 4 ≤ 65535)
    (hdata : w.fd_in_data = data_packets ps ++ (flush_pkt ++ rest))
    (hmem : sb.buf.length + ps.flatten.length + 1 < 18446744073709551616) :
    ∃ sb1 w1, packet_read_till_flush fd_in sb w = Res.ok ((ps.flatten.length : Int), sb1) w1
      ∧ sb1.buf = sb.buf ++ ps.flatten ∧ sb.alloc ≤ sb1.alloc
      ∧ untraced w1 = untraced { w with fd_in_data := rest } := by
  have hfuel : w.fd_in_data.length + 1 = (w.fd_in_data.length - ps.length) + ps.length + 1 := by
    have := data_packets_length_ge ps
    rw [hdata, List.length_append]
    omega
  obtain ⟨sb1, w1, h1, h2, h3, h4⟩ := till_flush_loop_packets fd_in hfd ps
    (w.fd_in_data.length - ps.length + 1) sb w (flush_pkt ++ rest) hp hdata hmem
  have hstep := till_flush_loop_flush fd_in (w.fd_in_data.length - ps.length) sb1 w1
    flush_pkt rest hfd rfl (untraced_fd_in_data _ _ _ h4) (by decide)
  refine ⟨sb1, packet_trace flush_pkt 4 false { w1 with fd_in_data := rest }, ?_, h2, h3, ?_⟩
  · unfold packet_read_till_flush
    dsimp only
    rw [hfuel, Nat.add_right_comm, h1, hstep]
    dsimp only
    rw [if_neg (by decide), h2, List.length_append]
    congr 2
    omega
  · rw [untraced_packet_trace]
    have e := congrArg (fun x : World => { x with fd_in_data := rest }) h4
    exact e

/-- A header whose total is above `LARGE_PACKET_MAX + 3`: the line readers abort. -/
theorem packet_read_line_generic_too_long (fd : Int) (src src1 : Option (List Nat))
    (dst_len : Option Int) (linelen : List Nat) (w w1 : World) (T : Int)
    (hhdr : get_packet_data fd src [0, 0, 0, 0] 4 PACKET_READ_CHOMP_NEWLINE w
      = Res.ok (4, src1, linelen) w1)
    (hlen : packet_length linelen = T) (hT : T > (LARGE_PACKET_MAX : Int) + 3) :
    packet_read_line_generic fd src dst_len w = Res.die (Fatal.bad_line_length (T - 4)) w1 := by
  have h4 := header_region_length _ _ _ _ _ _ _ _ hhdr
  have hr := packet_length_range linelen h4
  have hmax : (LARGE_PACKET_MAX : Int) = 65520 := rfl
  rw [hlen] at hr
  have hu : toU32 (T - 4) ≥ LARGE_PACKET_MAX := by
    rw [toU32_of_nonneg _ (by omega) (by omega)]
    show 65520 ≤ (T - 4).toNat
    omega
  unfold packet_read_line_generic
  rw [packet_read_bad_line_length fd src src1 _ linelen _ _ w w1 T hhdr hlen (by omega) hu]

/-- A complete data packet with a payload shorter than the scratch buffer, on a
cursor: the line readers return. -/
theorem packet_read_line_generic_cursor (fd : Int) (payload rest : List Nat)
    (dst_len : Option Int) (w : World) (hfd : fd < 0)
    (hsize : payload.length < LARGE_PACKET_MAX)
    (hw : w.packet_buffer.length = LARGE_PACKET_MAX) :
    ∃ line w1, packet_read_line_generic fd (some (data_packet payload ++ rest)) dst_len w
      = Res.ok
          (if reported_length PACKET_READ_CHOMP_NEWLINE payload payload.length ≠ 0
            then some line else none,
           dst_len.map (fun _ =>
            (reported_length PACKET_READ_CHOMP_NEWLINE payload payload.length : Int)),
           some rest) w1
      ∧ line.take (reported_length PACKET_READ_CHOMP_NEWLINE payload payload.length)
          = payload.take (reported_length PACKET_READ_CHOMP_NEWLINE payload payload.length)
      ∧ line.get? (reported_length PACKET_READ_CHOMP_NEWLINE payload payload.length)
          = some 0 := by
  have hmax : LARGE_PACKET_MAX = 65520 := rfl
  have hread := packet_read_cursor_packet fd payload rest w.packet_buffer LARGE_PACKET_MAX
    PACKET_READ_CHOMP_NEWLINE w hfd (by omega) hsize (by omega)
  have hle : reported_length PACKET_READ_CHOMP_NEWLINE payload payload.length
      ≤ payload.length := by
    unfold reported_length; split_ifs <;> omega
  generalize reported_length PACKET_READ_CHOMP_NEWLINE payload payload.length = n at hread hle
  refine ⟨payload.take n ++ [0] ++ w.packet_buffer.drop (n + 1),
    { packet_trace (payload.take n ++ [0] ++ w.packet_buffer.drop (n + 1)) n false w with
      packet_buffer := payload.take n ++ [0] ++ w.packet_buffer.drop (n + 1) }, ?_, ?_, ?_⟩
  · unfold packet_read_line_generic data_packet
    rw [hread]
    dsimp only
    congr 2
    by_cases hn : n = 0
    · subst hn; simp
    · have : (n : Int) ≠ 0 := by omega
      simp [hn, this]
  · rw [List.append_assoc, take_append_exact _ _ _ (by simp; omega)]
  · simp only [List.get?_eq_getElem?]
    rw [List.append_assoc, List.getElem?_append_right (by simp)]
    simp [Nat.min_eq_left hle]

theorem world0_packet_buffer_length : world0.packet_buffer.length = LARGE_PACKET_MAX := by
  show (List.replicate 65520 0).length = 65520
  exact List.length_replicate _ _

theorem reported_length_replicate (options n c : Nat) (hc : c ≠ 10) :
    reported_length options (List.replicate n c) n = n := by
  unfold reported_length
  rw [if_neg]
  rintro ⟨_, hn, h⟩
  rw [List.get?_eq_getElem?, List.getElem?_replicate] at h
  split_ifs at h
  exact hc (Option.some.inj h)

theorem data_packet_replicate_65517 :
    data_packet (List.replicate 65517 97) = [102, 102, 102, 49] ++ List.replicate 65517 97 := by
  unfold data_packet
  rw [List.length_replicate]
  rfl

/-- C8 (counterexample): the header `fff1` decodes to a total of 65521, above
`MAX_PACKET_LEN`; followed by 65517 bytes `a` it is accepted by
`packet_read_line_buf`, which returns the line with length 65517, and by
`packet_read_till_flush`, which appends the 65517 bytes. -/
theorem readers_accept_total_above_max :
    packet_length [102, 102, 102, 49] = 65521 ∧ 65521 > LARGE_PACKET_MAX ∧
    (∃ line src1 w1,
      packet_read_line_buf (some ([102, 102, 102, 49] ++ List.replicate 65517 97)) (some 0)
          world0
        = Res.ok (some line, some 65517, src1) w1
      ∧ line.take 65517 = List.replicate 65517 97) ∧
    (∃ sb1 w1,
      packet_read_till_flush 0 { buf := [], alloc := 0 }
          { world0 with
            fd_in_data := [102, 102, 102, 49] ++ List.replicate 65517 97 ++ flush_pkt }
        = Res.ok (65517, sb1) w1
      ∧ sb1.buf = List.replicate 65517 97) := by
  have hlen : (List.replicate 65517 97).length = 65517 := List.length_replicate _ _
  have hrl := reported_length_replicate PACKET_READ_CHOMP_NEWLINE 65517 97 (by decide)
  refine ⟨by decide, by decide, ?_, ?_⟩
  · obtain ⟨line, w1, h1, h2, _⟩ := packet_read_line_generic_cursor (-1)
      (List.replicate 65517 97) [] (some 0) world0 (by decide) (by rw [hlen]; decide)
      world0_packet_buffer_length
    rw [hlen, hrl, data_packet_replicate_65517, List.append_nil] at h1
    rw [hlen, hrl] at h2
    refine ⟨line, some [], w1, ?_, ?_⟩
    · unfold packet_read_line_buf
      rw [h1]
      rfl
    · rw [h2]
      exact List.take_of_length_le (by rw [hlen])
  · obtain ⟨sb1, w1, h1, h2, _, _⟩ := packet_read_till_flush_packets 0
      { buf := [], alloc := 0 }
      { world0 with
        fd_in_data := [102, 102, 102, 49] ++ List.replicate 65517 97 ++ flush_pkt }
      [List.replicate 65517 97] [] (by decide)
      (by intro p hp; rw [List.mem_singleton] at hp; rw [hp, hlen]; decide)
      (by
        show [102, 102, 102, 49] ++ List.replicate 65517 97 ++ flush_pkt
          = data_packets [List.replicate 65517 97] ++ (flush_pkt ++ [])
        unfold data_packets data_packets
        rw [data_packet_replicate_65517]
        simp only [List.append_nil])
      (by
        rw [List.flatten_cons, List.flatten_nil, List.append_nil, hlen]
        decide)
    rw [List.flatten_cons, List.flatten_nil, List.append_nil, hlen] at h1
    rw [List.flatten_cons, List.flatten_nil, List.append_nil, List.nil_append] at h2
    exact ⟨sb1, w1, h1, h2⟩

/-! ## The loops stay within their pass budget -/

/-- One pass of the loop of `packet_write_stream_with_flush_from_buf`, written out. -/
theorem stream_from_buf_loop_succ (fd_out : Int) (src_in : List Nat) (len fuel bytes_written : Nat)
    (w : World) :
    stream_from_buf_loop fd_out src_in len (fuel + 1) bytes_written w =
    (let bytes_to_write :=
      if len - bytes_written > PKTLINE_DATA_MAXLEN then PKTLINE_DATA_MAXLEN
      else len - bytes_written
    if bytes_to_write = 0 then Res.ok 0 w
    else
      match packet_write_gently fd_out (src_in.drop bytes_written) bytes_to_write w with
      | Res.ok err w1 =>
        if err ≠ 0 then Res.ok err w1
        else stream_from_buf_loop fd_out src_in len fuel (bytes_written + bytes_to_write) w1
      | Res.die m w1 => Res.die m w1
      | Res.ub => Res.ub) := rfl

/-- A returning read from the descriptor takes bytes from its front only: the
rest of the process state is as before, and a complete read takes exactly
`size` bytes. -/
theorem get_packet_data_fd_consumes (fd : Int) (dst : List Nat) (size options : Nat)
    (w w1 : World) (ret : Int) (s : Option (List Nat)) (d : List Nat)
    (h : get_packet_data fd none dst size options w = Res.ok (ret, s, d) w1) :
    w1 = { w with fd_in_data := w1.fd_in_data }
      ∧ w1.fd_in_data.length ≤ w.fd_in_data.length
      ∧ (0 ≤ ret → w1.fd_in_data.length + size = w.fd_in_data.length) := by
  have fin : ∀ (r : Int) (d0 : List Nat) (w0 : World),
      get_packet_data_finish r none d0 size options w0 = Res.ok (ret, s, d) w1 →
      w0 = w1 ∧ (0 ≤ ret → (size : Int) ≤ r) := by
    intro r d0 w0 hf
    unfold get_packet_data_finish at hf
    split_ifs at hf with h1 h2
    · have e := (Res.ok.inj hf)
      refine ⟨e.2, ?_⟩
      have e1 := congrArg Prod.fst e.1
      dsimp only at e1
      omega
    · have e := (Res.ok.inj hf)
      exact ⟨e.2, fun _ => by omega⟩
  unfold get_packet_data at h
  split_ifs at h with hboth
  dsimp only at h
  cases hst : store dst 0 (read_in_full fd size w).2.1 with
  | none => rw [hst] at h; cases h
  | some d0 =>
    rw [hst] at h
    dsimp only at h
    split_ifs at h with hneg
    obtain ⟨e1, e2⟩ := fin _ _ _ h
    subst e1
    unfold read_in_full at hneg e2 ⊢
    split_ifs at hneg e2 ⊢ with c1 c2 c3
    · exact absurd (show ((-1 : Int) < 0) by decide) hneg
    · refine ⟨rfl, by dsimp only; rw [List.length_drop]; omega, fun _ => ?_⟩
      dsimp only; rw [List.length_drop]; omega
    · exact absurd (show ((-1 : Int) < 0) by decide) hneg
    · refine ⟨rfl, by simp, fun h0 => ?_⟩
      have := e2 h0
      dsimp only at this ⊢
      simp only [List.length_nil]
      omega

/-- The two outcomes of `strbuf_grow`. -/
theorem strbuf_grow_cases (sb : StrBuf) (extra : Nat) (w : World) :
    strbuf_grow sb extra w = Res.die Fatal.too_much_memory w
      ∨ strbuf_grow sb extra w = Res.ok { sb with alloc := grown_alloc sb extra } w := by
  by_cases h : sb.buf.length + extra + 1 < 18446744073709551616
  · exact Or.inr (strbuf_grow_ok sb extra w h)
  · left
    unfold strbuf_grow
    rw [if_pos (by omega)]

/-- The loop of `packet_read_till_flush` neither runs out of passes nor leaves
the memory it was given, when it starts with more passes than bytes on the
descriptor. -/
theorem till_flush_loop_not_ub (fd_in : Int) :
    ∀ (fuel : Nat) (sb : StrBuf) (w : World), w.fd_in_data.length < fuel →
      till_flush_loop fd_in fuel sb w ≠ Res.ub := by
  intro fuel
  induction fuel with
  | zero => intro sb w h; omega
  | succ fuel ih =>
    intro sb w hfuel
    rw [till_flush_loop_succ]
    cases h1 : get_packet_data fd_in none [0, 0, 0, 0] 4 PACKET_READ_GENTLE_ON_EOF w with
    | ub => exact absurd h1 (get_packet_data_not_ub _ _ _ _ _ _ (by simp))
    | die m w1 => simp
    | ok r w1 =>
      obtain ⟨ret, s, linelen⟩ := r
      obtain ⟨_, hle, hcons⟩ := get_packet_data_fd_consumes _ _ _ _ _ _ _ _ _ h1
      dsimp only
      split_ifs with c1 c2 c3
      · simp
      · simp
      · simp
      · have h4 := hcons (by omega)
        rcases strbuf_grow_cases sb (toU64 (packet_length linelen - 4)) w1 with h2 | h2
        · rw [h2]; simp
        · rw [h2]
          dsimp only
          have e3 := (grown_alloc_ge sb (toU64 (packet_length linelen - 4))).1
          have hu : toU32 (packet_length linelen - 4) ≤ toU64 (packet_length linelen - 4) := by
            unfold toU32 toU64
            omega
          cases h3 : get_packet_data fd_in none
              (List.replicate (grown_alloc sb (toU64 (packet_length linelen - 4))
                - sb.buf.length) 0)
              (toU32 (packet_length linelen - 4)) PACKET_READ_GENTLE_ON_EOF w1 with
          | ub =>
            exact absurd h3 (get_packet_data_not_ub _ _ _ _ _ _
              (by rw [List.length_replicate]; omega))
          | die m w3 => simp
          | ok r2 w3 =>
            obtain ⟨ret2, s2, d2⟩ := r2
            obtain ⟨_, hle2, _⟩ := get_packet_data_fd_consumes _ _ _ _ _ _ _ _ _ h3
            dsimp only
            split_ifs
            · simp
            · simp
            · apply ih
              rw [packet_trace_fd_in_data]
              omega

/-- The function `packet_read_till_flush` always comes to a result or an abort:
the pass budget it picks is enough and no access leaves the modelled memory. -/
theorem packet_read_till_flush_not_ub (fd_in : Int) (sb_out : StrBuf) (w : World) :
    packet_read_till_flush fd_in sb_out w ≠ Res.ub := by
  unfold packet_read_till_flush
  dsimp only
  cases h : till_flush_loop fd_in (w.fd_in_data.length + 1) sb_out w with
  | ub => exact absurd h (till_flush_loop_not_ub fd_in _ _ _ (by omega))
  | die m w1 => simp
  | ok r w1 =>
    dsimp only
    split_ifs
    · simp
    · unfold strbuf_setlen
      split_ifs <;> simp
    · simp

/-! ## Claim on the newline chomp -/

theorem reported_length_eq_chomped (options : Nat) (payload tail : List Nat) :
    reported_length options (payload ++ tail) payload.length = chomped_length options payload := by
  unfold reported_length chomped_length
  by_cases h0 : payload.length = 0
  · have hnil : payload = [] := List.length_eq_zero.mp h0
    subst hnil
    simp
  · have e : (payload ++ tail).get? (payload.length - 1) = payload.getLast? := by
      rw [List.getLast?_eq_getElem?, List.get?_eq_getElem?]
      exact List.getElem?_append_left (by omega)
    rw [e]
    by_cases hc : chomp_newline options ∧ payload.getLast? = some 10
    · rw [if_pos ⟨hc.1, h0, hc.2⟩, if_pos hc]
    · rw [if_neg (fun hh => hc ⟨hh.1, hh.2.2⟩), if_neg hc]

theorem chomped_length_bounds (options : Nat) (payload : List Nat) :
    chomped_length options payload ≤ payload.length
      ∧ payload.length ≤ chomped_length options payload + 1 := by
  unfold chomped_length
  split_ifs <;> omega

/-- The region `packet_read` leaves after a payload that was read in full:
the payload up to the reported length, then the NUL. -/
theorem chomped_region (payload tail : List Nat) (n : Nat) (hn : n ≤ payload.length) :
    ((payload ++ tail).take n ++ [0] ++ (payload ++ tail).drop (n + 1)).take n = payload.take n
      ∧ ((payload ++ tail).take n ++ [0] ++ (payload ++ tail).drop (n + 1)).get? n = some 0 := by
  have ht1 : List.take n (payload ++ tail) = payload.take n :=
    List.take_append_of_le_length hn
  have hl : (payload.take n).length = n := by rw [List.length_take]; omega
  rw [ht1, List.append_assoc]
  refine ⟨take_append_exact _ _ _ hl, ?_⟩
  rw [List.get?_eq_getElem?, List.getElem?_append_right (by omega), hl]
  simp

/-- A descriptor that holds the whole packet of a well-formed header. -/
theorem packet_read_fd_data (fd : Int) (hdr payload rest buffer : List Nat)
    (size options : Nat) (w : World) (hfd : 0 ≤ fd) (hh : hdr.length = 4)
    (hlen : packet_length hdr = (payload.length : Int) + 4) (hsize : payload.length < size)
    (hcap : size ≤ buffer.length) (hdata : w.fd_in_data = hdr ++ (payload ++ rest)) :
    packet_read fd none buffer size options w =
      Res.ok ((chomped_length options payload : Int), none,
          (payload ++ buffer.drop payload.length).take (chomped_length options payload) ++ [0]
            ++ (payload ++ buffer.drop payload.length).drop (chomped_length options payload + 1))
        (packet_trace
          ((payload ++ buffer.drop payload.length).take (chomped_length options payload) ++ [0]
            ++ (payload ++ buffer.drop payload.length).drop (chomped_length options payload + 1))
          (chomped_length options payload) false { w with fd_in_data := rest }) := by
  have hhdr := get_packet_data_fd_header fd hdr (payload ++ rest) options w hfd hh hdata
  have hr := packet_length_range hdr hh
  have hpay := get_packet_data_fd_full fd buffer payload.length options
    { w with fd_in_data := payload ++ rest } hfd (by simp) (by omega) (by omega)
  simp only [drop_append_exact _ _ _ rfl, take_append_exact _ _ _ rfl] at hpay
  have := packet_read_payload_ok fd _ _ _ buffer hdr _ size options w _ _ payload.length _
    hhdr hlen (by omega) hsize hpay (by omega) (by simp; omega)
  rw [reported_length_eq_chomped] at this
  exact this

/-- A cursor that holds the whole packet of a well-formed header, in terms of
the payload. -/
theorem packet_read_cursor_payload (fd : Int) (hdr payload rest buffer : List Nat)
    (size options : Nat) (w : World) (hfd : fd < 0) (hh : hdr.length = 4)
    (hlen : packet_length hdr = (payload.length : Int) + 4) (hsize : payload.length < size)
    (hcap : size ≤ buffer.length) :
    packet_read fd (some (hdr ++ (payload ++ rest))) buffer size options w =
      Res.ok ((chomped_length options payload : Int), some rest,
          (payload ++ buffer.drop payload.length).take (chomped_length options payload) ++ [0]
            ++ (payload ++ buffer.drop payload.length).drop (chomped_length options payload + 1))
        (packet_trace
          ((payload ++ buffer.drop payload.length).take (chomped_length options payload) ++ [0]
            ++ (payload ++ buffer.drop payload.length).drop (chomped_length options payload + 1))
          (chomped_length options payload) false w) := by
  have := packet_read_cursor_data fd hdr (payload ++ rest) buffer size options payload.length w
    hfd hh hlen hsize hcap (by simp)
  simp only [drop_append_exact _ _ _ rfl, take_append_exact _ _ _ rfl,
    reported_length_eq_chomped] at this
  exact this

/-- C11: for a payload read in full behind a well-formed header, `packet_read`
returns the payload length less one when chomping is asked for and the payload
ends in a newline, and the payload length otherwise; never more than one byte
is taken off; the destination holds the payload up to the returned length, then
a NUL; and the source is left behind the `L + 4` bytes of the packet, from a
cursor as from a descriptor. -/
theorem packet_read_chomps_newline (hdr payload rest buffer : List Nat) (size options : Nat)
    (w : World) (hh : hdr.length = 4)
    (hlen : packet_length hdr = (payload.length : Int) + 4) (hsize : payload.length < size)
    (hcap : size ≤ buffer.length) :
    (∀ fd : Int, fd < 0 →
      ∃ buffer1 w1,
        packet_read fd (some (hdr ++ (payload ++ rest))) buffer size options w
          = Res.ok ((chomped_length options payload : Int), some rest, buffer1) w1
        ∧ buffer1.take (chomped_length options payload)
            = payload.take (chomped_length options payload)
        ∧ buffer1.get? (chomped_length options payload) = some 0) ∧
    (∀ fd : Int, 0 ≤ fd → w.fd_in_data = hdr ++ (payload ++ rest) →
      ∃ buffer1 w1,
        packet_read fd none buffer size options w
          = Res.ok ((chomped_length options payload : Int), none, buffer1) w1
        ∧ w1.fd_in_data = rest
        ∧ buffer1.take (chomped_length options payload)
            = payload.take (chomped_length options payload)
        ∧ buffer1.get? (chomped_length options payload) = some 0) ∧
    (chomped_length options payload
      = if chomp_newline options ∧ 0 < payload.length ∧ payload.getLast? = some 10
        then payload.length - 1 else payload.length) ∧
    payload.length ≤ chomped_length options payload + 1 := by
  have hb := chomped_length_bounds options payload
  have hreg := chomped_region payload (buffer.drop payload.length)
    (chomped_length options payload) hb.1
  refine ⟨?_, ?_, ?_, hb.2⟩
  · intro fd hfd
    exact ⟨_, _, packet_read_cursor_payload fd hdr payload rest buffer size options w hfd hh hlen
      hsize hcap, hreg.1, hreg.2⟩
  · intro fd hfd hdata
    refine ⟨_, _, packet_read_fd_data fd hdr payload rest buffer size options w hfd hh hlen
      hsize hcap hdata, ?_, hreg.1, hreg.2⟩
    rw [packet_trace_fd_in_data]
  · unfold chomped_length
    by_cases hc : chomp_newline options ∧ payload.getLast? = some 10
    · have hpos : 0 < payload.length := by
        rcases Nat.eq_zero_or_pos payload.length with h0 | h0
        · have hnil : payload = [] := List.length_eq_zero.mp h0
          rw [hnil] at hc
          simp at hc
        · exact h0
      rw [if_pos hc, if_pos ⟨hc.1, hpos, hc.2⟩]
    · rw [if_neg hc, if_neg (fun hh => hc ⟨hh.1, hh.2.2⟩)]

/-- Witness for C11: the packet `000ahello` with a final newline, read from a
cursor, yields 5 with chomping and 6 without. -/
theorem packet_read_chomps_newline_witness :
    (∃ buffer1 w1,
      packet_read (-1) (some ([48, 48, 48, 97] ++ ([104, 101, 108, 108, 111, 10] ++ [])))
          [7, 7, 7, 7, 7, 7, 7, 7] 8 PACKET_READ_CHOMP_NEWLINE world0
        = Res.ok (5, some [], buffer1) w1
      ∧ buffer1.take 5 = [104, 101, 108, 108, 111]
      ∧ buffer1.get? 5 = some 0) ∧
    (∃ buffer1 w1,
      packet_read (-1) (some ([48, 48, 48, 97] ++ ([104, 101, 108, 108, 111, 10] ++ [])))
          [7, 7, 7, 7, 7, 7, 7, 7] 8 0 world0
        = Res.ok (6, some [], buffer1) w1
      ∧ buffer1.take 6 = [104, 101, 108, 108, 111, 10]
      ∧ buffer1.get? 6 = some 0) :=
  ⟨(packet_read_chomps_newline [48, 48, 48, 97] [104, 101, 108, 108, 111, 10] []
      [7, 7, 7, 7, 7, 7, 7, 7] 8 PACKET_READ_CHOMP_NEWLINE world0 rfl (by decide) (by decide)
      (by decide)).1 (-1) (by decide),
   (packet_read_chomps_newline [48, 48, 48, 97] [104, 101, 108, 108, 111, 10] []
      [7, 7, 7, 7, 7, 7, 7, 7] 8 0 world0 rfl (by decide) (by decide)
      (by decide)).1 (-1) (by decide)⟩

/-! ## Claims on the aggregate read -/

/-- One pass of the loop on an input that ends inside a packet: an abort with
`read error` when the descriptor fails, the sentinel -1 when it just ends; the
content of the buffer is as before. -/
theorem till_flush_loop_truncated (fd_in : Int) (fuel : Nat) (sb : StrBuf) (w : World)
    (hfd : 0 ≤ fd_in) (ht : truncated_packet w.fd_in_data)
    (hmem : sb.buf.length + 65536 < 18446744073709551616) :
    ∃ sb1, sb1.buf = sb.buf ∧ sb.alloc ≤ sb1.alloc ∧
      till_flush_loop fd_in (fuel + 1) sb w =
        if w.fd_in_broken then Res.die Fatal.read_error { w with fd_in_data := [] }
        else Res.ok (-1, sb1) { w with fd_in_data := [] } := by
  have hg : gentle PACKET_READ_GENTLE_ON_EOF := by decide
  by_cases hshort : w.fd_in_data.length < 4
  · have ht := hshort
    refine ⟨sb, rfl, le_refl _, ?_⟩
    rw [till_flush_loop_succ,
      get_packet_data_fd_short fd_in _ 4 _ w hfd ht (by simp; omega)]
    by_cases hb : w.fd_in_broken = true
    · rw [if_pos hb, if_pos hb]
    · rw [if_neg hb, if_neg hb, if_pos hg]
      dsimp only
      rw [if_pos (by decide)]
  · have hlen4 : 4 ≤ w.fd_in_data.length := by omega
    obtain ⟨ht1, ht2⟩ : 4 ≤ packet_length (w.fd_in_data.take 4)
        ∧ (w.fd_in_data.length : Int) - 4 < packet_length (w.fd_in_data.take 4) - 4 := by
      rcases ht with h | h
      · exact absurd h hshort
      · exact h
    have hh : (w.fd_in_data.take 4).length = 4 := by rw [List.length_take]; omega
    have hr := packet_length_range _ hh
    obtain ⟨L, hL⟩ : ∃ L : Nat, packet_length (w.fd_in_data.take 4) = (L : Int) + 4 :=
      ⟨(packet_length (w.fd_in_data.take 4) - 4).toNat, by omega⟩
    have hdata : w.fd_in_data = w.fd_in_data.take 4 ++ w.fd_in_data.drop 4 :=
      (List.take_append_drop 4 _).symm
    have hdl : (w.fd_in_data.drop 4).length = w.fd_in_data.length - 4 := List.length_drop _ _
    have e4 : (L : Int) + 4 - 4 = (L : Int) := by omega
    have hgr := grown_alloc_ge sb L
    refine ⟨{ sb with alloc := grown_alloc sb L }, rfl, hgr.2, ?_⟩
    rw [till_flush_loop_succ,
      get_packet_data_fd_header fd_in _ _ _ w hfd hh hdata]
    dsimp only
    rw [if_neg (by decide), hL, if_neg (by omega), if_neg (by omega), e4,
      toU64_natCast _ (by omega), strbuf_grow_ok _ _ _ (by omega)]
    dsimp only
    rw [toU32_natCast _ (by omega),
      get_packet_data_fd_short fd_in _ L _ _ hfd (by dsimp only; omega)
        (by dsimp only; rw [List.length_replicate]; omega)]
    dsimp only
    by_cases hb : w.fd_in_broken = true
    · rw [if_pos hb, if_pos hb]
    · rw [if_neg hb, if_neg hb, if_pos hg]
      dsimp only
      rw [if_pos (by decide)]

theorem untraced_fd_in_broken (w1 w : World) (rest : List Nat)
    (h : untraced w1 = untraced { w with fd_in_data := rest }) :
    w1.fd_in_broken = w.fd_in_broken := by
  have := congrArg World.fd_in_broken h
  exact this

/-- The loop of `packet_read_till_flush` on a descriptor that holds complete
data packets and then ends inside a packet: the payloads of the complete
packets are in the buffer when the loop stops, with the sentinel -1 at an end of
input and with an abort at a read error. -/
theorem till_flush_loop_packets_truncated (fd_in : Int) (sb : StrBuf) (w : World)
    (ps : List (List Nat)) (tail : List Nat) (hfd : 0 ≤ fd_in)
    (hp : ∀ p ∈ ps, p.length + 4 ≤ 65535)
    (hdata : w.fd_in_data = data_packets ps ++ tail) (ht : truncated_packet tail)
    (hmem : sb.buf.length + ps.flatten.length + 65536 < 18446744073709551616) :
    ∃ sb1 w1, sb1.buf = sb.buf ++ ps.flatten ∧ sb.alloc ≤ sb1.alloc ∧ w1.fd_in_data = [] ∧
      till_flush_loop fd_in (w.fd_in_data.length + 1) sb w =
        if w.fd_in_broken then Res.die Fatal.read_error w1 else Res.ok (-1, sb1) w1 := by
  have hfuel : w.fd_in_data.length + 1 = (w.fd_in_data.length - ps.length) + 1 + ps.length := by
    have := data_packets_length_ge ps
    rw [hdata, List.length_append]
    omega
  obtain ⟨sb1, w1, h1, h2, h3, h4⟩ := till_flush_loop_packets fd_in hfd ps
    (w.fd_in_data.length - ps.length + 1) sb w tail hp hdata (by omega)
  have hd1 := untraced_fd_in_data _ _ _ h4
  have hb1 := untraced_fd_in_broken _ _ _ h4
  obtain ⟨sb2, e1, e2, e3⟩ := till_flush_loop_truncated fd_in
    (w.fd_in_data.length - ps.length) sb1 w1 hfd (by rw [hd1]; exact ht)
    (by rw [h2, List.length_append]; omega)
  refine ⟨sb2, { w1 with fd_in_data := [] }, by rw [e1, h2], le_trans h3 e2, rfl, ?_⟩
  rw [hfuel, h1, e3, hb1]

/-- C14: on a descriptor that holds zero or more well-formed data packets and
then ends, without error, inside a header or inside a payload,
`packet_read_till_flush` returns -1, which no success value equals, and leaves
the buffer with its initial content (an empty, never-allocated buffer is again
empty and never-allocated); the payloads appended on the way are gone. -/
theorem packet_read_till_flush_truncated (fd_in : Int) (sb : StrBuf) (w : World)
    (ps : List (List Nat)) (tail : List Nat) (hfd : 0 ≤ fd_in) (hsb : strbuf_ok sb)
    (hp : ∀ p ∈ ps, p.length + 4 ≤ 65535)
    (hdata : w.fd_in_data = data_packets ps ++ tail) (ht : truncated_packet tail)
    (heof : w.fd_in_broken = false)
    (hmem : sb.buf.length + ps.flatten.length + 65536 < 18446744073709551616) :
    ∃ sb1 w1,
      packet_read_till_flush fd_in sb w = Res.ok (-1, sb1) w1
        ∧ sb1.buf = sb.buf
        ∧ (sb.alloc = 0 → sb1 = { buf := [], alloc := 0 })
        ∧ w1.fd_in_data = []
        ∧ ∀ qs : List (List Nat), (-1 : Int) ≠ (((qs.map List.length).sum : Nat) : Int) := by
  obtain ⟨sb1, w1, h1, h2, h3, h4⟩ :=
    till_flush_loop_packets_truncated fd_in sb w ps tail hfd hp hdata ht hmem
  rw [heof] at h4
  simp only [Bool.false_eq_true, if_false] at h4
  have hne : ∀ qs : List (List Nat), (-1 : Int) ≠ (((qs.map List.length).sum : Nat) : Int) := by
    intro qs; omega
  by_cases ha : sb.alloc = 0
  · refine ⟨{ buf := [], alloc := 0 }, w1, ?_, (hsb.1 ha).symm, fun _ => rfl, h3, hne⟩
    unfold packet_read_till_flush
    dsimp only
    rw [h4]
    dsimp only
    rw [if_pos (by decide), if_pos ha]
    rfl
  · have hlt := hsb.2 ha
    refine ⟨{ sb1 with buf := sb1.buf.take sb.buf.length }, w1, ?_, ?_, fun h => absurd h ha,
      h3, hne⟩
    · unfold packet_read_till_flush
      dsimp only
      rw [h4]
      dsimp only
      rw [if_pos (by decide), if_neg ha]
      unfold strbuf_setlen
      have hsa : sb1.alloc ≠ 0 := by omega
      rw [if_pos hsa, if_neg (by omega)]
    · dsimp only
      rw [h1, take_append_exact _ _ _ rfl]

/-- Witness for C14: the packet `hello` and then the three bytes `000`, read
into a buffer that holds `ab`. -/
theorem packet_read_till_flush_truncated_witness :
    ∃ sb1 w1,
      packet_read_till_flush 0 { buf := [97, 98], alloc := 3 }
          { world0 with
            fd_in_data := data_packets [[104, 101, 108, 108, 111]] ++ [48, 48, 48] }
        = Res.ok (-1, sb1) w1
        ∧ sb1.buf = [97, 98]
        ∧ ((3 : Nat) = 0 → sb1 = { buf := [], alloc := 0 })
        ∧ w1.fd_in_data = []
        ∧ ∀ qs : List (List Nat), (-1 : Int) ≠ (((qs.map List.length).sum : Nat) : Int) :=
  packet_read_till_flush_truncated 0 { buf := [97, 98], alloc := 3 }
    { world0 with fd_in_data := data_packets [[104, 101, 108, 108, 111]] ++ [48, 48, 48] }
    [[104, 101, 108, 108, 111]] [48, 48, 48] (by decide) (by decide) (by decide) rfl
    (by decide) rfl (by decide)

/-- C15 (counterexample): the packet `hello` and then `0009wor` on a descriptor
that fails with a read error where the data ends: `packet_read_till_flush`
aborts with `read error` and returns nothing. -/
theorem packet_read_till_flush_read_error_aborts :
    (∃ w1,
      packet_read_till_flush 0 { buf := [97, 98], alloc := 3 }
          { world0 with
            fd_in_data := data_packets [[104, 101, 108, 108, 111]]
              ++ [48, 48, 48, 57, 119, 111, 114],
            fd_in_broken := true }
        = Res.die Fatal.read_error w1) ∧
    ∀ r w2,
      packet_read_till_flush 0 { buf := [97, 98], alloc := 3 }
          { world0 with
            fd_in_data := data_packets [[104, 101, 108, 108, 111]]
              ++ [48, 48, 48, 57, 119, 111, 114],
            fd_in_broken := true }
        ≠ Res.ok r w2 := by
  obtain ⟨sb1, w1, _, _, _, h4⟩ := till_flush_loop_packets_truncated 0
    { buf := [97, 98], alloc := 3 }
    { world0 with
      fd_in_data := data_packets [[104, 101, 108, 108, 111]]
        ++ [48, 48, 48, 57, 119, 111, 114],
      fd_in_broken := true }
    [[104, 101, 108, 108, 111]] [48, 48, 48, 57, 119, 111, 114] (by decide) (by decide) rfl
    (by decide) (by decide)
  simp only [if_true] at h4
  have hdie : packet_read_till_flush 0 { buf := [97, 98], alloc := 3 }
      { world0 with
        fd_in_data := data_packets [[104, 101, 108, 108, 111]]
          ++ [48, 48, 48, 57, 119, 111, 114],
        fd_in_broken := true }
      = Res.die Fatal.read_error w1 := by
    unfold packet_read_till_flush
    dsimp only
    rw [h4]
  refine ⟨⟨w1, hdie⟩, ?_⟩
  intro r w2 h
  rw [hdie] at h
  cases h

/-- C15 (amended): on a descriptor that holds zero or more well-formed data
packets and then fails with a read error inside a packet,
`packet_read_till_flush` aborts the process with `read error`; it returns no
sentinel. -/
theorem packet_read_till_flush_read_error (fd_in : Int) (sb : StrBuf) (w : World)
    (ps : List (List Nat)) (tail : List Nat) (hfd : 0 ≤ fd_in)
    (hp : ∀ p ∈ ps, p.length + 4 ≤ 65535)
    (hdata : w.fd_in_data = data_packets ps ++ tail) (ht : truncated_packet tail)
    (herr : w.fd_in_broken = true)
    (hmem : sb.buf.length + ps.flatten.length + 65536 < 18446744073709551616) :
    ∃ w1, packet_read_till_flush fd_in sb w = Res.die Fatal.read_error w1 := by
  obtain ⟨sb1, w1, _, _, _, h4⟩ :=
    till_flush_loop_packets_truncated fd_in sb w ps tail hfd hp hdata ht hmem
  rw [herr] at h4
  simp only [if_true] at h4
  refine ⟨w1, ?_⟩
  unfold packet_read_till_flush
  dsimp only
  rw [h4]

/-- Witness for C15 (amended): a read error inside the first header. -/
theorem packet_read_till_flush_read_error_witness :
    ∃ w1, packet_read_till_flush 0 { buf := [], alloc := 0 }
        { world0 with fd_in_data := data_packets [] ++ [48, 48], fd_in_broken := true }
      = Res.die Fatal.read_error w1 :=
  packet_read_till_flush_read_error 0 { buf := [], alloc := 0 }
    { world0 with fd_in_data := data_packets [] ++ [48, 48], fd_in_broken := true }
    [] [48, 48] (by decide) (by decide) rfl (by decide) rfl (by decide)

/-! ## Claim on the empty data packet -/

/-- The flush packet on a cursor. -/
theorem packet_read_cursor_flush (fd : Int) (rest buffer : List Nat) (size options : Nat)
    (w : World) (hfd : fd < 0) :
    packet_read fd (some (flush_pkt ++ rest)) buffer size options w
      = Res.ok (0, some rest, buffer) (packet_trace flush_pkt 4 false w) :=
  packet_read_flush fd _ _ buffer flush_pkt size options w w
    (get_packet_data_cursor_header fd flush_pkt rest options w hfd rfl) (by decide)

/-- The data packet `0004`, with no payload, on a cursor. -/
theorem packet_read_cursor_empty (fd : Int) (rest buffer : List Nat) (size options : Nat)
    (w : World) (hfd : fd < 0) (hsize : 0 < size) (hcap : size ≤ buffer.length) :
    packet_read fd (some ([48, 48, 48, 52] ++ rest)) buffer size options w
      = Res.ok (0, some rest, 0 :: buffer.drop 1)
          (packet_trace (0 :: buffer.drop 1) 0 false w) := by
  have h := packet_read_cursor_payload fd [48, 48, 48, 52] [] rest buffer size options w hfd rfl
    (by decide) hsize hcap
  have hc : chomped_length options [] = 0 := by
    unfold chomped_length; split_ifs <;> rfl
  rw [hc] at h
  exact h

/-- The data packet `0005` with a newline as payload, on a cursor, with chomping. -/
theorem packet_read_cursor_newline (fd : Int) (rest buffer : List Nat) (size options : Nat)
    (w : World) (hfd : fd < 0) (hsize : 1 < size) (hcap : size ≤ buffer.length)
    (hchomp : chomp_newline options) :
    packet_read fd (some ([48, 48, 48, 53] ++ ([10] ++ rest))) buffer size options w
      = Res.ok (0, some rest, 0 :: buffer.drop 1)
          (packet_trace (0 :: buffer.drop 1) 0 false w) := by
  have h := packet_read_cursor_payload fd [48, 48, 48, 53] [10] rest buffer size options w hfd rfl
    (by decide) hsize hcap
  have hc : chomped_length options [10] = 0 := by
    unfold chomped_length
    rw [if_pos ⟨hchomp, rfl⟩]
    rfl
  rw [hc] at h
  exact h

/-- Setting the scratch buffer of a traced state to what it is already. -/
theorem packet_trace_with_packet_buffer (buf : List Nat) (len : Nat) (wr : Bool) (w : World) :
    { packet_trace buf len wr w with packet_buffer := w.packet_buffer }
      = packet_trace buf len wr w := by
  have h := packet_trace_packet_buffer buf len wr w
  generalize packet_trace buf len wr w = x at h
  cases x
  cases h
  rfl

/-- The line reader on a flush packet, with tracing off. -/
theorem packet_read_line_generic_flush_untraced (fd : Int) (rest : List Nat)
    (dst_len : Option Int) (w : World) (hfd : fd < 0)
    (hp : w.want_packet = false) (hk : w.want_pack = false) :
    packet_read_line_generic fd (some (flush_pkt ++ rest)) dst_len w
      = Res.ok (none, dst_len.map (fun _ => 0), some rest) w := by
  unfold packet_read_line_generic
  rw [packet_read_cursor_flush fd rest _ _ _ w hfd, packet_trace_off _ _ _ w hp hk]
  simp

/-- The line reader on the empty data packet, with tracing off. -/
theorem packet_read_line_generic_empty_untraced (fd : Int) (rest : List Nat)
    (dst_len : Option Int) (w : World) (hfd : fd < 0)
    (hp : w.want_packet = false) (hk : w.want_pack = false)
    (hlen : w.packet_buffer.length = LARGE_PACKET_MAX) :
    packet_read_line_generic fd (some ([48, 48, 48, 52] ++ rest)) dst_len w
      = Res.ok (none, dst_len.map (fun _ => 0), some rest)
          { w with packet_buffer := 0 :: w.packet_buffer.drop 1 } := by
  unfold packet_read_line_generic
  rw [packet_read_cursor_empty fd rest _ _ _ w hfd (by decide) (by rw [hlen]),
    packet_trace_off _ _ _ w hp hk]
  simp

/-- The flush packet on a descriptor. -/
theorem packet_read_fd_flush (fd : Int) (rest buffer : List Nat) (size options : Nat)
    (w : World) (hfd : 0 ≤ fd) :
    packet_read fd none buffer size options { w with fd_in_data := flush_pkt ++ rest }
      = Res.ok (0, none, buffer) (packet_trace flush_pkt 4 false { w with fd_in_data := rest }) :=
  packet_read_flush fd _ _ buffer flush_pkt size options _ _
    (get_packet_data_fd_header fd flush_pkt rest options _ hfd rfl rfl) (by decide)

/-- The data packet `0004`, with no payload, on a descriptor. -/
theorem packet_read_fd_empty (fd : Int) (rest buffer : List Nat) (size options : Nat)
    (w : World) (hfd : 0 ≤ fd) (hsize : 0 < size) (hcap : size ≤ buffer.length) :
    packet_read fd none buffer size options { w with fd_in_data := [48, 48, 48, 52] ++ rest }
      = Res.ok (0, none, 0 :: buffer.drop 1)
          (packet_trace (0 :: buffer.drop 1) 0 false { w with fd_in_data := rest }) := by
  have h := packet_read_fd_data fd [48, 48, 48, 52] [] rest buffer size options
    { w with fd_in_data := [48, 48, 48, 52] ++ rest } hfd rfl (by decide) hsize hcap rfl
  have hc : chomped_length options [] = 0 := by
    unfold chomped_length; split_ifs <;> rfl
  rw [hc] at h
  exact h

/-- The data packet `0005` with a newline as payload, on a descriptor, with chomping. -/
theorem packet_read_fd_newline (fd : Int) (rest buffer : List Nat) (size options : Nat)
    (w : World) (hfd : 0 ≤ fd) (hsize : 1 < size) (hcap : size ≤ buffer.length)
    (hchomp : chomp_newline options) :
    packet_read fd none buffer size options
        { w with fd_in_data := [48, 48, 48, 53] ++ ([10] ++ rest) }
      = Res.ok (0, none, 0 :: buffer.drop 1)
          (packet_trace (0 :: buffer.drop 1) 0 false { w with fd_in_data := rest }) := by
  have h := packet_read_fd_data fd [48, 48, 48, 53] [10] rest buffer size options
    { w with fd_in_data := [48, 48, 48, 53] ++ ([10] ++ rest) } hfd rfl (by decide) hsize hcap rfl
  have hc : chomped_length options [10] = 0 := by
    unfold chomped_length
    rw [if_pos ⟨hchomp, rfl⟩]
    rfl
  rw [hc] at h
  exact h

/-- C19 (amended): `packet_read` returns 0 for the flush header `0000`, for the
empty data packet `0004` and, with chomping, for the packet `0005` that holds
one newline, and the line readers (`packet_read_line_buf` on a cursor,
`packet_read_line` on a descriptor) return `NULL` with length 0 for all three; a
flush consumes 4 bytes, traces `0000` and leaves the destination untouched,
while the two data packets consume 4 resp. 5 bytes, trace an empty payload and
store a NUL at index 0 of the destination. -/
theorem empty_packet_reads_like_flush (rest : List Nat) (w : World)
    (hw : w.packet_buffer.length = LARGE_PACKET_MAX) :
    (∀ (fd : Int) (buffer : List Nat) (size options : Nat), fd < 0 → 1 < size →
      size ≤ buffer.length →
      packet_read fd (some (flush_pkt ++ rest)) buffer size options w
          = Res.ok (0, some rest, buffer) (packet_trace flush_pkt 4 false w)
      ∧ packet_read fd (some ([48, 48, 48, 52] ++ rest)) buffer size options w
          = Res.ok (0, some rest, 0 :: buffer.drop 1)
              (packet_trace (0 :: buffer.drop 1) 0 false w)
      ∧ (chomp_newline options →
          packet_read fd (some ([48, 48, 48, 53] ++ ([10] ++ rest))) buffer size options w
            = Res.ok (0, some rest, 0 :: buffer.drop 1)
                (packet_trace (0 :: buffer.drop 1) 0 false w))) ∧
    (∀ dst_len : Option Int,
      packet_read_line_buf (some (flush_pkt ++ rest)) dst_len w
          = Res.ok (none, dst_len.map (fun _ => 0), some rest) (packet_trace flush_pkt 4 false w)
      ∧ packet_read_line_buf (some ([48, 48, 48, 52] ++ rest)) dst_len w
          = Res.ok (none, dst_len.map (fun _ => 0), some rest)
              { packet_trace (0 :: w.packet_buffer.drop 1) 0 false w with
                packet_buffer := 0 :: w.packet_buffer.drop 1 }
      ∧ packet_read_line_buf (some ([48, 48, 48, 53] ++ ([10] ++ rest))) dst_len w
          = Res.ok (none, dst_len.map (fun _ => 0), some rest)
              { packet_trace (0 :: w.packet_buffer.drop 1) 0 false w with
                packet_buffer := 0 :: w.packet_buffer.drop 1 }) ∧
    (∀ (fd : Int) (len_p : Option Int), 0 ≤ fd →
      packet_read_line fd len_p { w with fd_in_data := flush_pkt ++ rest }
          = Res.ok (none, len_p.map (fun _ => 0), none)
              (packet_trace flush_pkt 4 false { w with fd_in_data := rest })
      ∧ packet_read_line fd len_p { w with fd_in_data := [48, 48, 48, 52] ++ rest }
          = Res.ok (none, len_p.map (fun _ => 0), none)
              { packet_trace (0 :: w.packet_buffer.drop 1) 0 false
                  { w with fd_in_data := rest } with
                packet_buffer := 0 :: w.packet_buffer.drop 1 }
      ∧ packet_read_line fd len_p { w with fd_in_data := [48, 48, 48, 53] ++ ([10] ++ rest) }
          = Res.ok (none, len_p.map (fun _ => 0), none)
              { packet_trace (0 :: w.packet_buffer.drop 1) 0 false
                  { w with fd_in_data := rest } with
                packet_buffer := 0 :: w.packet_buffer.drop 1 }) := by
  have hmax : LARGE_PACKET_MAX = 65520 := rfl
  have hm1 : (-1 : Int) < 0 := by decide
  refine ⟨?_, ?_, ?_⟩
  · intro fd buffer size options hfd hsize hcap
    exact ⟨packet_read_cursor_flush fd rest buffer size options w hfd,
      packet_read_cursor_empty fd rest buffer size options w hfd (by omega) hcap,
      fun hc => packet_read_cursor_newline fd rest buffer size options w hfd hsize hcap hc⟩
  · intro dst_len
    refine ⟨?_, ?_, ?_⟩
    · unfold packet_read_line_buf packet_read_line_generic
      rw [packet_read_cursor_flush (-1) rest _ _ _ w hm1]
      dsimp only
      rw [packet_trace_with_packet_buffer]
      simp
    · unfold packet_read_line_buf packet_read_line_generic
      rw [packet_read_cursor_empty (-1) rest _ _ _ w hm1 (by omega) (by omega)]
      dsimp only
      simp
    · unfold packet_read_line_buf packet_read_line_generic
      rw [packet_read_cursor_newline (-1) rest _ _ _ w hm1 (by omega) (by omega) (by decide)]
      dsimp only
      simp
  · intro fd len_p hfd
    refine ⟨?_, ?_, ?_⟩
    · unfold packet_read_line packet_read_line_generic
      rw [packet_read_fd_flush fd rest _ _ _ w hfd]
      dsimp only
      have e := packet_trace_with_packet_buffer flush_pkt 4 false { w with fd_in_data := rest }
      rw [e]
      simp
    · unfold packet_read_line packet_read_line_generic
      rw [packet_read_fd_empty fd rest _ _ _ w hfd (by omega)
        (by show LARGE_PACKET_MAX ≤ w.packet_buffer.length; omega)]
      dsimp only
      simp
    · unfold packet_read_line packet_read_line_generic
      rw [packet_read_fd_newline fd rest _ _ _ w hfd (by omega)
        (by show LARGE_PACKET_MAX ≤ w.packet_buffer.length; omega) (by decide)]
      dsimp only
      simp

/-- Witness for C19 (amended): the packet `0004` read by `packet_read` from a
cursor into a destination of two bytes. -/
theorem empty_packet_reads_like_flush_witness :
    packet_read (-1) (some ([48, 48, 48, 52] ++ [])) [7, 7] 2 0 world0
      = Res.ok (0, some [], 0 :: [7, 7].drop 1)
          (packet_trace (0 :: [7, 7].drop 1) 0 false world0) :=
  ((empty_packet_reads_like_flush [] world0 world0_packet_buffer_length).1 (-1) [7, 7] 2 0
    (by decide) (by decide) (by decide)).2.1

/-- C19 (counterexample): with tracing off and a scratch buffer whose first
byte is `h`, the line reader returns `NULL` with length 0 and consumes 4 bytes
for the flush packet `0000` as for the empty data packet `0004`, and traces
nothing for either; yet afterwards the first byte of the scratch buffer is still
`h` for the flush and NUL for the data packet. -/
theorem empty_packet_differs_from_flush :
    ∃ w1 w2,
      packet_read_line_buf (some ([48, 48, 48, 48] ++ [])) (some 5)
          { world0 with packet_buffer := 104 :: List.replicate 65519 0 }
        = Res.ok (none, some 0, some []) w1
      ∧ packet_read_line_buf (some ([48, 48, 48, 52] ++ [])) (some 5)
          { world0 with packet_buffer := 104 :: List.replicate 65519 0 }
        = Res.ok (none, some 0, some []) w2
      ∧ w1.trace_packet_out = w2.trace_packet_out
      ∧ w1.trace_pack_out = w2.trace_pack_out
      ∧ w1.packet_buffer.head? = some 104
      ∧ w2.packet_buffer.head? = some 0 := by
  have hlen : (104 :: List.replicate 65519 0).length = LARGE_PACKET_MAX := by
    rw [List.length_cons, List.length_replicate]
    rfl
  exact ⟨_, _,
    packet_read_line_generic_flush_untraced (-1) [] (some 5) _ (by decide) rfl rfl,
    packet_read_line_generic_empty_untraced (-1) [] (some 5) _ (by decide) rfl rfl hlen,
    rfl, rfl, rfl, rfl⟩

/-! ## Claim on chunked streaming -/

theorem chunk_list_fuel (k : Nat) : ∀ (k1 : Nat) (l : List Nat), l.length ≤ k → l.length ≤ k1 →
    chunk_list k l = chunk_list k1 l := by
  induction k with
  | zero =>
    intro k1 l h _
    have : l = [] := List.length_eq_zero.mp (by omega)
    subst this
    cases k1 <;> rfl
  | succ k ih =>
    intro k1 l h h1
    cases l with
    | nil => cases k1 <;> rfl
    | cons a l =>
      cases k1 with
      | zero => simp at h1
      | succ k1 =>
        have hN : PKTLINE_DATA_MAXLEN = 65516 := rfl
        have hd : ((a :: l).drop PKTLINE_DATA_MAXLEN).length ≤ l.length := by
          rw [List.length_drop, List.length_cons, hN]; omega
        simp only [List.length_cons] at h h1
        show _ :: chunk_list k _ = _ :: chunk_list k1 _
        rw [ih k1 _ (by omega) (by omega)]

theorem chunks_nil : chunks [] = [] := rfl

/-- The chunks of a sequence that is not empty: the first `PKTLINE_DATA_MAXLEN`
bytes, then the chunks of the rest. -/
theorem chunks_of_ne_nil (l : List Nat) (h : l ≠ []) :
    chunks l = l.take PKTLINE_DATA_MAXLEN :: chunks (l.drop PKTLINE_DATA_MAXLEN) := by
  cases l with
  | nil => exact absurd rfl h
  | cons a l =>
    have hN : PKTLINE_DATA_MAXLEN = 65516 := rfl
    have hd : ((a :: l).drop PKTLINE_DATA_MAXLEN).length ≤ l.length := by
      rw [List.length_drop, List.length_cons, hN]; omega
    show _ :: chunk_list l.length _ = _ :: chunk_list _ _
    rw [chunk_list_fuel l.length _ _ hd (le_refl _)]

/-- The chunks by induction on the length of the sequence. -/
theorem chunks_induction (P : List Nat → Prop) (h0 : P [])
    (hstep : ∀ l, l ≠ [] → P (l.drop PKTLINE_DATA_MAXLEN) → P l) : ∀ l, P l := by
  have hN : PKTLINE_DATA_MAXLEN = 65516 := rfl
  have key : ∀ n (l : List Nat), l.length ≤ n → P l := by
    intro n
    induction n with
    | zero =>
      intro l h
      have : l = [] := List.length_eq_zero.mp (by omega)
      subst this
      exact h0
    | succ n ih =>
      intro l h
      by_cases hl : l = []
      · subst hl; exact h0
      · have hpos : 0 < l.length := List.length_pos.mpr hl
        exact hstep l hl (ih _ (by rw [List.length_drop, hN]; omega))
  exact fun l => key l.length l (le_refl _)

theorem chunks_flatten (l : List Nat) : (chunks l).flatten = l := by
  induction l using chunks_induction with
  | h0 => rfl
  | hstep l hl ih =>
    rw [chunks_of_ne_nil l hl, List.flatten_cons, ih, List.take_append_drop]

theorem chunks_length (l : List Nat) : (chunks l).length = (l.length + 65515) / 65516 := by
  induction l using chunks_induction with
  | h0 => rfl
  | hstep l hl ih =>
    have hN : PKTLINE_DATA_MAXLEN = 65516 := rfl
    have hpos : 0 < l.length := List.length_pos.mpr hl
    rw [chunks_of_ne_nil l hl, List.length_cons, ih, List.length_drop, hN]
    omega

theorem chunks_eq_nil (l : List Nat) : chunks l = [] ↔ l = [] := by
  constructor
  · intro h
    by_contra hl
    rw [chunks_of_ne_nil l hl] at h
    exact List.cons_ne_nil _ _ h
  · intro h
    subst h
    rfl

theorem chunks_mem (l : List Nat) :
    ∀ c ∈ chunks l, c ≠ [] ∧ c.length ≤ PKTLINE_DATA_MAXLEN := by
  induction l using chunks_induction with
  | h0 => intro c hc; simp [chunks_nil] at hc
  | hstep l hl ih =>
    have hN : PKTLINE_DATA_MAXLEN = 65516 := rfl
    have hpos : 0 < l.length := List.length_pos.mpr hl
    intro c hc
    rw [chunks_of_ne_nil l hl, List.mem_cons] at hc
    rcases hc with hc | hc
    · subst hc
      refine ⟨?_, ?_⟩
      · intro h0
        have h1 : (List.take PKTLINE_DATA_MAXLEN l).length = 0 := by rw [h0]; rfl
        rw [List.length_take, hN] at h1
        omega
      · rw [List.length_take]; omega
    · exact ih c hc

theorem chunks_dropLast (l : List Nat) :
    ∀ c ∈ (chunks l).dropLast, c.length = PKTLINE_DATA_MAXLEN := by
  induction l using chunks_induction with
  | h0 => intro c hc; simp [chunks_nil] at hc
  | hstep l hl ih =>
    have hN : PKTLINE_DATA_MAXLEN = 65516 := rfl
    intro c hc
    rw [chunks_of_ne_nil l hl] at hc
    by_cases hr : l.drop PKTLINE_DATA_MAXLEN = []
    · rw [(chunks_eq_nil _).mpr hr] at hc
      simp at hc
    · have hne : chunks (l.drop PKTLINE_DATA_MAXLEN) ≠ [] := fun h => hr ((chunks_eq_nil _).mp h)
      rw [List.dropLast_cons_of_ne_nil hne, List.mem_cons] at hc
      rcases hc with hc | hc
      · subst hc
        have : 0 < (l.drop PKTLINE_DATA_MAXLEN).length := List.length_pos.mpr hr
        rw [List.length_drop] at this
        rw [List.length_take]
        omega
      · exact ih c hc

theorem write_in_full_room (fd : Int) (buf : List Nat) (count : Nat) (w : World)
    (h : write_completes fd count w) :
    (write_in_full fd buf count w).2.fd_out_room = w.fd_out_room.map (fun r => r - count) := by
  obtain ⟨_, _, _, _, _, _, _, _, _, _, _, _, _, _, _, room⟩ := w
  unfold write_in_full
  unfold write_completes at h
  cases room with
  | none => dsimp only; rw [if_neg (by omega)]; rfl
  | some room =>
    dsimp only
    rw [if_neg (by omega), if_pos (h.2 room rfl)]
    rfl

theorem write_in_full_packet_write_buffer (fd : Int) (buf : List Nat) (count : Nat) (w : World) :
    (write_in_full fd buf count w).2.packet_write_buffer = w.packet_write_buffer := by
  obtain ⟨d, r, h⟩ := write_in_full_frame fd buf count w
  rw [h]

/-- A request that is not complete leaves a strict initial part of it on the descriptor. -/
theorem write_in_full_fail_data (fd : Int) (buf : List Nat) (count : Nat) (w : World)
    (h : ¬ write_completes fd count w) (hcount : 0 < count) :
    ∃ d, (write_in_full fd buf count w).2.fd_out_data = w.fd_out_data ++ d
      ∧ d <+: buf.take count ∧ d.length < count := by
  obtain ⟨_, _, _, _, _, _, _, _, _, _, _, _, _, data, _, room⟩ := w
  unfold write_in_full
  unfold write_completes at h
  by_cases hfd : fd < 0
  · refine ⟨[], ?_, List.nil_prefix, hcount⟩
    dsimp only
    rw [if_pos hfd, List.append_nil]
  · cases room with
    | none => exact absurd ⟨by omega, by simp⟩ h
    | some room =>
      have hc : ¬ count ≤ room := by
        intro hc
        exact h ⟨by omega, by intro r hr; cases hr; exact hc⟩
      refine ⟨(buf.take count).take room, ?_, List.take_prefix _ _, ?_⟩
      · dsimp only
        rw [if_neg hfd, if_neg hc]
      · rw [List.length_take]
        omega

/-- The bytes requested by `packet_write_gently` are the wire form of the payload. -/
theorem take_data_packet (buf tail : List Nat) (size : Nat) (hbuf : size ≤ buf.length) :
    (encode_header (size + 4) ++ (buf.take size ++ tail)).take (size + 4)
      = data_packet (buf.take size) := by
  have hlen : (buf.take size).length = size := by simp; omega
  unfold data_packet
  rw [hlen, ← List.append_assoc]
  exact take_append_exact _ _ _ (by rw [List.length_append, encode_header_length, hlen]; omega)

theorem data_packet_length (p : List Nat) : (data_packet p).length = p.length + 4 := by
  unfold data_packet
  rw [List.length_append, encode_header_length]
  omega

/-- An accepted payload whose write request is complete. -/
theorem packet_write_gently_complete (fd_out : Int) (buf : List Nat) (size : Nat) (w : World)
    (hsize : size ≤ PKTLINE_DATA_MAXLEN) (hbuf : size ≤ buf.length)
    (hw : w.packet_write_buffer.length = LARGE_PACKET_MAX)
    (hc : write_completes fd_out (size + 4) w) :
    ∃ w1, packet_write_gently fd_out buf size w = Res.ok 0 w1
      ∧ w1.fd_out_data = w.fd_out_data ++ data_packet (buf.take size)
      ∧ w1.fd_out_calls = w.fd_out_calls ++ [(fd_out, data_packet (buf.take size))]
      ∧ w1.fd_out_room = w.fd_out_room.map (fun r => r - (size + 4))
      ∧ w1.packet_write_buffer.length = LARGE_PACKET_MAX := by
  have hmax : PKTLINE_DATA_MAXLEN = 65516 := rfl
  have hlm : LARGE_PACKET_MAX = 65520 := rfl
  have hlen : (buf.take size).length = size := by simp; omega
  have hc1 : write_completes fd_out (size + 4)
      { packet_trace buf (u32 size) true w with
        packet_write_buffer := encode_header (size + 4)
          ++ (List.take size buf ++ List.drop (size + 4) w.packet_write_buffer) } :=
    (write_completes_congr fd_out (size + 4) w _ (packet_trace_fd_out_room _ _ _ w)).mpr hc
  rw [packet_write_gently_accepted fd_out buf size w hsize hbuf hw, if_pos hc]
  refine ⟨_, rfl, ?_, ?_, ?_, ?_⟩
  · rw [write_in_full_data _ _ _ _ hc1, take_data_packet _ _ _ hbuf]
    show (packet_trace buf (u32 size) true w).fd_out_data ++ _ = _
    rw [packet_trace_fd_out_data]
  · rw [write_in_full_calls, take_data_packet _ _ _ hbuf]
    show (packet_trace buf (u32 size) true w).fd_out_calls ++ _ = _
    rw [packet_trace_fd_out_calls]
  · rw [write_in_full_room _ _ _ _ hc1]
    show (packet_trace buf (u32 size) true w).fd_out_room.map _ = _
    rw [packet_trace_fd_out_room]
  · rw [write_in_full_packet_write_buffer]
    show (encode_header (size + 4)
      ++ (List.take size buf ++ List.drop (size + 4) w.packet_write_buffer)).length = _
    rw [List.length_append, List.length_append, encode_header_length, hlen, List.length_drop, hw]
    omega

/-- An accepted payload whose write request is not complete. -/
theorem packet_write_gently_incomplete (fd_out : Int) (buf : List Nat) (size : Nat) (w : World)
    (hsize : size ≤ PKTLINE_DATA_MAXLEN) (hbuf : size ≤ buf.length)
    (hw : w.packet_write_buffer.length = LARGE_PACKET_MAX)
    (hc : ¬ write_completes fd_out (size + 4) w) :
    ∃ w1 d, packet_write_gently fd_out buf size w = Res.ok (-1) w1
      ∧ w1.fd_out_data = w.fd_out_data ++ d
      ∧ d <+: data_packet (buf.take size) ∧ d.length < (data_packet (buf.take size)).length
      ∧ w1.fd_out_calls = w.fd_out_calls ++ [(fd_out, data_packet (buf.take size))] := by
  have hlen : (buf.take size).length = size := by simp; omega
  have hc1 : ¬ write_completes fd_out (size + 4)
      { packet_trace buf (u32 size) true w with
        packet_write_buffer := encode_header (size + 4)
          ++ (List.take size buf ++ List.drop (size + 4) w.packet_write_buffer) } :=
    fun h => hc ((write_completes_congr fd_out (size + 4) w _
      (packet_trace_fd_out_room _ _ _ w)).mp h)
  obtain ⟨d, hd1, hd2, hd3⟩ := write_in_full_fail_data fd_out
    (encode_header (size + 4) ++ (buf.take size ++ w.packet_write_buffer.drop (size + 4)))
    (size + 4) _ hc1 (by omega)
  rw [take_data_packet _ _ _ hbuf] at hd2
  rw [packet_write_gently_accepted fd_out buf size w hsize hbuf hw, if_neg hc]
  refine ⟨_, d, rfl, ?_, hd2, ?_, ?_⟩
  · rw [hd1]
    show (packet_trace buf (u32 size) true w).fd_out_data ++ _ = _
    rw [packet_trace_fd_out_data]
  · rw [data_packet_length, hlen]
    exact hd3
  · rw [write_in_full_calls, take_data_packet _ _ _ hbuf]
    show (packet_trace buf (u32 size) true w).fd_out_calls ++ _ = _
    rw [packet_trace_fd_out_calls]

/-- The bytes of the input that the loop has not written yet, and the part the
next pass takes. -/
theorem stream_rest (src_in : List Nat) (len bytes_written : Nat) (hlen : len ≤ src_in.length)
    (hbw : bytes_written ≤ len) :
    ((src_in.take len).drop bytes_written).length = len - bytes_written
    ∧ (src_in.drop bytes_written).take
        (if len - bytes_written > PKTLINE_DATA_MAXLEN then PKTLINE_DATA_MAXLEN
         else len - bytes_written)
      = ((src_in.take len).drop bytes_written).take PKTLINE_DATA_MAXLEN
    ∧ (src_in.take len).drop
        (bytes_written + (if len - bytes_written > PKTLINE_DATA_MAXLEN then PKTLINE_DATA_MAXLEN
         else len - bytes_written))
      = ((src_in.take len).drop bytes_written).drop PKTLINE_DATA_MAXLEN := by
  have hN : PKTLINE_DATA_MAXLEN = 65516 := rfl
  refine ⟨?_, ?_, ?_⟩
  · rw [List.length_drop, List.length_take]
    omega
  · rw [List.drop_take, List.take_take]
    congr 1
    split_ifs <;> omega
  · rw [List.drop_drop]
    split_ifs with h
    · rfl
    · rw [List.drop_eq_nil_of_le (by rw [List.length_take]; omega),
        List.drop_eq_nil_of_le (by rw [List.length_take]; omega)]

/-- The loop with nothing left to write. -/
theorem stream_from_buf_loop_done (fd_out : Int) (src_in : List Nat) (len fuel bytes_written : Nat)
    (w : World) (h : len ≤ bytes_written) :
    stream_from_buf_loop fd_out src_in len (fuel + 1) bytes_written w = Res.ok 0 w := by
  have hN : PKTLINE_DATA_MAXLEN = 65516 := rfl
  rw [stream_from_buf_loop_succ]
  dsimp only
  rw [if_pos]
  split_ifs <;> omega

/-- One pass of the loop whose write request is complete. -/
theorem stream_from_buf_loop_pass (fd_out : Int) (src_in : List Nat) (len fuel bytes_written : Nat)
    (w : World) (hlen : len ≤ src_in.length) (hbw : bytes_written < len)
    (hw : w.packet_write_buffer.length = LARGE_PACKET_MAX)
    (hc : write_completes fd_out
      ((((src_in.take len).drop bytes_written).take PKTLINE_DATA_MAXLEN).length + 4) w) :
    ∃ w1 bw1, stream_from_buf_loop fd_out src_in len (fuel + 1) bytes_written w
        = stream_from_buf_loop fd_out src_in len fuel bw1 w1
      ∧ bw1 ≤ len ∧ len - bw1 + PKTLINE_DATA_MAXLEN ≤ max (len - bytes_written) PKTLINE_DATA_MAXLEN
      ∧ (src_in.take len).drop bw1
          = ((src_in.take len).drop bytes_written).drop PKTLINE_DATA_MAXLEN
      ∧ w1.fd_out_data = w.fd_out_data
          ++ data_packet (((src_in.take len).drop bytes_written).take PKTLINE_DATA_MAXLEN)
      ∧ w1.fd_out_calls = w.fd_out_calls
          ++ [(fd_out, data_packet (((src_in.take len).drop bytes_written).take
                PKTLINE_DATA_MAXLEN))]
      ∧ w1.fd_out_room = w.fd_out_room.map (fun r => r -
          ((((src_in.take len).drop bytes_written).take PKTLINE_DATA_MAXLEN).length + 4))
      ∧ w1.packet_write_buffer.length = LARGE_PACKET_MAX := by
  have hN : PKTLINE_DATA_MAXLEN = 65516 := rfl
  obtain ⟨r1, r2, r3⟩ := stream_rest src_in len bytes_written hlen (le_of_lt hbw)
  generalize hb : (if len - bytes_written > PKTLINE_DATA_MAXLEN then PKTLINE_DATA_MAXLEN
         else len - bytes_written) = btw at r2 r3
  have hb1 : btw ≤ PKTLINE_DATA_MAXLEN ∧ btw ≤ len - bytes_written ∧ btw ≠ 0
      ∧ (len - bytes_written ≤ PKTLINE_DATA_MAXLEN → btw = len - bytes_written)
      ∧ (len - bytes_written > PKTLINE_DATA_MAXLEN → btw = PKTLINE_DATA_MAXLEN) := by
    rw [← hb]
    split_ifs <;> omega
  have hcl : (((src_in.take len).drop bytes_written).take PKTLINE_DATA_MAXLEN).length = btw := by
    rw [List.length_take, r1]
    omega
  rw [hcl] at hc
  obtain ⟨w1, h1, h2, h3, h4, h5⟩ := packet_write_gently_complete fd_out
    (src_in.drop bytes_written) btw w hb1.1 (by rw [List.length_drop]; omega) hw hc
  rw [r2] at h2 h3
  refine ⟨w1, bytes_written + btw, ?_, by omega, by omega, r3, h2, h3, ?_, h5⟩
  · rw [stream_from_buf_loop_succ]
    dsimp only
    rw [hb, if_neg hb1.2.2.1, h1]
    dsimp only
    rw [if_neg (by simp)]
  · rw [h4, hcl]

/-- One pass of the loop whose write request is not complete. -/
theorem stream_from_buf_loop_fail (fd_out : Int) (src_in : List Nat) (len fuel bytes_written : Nat)
    (w : World) (hlen : len ≤ src_in.length) (hbw : bytes_written < len)
    (hw : w.packet_write_buffer.length = LARGE_PACKET_MAX)
    (hc : ¬ write_completes fd_out
      ((((src_in.take len).drop bytes_written).take PKTLINE_DATA_MAXLEN).length + 4) w) :
    ∃ w1 d, stream_from_buf_loop fd_out src_in len (fuel + 1) bytes_written w = Res.ok (-1) w1
      ∧ w1.fd_out_data = w.fd_out_data ++ d
      ∧ d <+: data_packet (((src_in.take len).drop bytes_written).take PKTLINE_DATA_MAXLEN)
      ∧ d.length
          < (data_packet (((src_in.take len).drop bytes_written).take PKTLINE_DATA_MAXLEN)).length
      ∧ w1.fd_out_calls = w.fd_out_calls
          ++ [(fd_out, data_packet (((src_in.take len).drop bytes_written).take
                PKTLINE_DATA_MAXLEN))] := by
  have hN : PKTLINE_DATA_MAXLEN = 65516 := rfl
  obtain ⟨r1, r2, r3⟩ := stream_rest src_in len bytes_written hlen (le_of_lt hbw)
  generalize hb : (if len - bytes_written > PKTLINE_DATA_MAXLEN then PKTLINE_DATA_MAXLEN
         else len - bytes_written) = btw at r2 r3
  have hb1 : btw ≤ PKTLINE_DATA_MAXLEN ∧ btw ≤ len - bytes_written ∧ btw ≠ 0
      ∧ (len - bytes_written ≤ PKTLINE_DATA_MAXLEN → btw = len - bytes_written)
      ∧ (len - bytes_written > PKTLINE_DATA_MAXLEN → btw = PKTLINE_DATA_MAXLEN) := by
    rw [← hb]
    split_ifs <;> omega
  have hcl : (((src_in.take len).drop bytes_written).take PKTLINE_DATA_MAXLEN).length = btw := by
    rw [List.length_take, r1]
    omega
  rw [hcl] at hc
  obtain ⟨w1, d, h1, h2, h3, h4, h5⟩ := packet_write_gently_incomplete fd_out
    (src_in.drop bytes_written) btw w hb1.1 (by rw [List.length_drop]; omega) hw hc
  rw [r2] at h3 h4 h5
  refine ⟨w1, d, ?_, h2, h3, h4, h5⟩
  rw [stream_from_buf_loop_succ]
  dsimp only
  rw [hb, if_neg hb1.2.2.1, h1]
  dsimp only
  rw [if_pos (by decide)]

theorem data_packets_cons (p : List Nat) (ps : List (List Nat)) :
    data_packets (p :: ps) = data_packet p ++ data_packets ps := rfl

/-- The loop on a descriptor that takes every request: one data packet per
chunk of the bytes not written yet. -/
theorem stream_from_buf_loop_complete (fd_out : Int) (src_in : List Nat) (len : Nat)
    (hfd : 0 ≤ fd_out) (hlen : len ≤ src_in.length) :
    ∀ (fuel bytes_written : Nat) (w : World), bytes_written ≤ len →
      len - bytes_written + PKTLINE_DATA_MAXLEN ≤ fuel * PKTLINE_DATA_MAXLEN →
      w.packet_write_buffer.length = LARGE_PACKET_MAX →
      (∀ room, w.fd_out_room = some room →
        (data_packets (chunks ((src_in.take len).drop bytes_written))).length ≤ room) →
      ∃ w1, stream_from_buf_loop fd_out src_in len fuel bytes_written w = Res.ok 0 w1
        ∧ w1.fd_out_data = w.fd_out_data
            ++ data_packets (chunks ((src_in.take len).drop bytes_written))
        ∧ w1.fd_out_calls = w.fd_out_calls
            ++ (chunks ((src_in.take len).drop bytes_written)).map
                (fun c => (fd_out, data_packet c))
        ∧ w1.fd_out_room = w.fd_out_room.map (fun r => r -
            (data_packets (chunks ((src_in.take len).drop bytes_written))).length)
        ∧ w1.packet_write_buffer.length = LARGE_PACKET_MAX := by
  have hN : PKTLINE_DATA_MAXLEN = 65516 := rfl
  intro fuel
  induction fuel with
  | zero => intro bw w _ h; omega
  | succ fuel ih =>
    intro bw w hbw hfuel hw hroom
    have hrl : ((src_in.take len).drop bw).length = len - bw :=
      (stream_rest src_in len bw hlen hbw).1
    by_cases hdone : len ≤ bw
    · have hnil : (src_in.take len).drop bw = [] := List.length_eq_zero.mp (by omega)
      rw [stream_from_buf_loop_done _ _ _ _ _ _ hdone, hnil, chunks_nil]
      refine ⟨w, rfl, ?_, ?_, ?_, hw⟩
      · simp [data_packets]
      · simp
      · simp [data_packets]
    · have hne : (src_in.take len).drop bw ≠ [] := by
        intro h
        rw [h] at hrl
        simp at hrl
        omega
      rw [chunks_of_ne_nil _ hne, data_packets_cons, List.length_append, data_packet_length]
        at hroom
      have hc : write_completes fd_out
          ((((src_in.take len).drop bw).take PKTLINE_DATA_MAXLEN).length + 4) w :=
        ⟨hfd, fun room hr => by have := hroom room hr; omega⟩
      obtain ⟨w1, bw1, h1, h2, h3, h4, h5, h6, h7, h8⟩ :=
        stream_from_buf_loop_pass fd_out src_in len fuel bw w hlen (by omega) hw hc
      have hroom1 : ∀ room, w1.fd_out_room = some room →
          (data_packets (chunks ((src_in.take len).drop bw1))).length ≤ room := by
        intro room hr
        rw [h7] at hr
        rw [h4]
        cases hwr : w.fd_out_room with
        | none => rw [hwr] at hr; exact absurd hr (by simp)
        | some r0 =>
          rw [hwr] at hr
          have hr1 : r0 - ((((src_in.take len).drop bw).take PKTLINE_DATA_MAXLEN).length + 4)
              = room := Option.some.inj hr
          have := hroom r0 hwr
          omega
      obtain ⟨w2, g1, g2, g3, g4, g5⟩ := ih bw1 w1 h2
        (by
          have : max (len - bw) PKTLINE_DATA_MAXLEN + PKTLINE_DATA_MAXLEN
              ≤ (fuel + 1) * PKTLINE_DATA_MAXLEN := by
            rw [hN] at hfuel ⊢
            omega
          rw [hN] at h3 this ⊢
          omega) h8 hroom1
      rw [h4] at g2 g3 g4
      refine ⟨w2, by rw [h1, g1], ?_, ?_, ?_, g5⟩
      · rw [g2, h5, chunks_of_ne_nil _ hne, data_packets_cons, List.append_assoc]
      · rw [g3, h6, chunks_of_ne_nil _ hne, List.map_cons, List.append_assoc]
        rfl
      · rw [g4, h7, chunks_of_ne_nil _ hne, data_packets_cons, List.length_append,
          data_packet_length, Option.map_map]
        congr 1
        funext r
        simp only [Function.comp]
        omega

/-- The loop on a descriptor where a request for a data packet is not
complete: it ends with `-1` at the first such request, and every request made
is one for a data packet. -/
theorem stream_from_buf_loop_incomplete (fd_out : Int) (src_in : List Nat) (len : Nat)
    (hlen : len ≤ src_in.length) :
    ∀ (fuel bytes_written : Nat) (w : World), bytes_written ≤ len →
      len - bytes_written + PKTLINE_DATA_MAXLEN ≤ fuel * PKTLINE_DATA_MAXLEN →
      w.packet_write_buffer.length = LARGE_PACKET_MAX →
      data_write_fails fd_out (chunks ((src_in.take len).drop bytes_written)) w →
      ∃ w1 d k, stream_from_buf_loop fd_out src_in len fuel bytes_written w = Res.ok (-1) w1
        ∧ w1.fd_out_data = w.fd_out_data ++ d
        ∧ d <+: data_packets (chunks ((src_in.take len).drop bytes_written))
        ∧ d.length < (data_packets (chunks ((src_in.take len).drop bytes_written))).length
        ∧ k < (chunks ((src_in.take len).drop bytes_written)).length
        ∧ w1.fd_out_calls = w.fd_out_calls
            ++ ((chunks ((src_in.take len).drop bytes_written)).take (k + 1)).map
                (fun c => (fd_out, data_packet c)) := by
  have hN : PKTLINE_DATA_MAXLEN = 65516 := rfl
  intro fuel
  induction fuel with
  | zero => intro bw w _ h; omega
  | succ fuel ih =>
    intro bw w hbw hfuel hw hf
    have hrl : ((src_in.take len).drop bw).length = len - bw :=
      (stream_rest src_in len bw hlen hbw).1
    by_cases hdone : len ≤ bw
    · have hnil : (src_in.take len).drop bw = [] := List.length_eq_zero.mp (by omega)
      rw [hnil, chunks_nil] at hf
      rcases hf with ⟨_, h⟩ | ⟨room, _, h⟩
      · exact absurd rfl h
      · exact absurd h (Nat.not_lt_zero _)
    · have hne : (src_in.take len).drop bw ≠ [] := by
        intro h
        rw [h] at hrl
        simp at hrl
        omega
      rw [chunks_of_ne_nil _ hne]
      unfold data_write_fails at hf
      rw [chunks_of_ne_nil _ hne, data_packets_cons, List.length_append, data_packet_length] at hf
      by_cases hc : write_completes fd_out
          ((((src_in.take len).drop bw).take PKTLINE_DATA_MAXLEN).length + 4) w
      · obtain ⟨w1, bw1, h1, h2, h3, h4, h5, h6, h7, h8⟩ :=
          stream_from_buf_loop_pass fd_out src_in len fuel bw w hlen (by omega) hw hc
        have hf1 : data_write_fails fd_out (chunks ((src_in.take len).drop bw1)) w1 := by
          rcases hf with ⟨h, _⟩ | ⟨room, hr, h⟩
          · exact absurd hc.1 (by omega)
          · refine Or.inr ⟨room -
              ((((src_in.take len).drop bw).take PKTLINE_DATA_MAXLEN).length + 4), ?_, ?_⟩
            · rw [h7, hr]
              rfl
            · have := hc.2 room hr
              rw [h4]
              omega
        obtain ⟨w2, d, k, g1, g2, g3, g4, g5, g6⟩ := ih bw1 w1 h2
          (by
            have : max (len - bw) PKTLINE_DATA_MAXLEN + PKTLINE_DATA_MAXLEN
                ≤ (fuel + 1) * PKTLINE_DATA_MAXLEN := by
              rw [hN] at hfuel ⊢
              omega
            rw [hN] at h3 this ⊢
            omega) h8 hf1
        rw [h4] at g3 g4 g5 g6
        refine ⟨w2, data_packet (((src_in.take len).drop bw).take PKTLINE_DATA_MAXLEN) ++ d,
          k + 1, by rw [h1, g1], ?_, ?_, ?_, ?_, ?_⟩
        · rw [g2, h5, List.append_assoc]
        · rw [data_packets_cons]
          exact (List.prefix_append_right_inj _).mpr g3
        · rw [data_packets_cons, List.length_append, List.length_append]
          omega
        · rw [List.length_cons]
          omega
        · rw [g6, h6, List.take_succ_cons, List.map_cons, List.append_assoc]
          rfl
      · obtain ⟨w1, d, h1, h2, h3, h4, h5⟩ :=
          stream_from_buf_loop_fail fd_out src_in len fuel bw w hlen (by omega) hw hc
        refine ⟨w1, d, 0, h1, h2, ?_, ?_, ?_, ?_⟩
        · rw [data_packets_cons]
          exact h3.trans (List.prefix_append _ _)
        · rw [data_packets_cons, List.length_append]
          omega
        · rw [List.length_cons]
          omega
        · rw [h5]
          rfl

/-- The function `packet_flush_gently` on a descriptor that takes the request. -/
theorem packet_flush_gently_complete (fd : Int) (w : World) (hc : write_completes fd 4 w) :
    ∃ w1, packet_flush_gently fd w = Res.ok 0 w1
      ∧ w1.fd_out_data = w.fd_out_data ++ flush_pkt
      ∧ w1.fd_out_calls = w.fd_out_calls ++ [(fd, flush_pkt)] := by
  have hc1 : write_completes fd 4 (packet_trace flush_pkt 4 true w) :=
    (write_completes_packet_trace fd 4 flush_pkt 4 true w).mpr hc
  unfold packet_flush_gently
  dsimp only
  have hs := write_in_full_status fd flush_pkt 4 (packet_trace flush_pkt 4 true w)
  rw [if_pos hc1] at hs
  refine ⟨(write_in_full fd flush_pkt 4 (packet_trace flush_pkt 4 true w)).2, ?_, ?_, ?_⟩
  · exact congrArg (fun e => Res.ok e _) hs
  · rw [write_in_full_data _ _ _ _ hc1, packet_trace_fd_out_data]
    rfl
  · rw [write_in_full_calls, packet_trace_fd_out_calls]
    rfl

/-- The function `packet_write_stream_with_flush_from_buf` on a descriptor that
takes every request: the data packets of the chunks, then one flush packet. -/
theorem packet_write_stream_complete (B tail : List Nat) (fd_out : Int) (w : World)
    (hw : w.packet_write_buffer.length = LARGE_PACKET_MAX) (hfd : 0 ≤ fd_out)
    (hroom : ∀ room, w.fd_out_room = some room →
      (data_packets (chunks B)).length + 4 ≤ room) :
    ∃ w1, packet_write_stream_with_flush_from_buf (B ++ tail) B.length fd_out w = Res.ok 0 w1
      ∧ w1.fd_out_data = w.fd_out_data ++ (data_packets (chunks B) ++ flush_pkt)
      ∧ w1.fd_out_calls = w.fd_out_calls
          ++ ((chunks B).map (fun c => (fd_out, data_packet c)) ++ [(fd_out, flush_pkt)]) := by
  have hN : PKTLINE_DATA_MAXLEN = 65516 := rfl
  have hB : ((B ++ tail).take B.length).drop 0 = B := by
    rw [List.drop_zero, List.take_left]
  obtain ⟨w1, h1, h2, h3, h4, h5⟩ := stream_from_buf_loop_complete fd_out (B ++ tail) B.length hfd
    (by rw [List.length_append]; omega) (B.length / PKTLINE_DATA_MAXLEN + 2) 0 w (Nat.zero_le _)
    (by rw [hN]; omega) hw
    (by
      rw [hB]
      intro room hr
      have := hroom room hr
      omega)
  rw [hB] at h2 h3 h4
  have hc : write_completes fd_out 4 w1 := by
    refine ⟨hfd, fun room hr => ?_⟩
    rw [h4] at hr
    cases hwr : w.fd_out_room with
    | none => rw [hwr] at hr; exact absurd hr (by simp)
    | some r0 =>
      rw [hwr] at hr
      have hr1 : r0 - (data_packets (chunks B)).length = room := Option.some.inj hr
      have := hroom r0 hwr
      omega
  obtain ⟨w2, g1, g2, g3⟩ := packet_flush_gently_complete fd_out w1 hc
  refine ⟨w2, ?_, ?_, ?_⟩
  · unfold packet_write_stream_with_flush_from_buf
    rw [h1]
    dsimp only
    rw [if_pos rfl, g1]
  · rw [g2, h2, List.append_assoc]
  · rw [g3, h3, List.append_assoc]

/-- The function `packet_write_stream_with_flush_from_buf` on a descriptor where
a request for a data packet is not complete. -/
theorem packet_write_stream_incomplete (B tail : List Nat) (fd_out : Int) (w : World)
    (hw : w.packet_write_buffer.length = LARGE_PACKET_MAX)
    (hf : data_write_fails fd_out (chunks B) w) :
    ∃ w1 d k, packet_write_stream_with_flush_from_buf (B ++ tail) B.length fd_out w
        = Res.ok (-1) w1
      ∧ w1.fd_out_data = w.fd_out_data ++ d
      ∧ d <+: data_packets (chunks B) ∧ d.length < (data_packets (chunks B)).length
      ∧ k < (chunks B).length
      ∧ w1.fd_out_calls = w.fd_out_calls
          ++ ((chunks B).take (k + 1)).map (fun c => (fd_out, data_packet c)) := by
  have hN : PKTLINE_DATA_MAXLEN = 65516 := rfl
  have hB : ((B ++ tail).take B.length).drop 0 = B := by
    rw [List.drop_zero, List.take_left]
  obtain ⟨w1, d, k, h1, h2, h3, h4, h5, h6⟩ := stream_from_buf_loop_incomplete fd_out (B ++ tail)
    B.length (by rw [List.length_append]; omega) (B.length / PKTLINE_DATA_MAXLEN + 2) 0 w
    (Nat.zero_le _) (by rw [hN]; omega) hw (by rw [hB]; exact hf)
  rw [hB] at h3 h4 h5 h6
  refine ⟨w1, d, k, ?_, h2, h3, h4, h5, h6⟩
  unfold packet_write_stream_with_flush_from_buf
  rw [h1]
  dsimp only
  rw [if_neg (by decide)]

/-- C12: `packet_write_stream_with_flush_from_buf` on the bytes `B` (the first
`B.length` bytes of the region at `src_in`).  The chunks of `B` concatenate to
`B`, there are `ceil(B.length / 65516)` of them (none for the empty input), none
is empty, all but the last have 65516 bytes, and the header of each data packet
decodes to the chunk length plus 4.  On a descriptor that takes every request
the call returns 0 and has written the data packets of the chunks in order and
then one flush packet, each by one request.  When a request for a data packet is
not complete the call returns -1, the bytes written are a strict initial part of
the data packets, and the only requests made are those for the data packets up
to the failing one: no flush packet is written. -/
theorem packet_write_stream_chunks (B tail : List Nat) (fd_out : Int) (w : World)
    (hw : w.packet_write_buffer.length = LARGE_PACKET_MAX) :
    ((chunks B).flatten = B
      ∧ (chunks B).length = (B.length + 65515) / 65516
      ∧ (chunks B = [] ↔ B = [])
      ∧ (∀ c ∈ chunks B, c ≠ [] ∧ c.length ≤ 65516
          ∧ packet_length ((data_packet c).take 4) = (c.length : Int) + 4)
      ∧ (∀ c ∈ (chunks B).dropLast, c.length = 65516))
    ∧ ((0 ≤ fd_out ∧ ∀ room, w.fd_out_room = some room →
          (data_packets (chunks B)).length + 4 ≤ room) →
        ∃ w1, packet_write_stream_with_flush_from_buf (B ++ tail) B.length fd_out w = Res.ok 0 w1
          ∧ w1.fd_out_data = w.fd_out_data ++ (data_packets (chunks B) ++ flush_pkt)
          ∧ w1.fd_out_calls = w.fd_out_calls
              ++ ((chunks B).map (fun c => (fd_out, data_packet c)) ++ [(fd_out, flush_pkt)]))
    ∧ (data_write_fails fd_out (chunks B) w →
        ∃ w1 d k, packet_write_stream_with_flush_from_buf (B ++ tail) B.length fd_out w
            = Res.ok (-1) w1
          ∧ w1.fd_out_data = w.fd_out_data ++ d
          ∧ d <+: data_packets (chunks B) ∧ d.length < (data_packets (chunks B)).length
          ∧ k < (chunks B).length
          ∧ w1.fd_out_calls = w.fd_out_calls
              ++ ((chunks B).take (k + 1)).map (fun c => (fd_out, data_packet c))) := by
  have hN : PKTLINE_DATA_MAXLEN = 65516 := rfl
  refine ⟨⟨chunks_flatten B, chunks_length B, chunks_eq_nil B, ?_, chunks_dropLast B⟩, ?_, ?_⟩
  · intro c hc
    obtain ⟨h1, h2⟩ := chunks_mem B c hc
    refine ⟨h1, h2, ?_⟩
    have h4 : (data_packet c).take 4 = encode_header (c.length + 4) :=
      take_append_exact _ _ 4 (encode_header_length _)
    rw [h4]
    exact packet_length_data_packet_header c (by omega)
  · intro h
    exact packet_write_stream_complete B tail fd_out w hw h.1 h.2
  · intro h
    exact packet_write_stream_incomplete B tail fd_out w hw h

/-- Witness for C12: the five bytes `hello` go out as `0009hello0000` on a
descriptor that takes them; on a bad descriptor the call returns -1 and the
requests made are requests for data packets. -/
theorem packet_write_stream_chunks_witness :
    (∃ w1, packet_write_stream_with_flush_from_buf ([104, 101, 108, 108, 111] ++ [])
        [104, 101, 108, 108, 111].length 1 world0 = Res.ok 0 w1
      ∧ w1.fd_out_data = world0.fd_out_data
          ++ (data_packets (chunks [104, 101, 108, 108, 111]) ++ flush_pkt)
      ∧ world0.fd_out_data ++ (data_packets (chunks [104, 101, 108, 108, 111]) ++ flush_pkt)
          = [48, 48, 48, 57, 104, 101, 108, 108, 111, 48, 48, 48, 48])
    ∧ ∃ w1 d k, packet_write_stream_with_flush_from_buf ([104, 101, 108, 108, 111] ++ [])
        [104, 101, 108, 108, 111].length (-1) world0 = Res.ok (-1) w1
      ∧ w1.fd_out_data = world0.fd_out_data ++ d
      ∧ d <+: data_packets (chunks [104, 101, 108, 108, 111])
      ∧ d.length < (data_packets (chunks [104, 101, 108, 108, 111])).length
      ∧ k < (chunks [104, 101, 108, 108, 111]).length
      ∧ w1.fd_out_calls = world0.fd_out_calls
          ++ ((chunks [104, 101, 108, 108, 111]).take (k + 1)).map
              (fun c => ((-1 : Int), data_packet c)) :=
  ⟨((packet_write_stream_chunks [104, 101, 108, 108, 111] [] 1 world0
      world0_packet_write_buffer_length).2.1 ⟨by decide, fun _ h => nomatch h⟩).imp
      (fun _ h => ⟨h.1, h.2.1, by decide⟩),
    (packet_write_stream_chunks [104, 101, 108, 108, 111] [] (-1) world0
      world0_packet_write_buffer_length).2.2 (Or.inl ⟨by decide, by decide⟩)⟩

/-! ## Claim on the stream round trip -/

theorem trace_byte_printable (cs : Bool) (b : Nat) (h1 : 32 ≤ b) (h2 : b ≤ 126) :
    trace_byte cs b = [b] := by
  unfold trace_byte
  rw [if_neg (by omega), if_pos ⟨h1, h2⟩]

/-- The human-readable line for the flush marker. -/
theorem trace_line_flush (wr : Bool) (w : World) :
    trace_line flush_pkt 4 wr w
      = [112, 97, 99, 107, 101, 116, 58, 32] ++ pad12 (get_trace_prefix_str w)
          ++ [if wr then 62 else 60, 32] ++ flush_pkt ++ [10] := by
  unfold trace_line
  have h : ((flush_pkt.take 4).map (trace_byte w.char_signed)).flatten = flush_pkt := by
    show (trace_byte w.char_signed 48 ++ (trace_byte w.char_signed 48
      ++ (trace_byte w.char_signed 48 ++ (trace_byte w.char_signed 48 ++ [])))) = _
    rw [trace_byte_printable _ 48 (by decide) (by decide)]
    rfl
  rw [h]

/-- C16 (amended): with the human-readable sink enabled, tracing the flush
marker in the idle state or in the archive state with sideband tagging appends
exactly one line carrying `0000` to the human-readable sink and changes nothing
else; in the archive state without sideband tagging it appends no line, and the
four bytes go to the pack sink when that sink is enabled.  The writers
`packet_flush`, `packet_flush_gently` and `packet_buf_flush` and the reader
`packet_read` on a `0000` header trace the marker this way. -/
theorem flush_trace_by_state (wr : Bool) (w : World) (hp : w.want_packet = true) :
    ((w.in_pack = false ∨ w.sideband = true) →
      packet_trace flush_pkt 4 wr w
        = { w with trace_packet_out := w.trace_packet_out
              ++ [[112, 97, 99, 107, 101, 116, 58, 32] ++ pad12 (get_trace_prefix_str w)
                    ++ [if wr then 62 else 60, 32] ++ flush_pkt ++ [10]] })
    ∧ ((w.in_pack = true ∧ w.sideband = false) →
      packet_trace flush_pkt 4 wr w
        = { w with trace_pack_out :=
              if w.want_pack then w.trace_pack_out ++ [flush_pkt] else w.trace_pack_out })
    ∧ (∀ buf : List Nat, (packet_buf_flush buf w).2 = packet_trace flush_pkt 4 true w)
    ∧ (∀ fd : Int, packet_flush fd w = write_or_die fd flush_pkt 4 (packet_trace flush_pkt 4 true w))
    ∧ (∀ fd : Int, ∃ e, packet_flush_gently fd w
        = Res.ok e (write_in_full fd flush_pkt 4 (packet_trace flush_pkt 4 true w)).2)
    ∧ (∀ (fd : Int) (rest buffer : List Nat) (size options : Nat), fd < 0 →
        packet_read fd (some (flush_pkt ++ rest)) buffer size options w
          = Res.ok (0, some rest, buffer) (packet_trace flush_pkt 4 false w)) := by
  refine ⟨?_, ?_, fun _ => rfl, fun _ => rfl, fun _ => ⟨_, rfl⟩,
    fun fd rest buffer size options hfd => packet_read_cursor_flush fd rest buffer size options w hfd⟩
  · intro hs
    rw [← trace_line_flush]
    obtain ⟨pb, pwb, pre, asy, wp, wk, inp, sbd, cs, tpo, tko, fid, fib, fod, foc, room⟩ := w
    dsimp only at hp hs
    subst hp
    cases inp
    · simp [packet_trace, flush_pkt, starts_with, trace_strbuf_packet]
    · have hsb : sbd = true := by
        rcases hs with h | h
        · exact absurd h (by decide)
        · exact h
      subst hsb
      simp [packet_trace, packet_trace_pack, flush_pkt, trace_strbuf_packet]
  · intro hs
    obtain ⟨pb, pwb, pre, asy, wp, wk, inp, sbd, cs, tpo, tko, fid, fib, fod, foc, room⟩ := w
    dsimp only at hp hs
    obtain ⟨h1, h2⟩ := hs
    subst hp h1 h2
    cases wk <;> simp [packet_trace, packet_trace_pack, trace_verbatim_pack, flush_pkt]

/-- Witness for C16 (amended): the flush marker written in the idle state. -/
theorem flush_trace_by_state_witness :
    packet_trace flush_pkt 4 true { world0 with want_packet := true }
      = { ({ world0 with want_packet := true } : World) with
          trace_packet_out := ({ world0 with want_packet := true } : World).trace_packet_out
              ++ [[112, 97, 99, 107, 101, 116, 58, 32]
                    ++ pad12 (get_trace_prefix_str { world0 with want_packet := true })
                    ++ [if true = true then 62 else 60, 32] ++ flush_pkt ++ [10]] } :=
  (flush_trace_by_state true { world0 with want_packet := true } rfl).1 (Or.inl rfl)

/-- C16 (counterexample): in the archive state without sideband tagging, with
both sinks enabled, tracing the flush marker emits no human-readable line and
forwards the four bytes `0000` to the pack sink. -/
theorem flush_trace_in_pack_goes_to_pack_sink :
    (packet_trace flush_pkt 4 true
        { world0 with want_packet := true, want_pack := true, in_pack := true,
                      sideband := false }).trace_packet_out = []
    ∧ (packet_trace flush_pkt 4 true
        { world0 with want_packet := true, want_pack := true, in_pack := true,
                      sideband := false }).trace_pack_out = [[48, 48, 48, 48]] := by
  constructor <;> rfl

/-- The human-readable line for the placeholder `PACK ...`. -/
theorem trace_line_placeholder (wr : Bool) (w : World) :
    trace_line [80, 65, 67, 75, 32, 46, 46, 46] 8 wr w
      = [112, 97, 99, 107, 101, 116, 58, 32] ++ pad12 (get_trace_prefix_str w)
          ++ [if wr then 62 else 60, 32] ++ [80, 65, 67, 75, 32, 46, 46, 46] ++ [10] := by
  unfold trace_line
  have h : ((([80, 65, 67, 75, 32, 46, 46, 46] : List Nat).take 8).map
      (trace_byte w.char_signed)).flatten = [80, 65, 67, 75, 32, 46, 46, 46] := by
    show (trace_byte w.char_signed 80 ++ (trace_byte w.char_signed 65
      ++ (trace_byte w.char_signed 67 ++ (trace_byte w.char_signed 75
      ++ (trace_byte w.char_signed 32 ++ (trace_byte w.char_signed 46
      ++ (trace_byte w.char_signed 46 ++ (trace_byte w.char_signed 46 ++ [])))))))) = _
    rw [trace_byte_printable _ 80 (by decide) (by decide),
      trace_byte_printable _ 65 (by decide) (by decide),
      trace_byte_printable _ 67 (by decide) (by decide),
      trace_byte_printable _ 75 (by decide) (by decide),
      trace_byte_printable _ 32 (by decide) (by decide),
      trace_byte_printable _ 46 (by decide) (by decide)]
    rfl
  rw [h]

theorem trace_verbatim_pack_flags (buf : List Nat) (len : Nat) (w : World) :
    (trace_verbatim_pack buf len w).in_pack = w.in_pack
      ∧ (trace_verbatim_pack buf len w).sideband = w.sideband := by
  unfold trace_verbatim_pack
  split_ifs <;> exact ⟨rfl, rfl⟩

theorem trace_strbuf_packet_flags (out : List Nat) (w : World) :
    (trace_strbuf_packet out w).in_pack = w.in_pack
      ∧ (trace_strbuf_packet out w).sideband = w.sideband := by
  unfold trace_strbuf_packet
  split_ifs <;> exact ⟨rfl, rfl⟩

theorem packet_trace_pack_flags (buf : List Nat) (len : Nat) (sb : Bool) (w : World) :
    (packet_trace_pack buf len sb w).2.in_pack = w.in_pack
      ∧ (packet_trace_pack buf len sb w).2.sideband = w.sideband := by
  unfold packet_trace_pack
  split_ifs
  · exact trace_verbatim_pack_flags _ _ _
  · exact trace_verbatim_pack_flags _ _ _
  · exact ⟨rfl, rfl⟩

/-- Once in the archive state, `packet_trace` changes neither flag. -/
theorem packet_trace_in_pack_flags (buf : List Nat) (len : Nat) (wr : Bool) (w : World)
    (h : w.in_pack = true) :
    (packet_trace buf len wr w).in_pack = true
      ∧ (packet_trace buf len wr w).sideband = w.sideband := by
  have hpk := packet_trace_pack_flags buf len w.sideband w
  have hst := trace_strbuf_packet_flags
    (trace_line buf len wr (packet_trace_pack buf len w.sideband w).2)
    (packet_trace_pack buf len w.sideband w).2
  rw [← h]
  unfold packet_trace
  dsimp only
  by_cases h0 : (!w.want_packet && !w.want_pack) = true
  · rw [if_pos h0]
    exact ⟨rfl, rfl⟩
  · rw [if_neg h0, if_pos h]
    split_ifs
    · exact hpk
    · exact hpk
    · exact ⟨hst.1.trans hpk.1, hst.2.trans hpk.2⟩

/-- C17: in the idle state with both sinks enabled, a payload made of the byte
1, then `PACK`, then any further bytes moves the state to the archive state with
sideband tagging, forwards the payload without its first byte to the pack sink
and appends one line holding the placeholder `PACK ...` to the human-readable
sink; a payload starting with `PACK` moves to the archive state without sideband
tagging and is forwarded as it is, with the same placeholder line.  Once in the
archive state no call changes either flag. -/
theorem packet_trace_detects_pack (more tail : List Nat) (wr : Bool) (w : World)
    (hidle : w.in_pack = false) (hp : w.want_packet = true) (hk : w.want_pack = true) :
    packet_trace (1 :: 80 :: 65 :: 67 :: 75 :: (more ++ tail)) (more.length + 5) wr w
        = { w with
            in_pack := true
            sideband := true
            trace_pack_out := w.trace_pack_out ++ [80 :: 65 :: 67 :: 75 :: more]
            trace_packet_out := w.trace_packet_out
              ++ [[112, 97, 99, 107, 101, 116, 58, 32] ++ pad12 (get_trace_prefix_str w)
                    ++ [if wr then 62 else 60, 32] ++ [80, 65, 67, 75, 32, 46, 46, 46] ++ [10]] }
    ∧ packet_trace (80 :: 65 :: 67 :: 75 :: (more ++ tail)) (more.length + 4) wr w
        = { w with
            in_pack := true
            sideband := false
            trace_pack_out := w.trace_pack_out ++ [80 :: 65 :: 67 :: 75 :: more]
            trace_packet_out := w.trace_packet_out
              ++ [[112, 97, 99, 107, 101, 116, 58, 32] ++ pad12 (get_trace_prefix_str w)
                    ++ [if wr then 62 else 60, 32] ++ [80, 65, 67, 75, 32, 46, 46, 46] ++ [10]] }
    ∧ ∀ (buf : List Nat) (len : Nat) (wr1 : Bool) (w1 : World), w1.in_pack = true →
        (packet_trace buf len wr1 w1).in_pack = true
          ∧ (packet_trace buf len wr1 w1).sideband = w1.sideband := by
  refine ⟨?_, ?_, packet_trace_in_pack_flags⟩
  · rw [← trace_line_placeholder]
    obtain ⟨pb, pwb, pre, asy, wp, wk, inp, sbd, cs, tpo, tko, fid, fib, fod, foc, room⟩ := w
    dsimp only at hidle hp hk
    subst hidle hp hk
    simp [packet_trace, starts_with, packet_trace_pack, trace_verbatim_pack, trace_strbuf_packet,
      trace_line, get_trace_prefix_str]
  · rw [← trace_line_placeholder]
    obtain ⟨pb, pwb, pre, asy, wp, wk, inp, sbd, cs, tpo, tko, fid, fib, fod, foc, room⟩ := w
    dsimp only at hidle hp hk
    subst hidle hp hk
    simp [packet_trace, starts_with, packet_trace_pack, trace_verbatim_pack, trace_strbuf_packet,
      trace_line, get_trace_prefix_str]

/-- Witness for C17: a sideband packet with four archive bytes, read in the idle state. -/
theorem packet_trace_detects_pack_witness :
    packet_trace (1 :: 80 :: 65 :: 67 :: 75 :: ([1, 2, 3, 4] ++ [0]))
        (([1, 2, 3, 4] : List Nat).length + 5) false
        { world0 with want_packet := true, want_pack := true }
      = { ({ world0 with want_packet := true, want_pack := true } : World) with
          in_pack := true
          sideband := true
          trace_pack_out := [] ++ [80 :: 65 :: 67 :: 75 :: [1, 2, 3, 4]]
          trace_packet_out := []
            ++ [[112, 97, 99, 107, 101, 116, 58, 32]
                  ++ pad12 (get_trace_prefix_str
                      { world0 with want_packet := true, want_pack := true })
                  ++ [if false = true then 62 else 60, 32] ++ [80, 65, 67, 75, 32, 46, 46, 46]
                  ++ [10]] } :=
  (packet_trace_detects_pack [1, 2, 3, 4] [0] false
    { world0 with want_packet := true, want_pack := true } rfl rfl rfl).1

/-- The rendering of a payload byte where `char` is unsigned, or the byte is
below 128: nothing for a newline, the byte itself when printable, otherwise a
backslash and the octal numeral of its value. -/
theorem trace_byte_value (cs : Bool) (b : Nat) (h : cs = false ∨ b < 128) :
    trace_byte cs b
      = if b = 10 then [] else if 32 ≤ b ∧ b ≤ 126 then [b] else 92 :: octal b := by
  unfold trace_byte
  have hc : ¬ (cs = true ∧ 128 ≤ b) := by
    rintro ⟨h1, h2⟩
    rcases h with h | h
    · rw [h] at h1; exact absurd h1 (by decide)
    · omega
  rw [if_neg hc]

/-- C18: the payload byte `0xff` traced where `char` is signed renders as a
backslash followed by `37777777777`, the octal numeral of the sign-extended
value, not as the numeral `377` of the byte; where `char` is unsigned the same
call renders a backslash followed by `377`. -/
theorem packet_trace_high_byte_sign_extended :
    (packet_trace [255] 1 true
        { world0 with want_packet := true, char_signed := true }).trace_packet_out
      = [[112, 97, 99, 107, 101, 116, 58, 32] ++ pad12 [103, 105, 116] ++ [62, 32]
          ++ [92, 51, 55, 55, 55, 55, 55, 55, 55, 55, 55, 55] ++ [10]]
    ∧ (packet_trace [255] 1 true
        { world0 with want_packet := true, char_signed := false }).trace_packet_out
      = [[112, 97, 99, 107, 101, 116, 58, 32] ++ pad12 [103, 105, 116] ++ [62, 32]
          ++ [92, 51, 55, 55] ++ [10]] := by
  constructor <;> rfl

/-! ## Claim on the upper bound of accepted lengths: what the readers accept -/

/-- A complete data packet with a payload shorter than the scratch buffer, on a
cursor: the line reader returns the line, its length, and the cursor behind the
packet, and the scratch buffer holds the line. -/
theorem packet_read_line_generic_cursor_line (fd : Int) (payload rest : List Nat)
    (dst_len : Option Int) (w : World) (hfd : fd < 0)
    (hsize : payload.length < LARGE_PACKET_MAX)
    (hw : w.packet_buffer.length = LARGE_PACKET_MAX) :
    ∃ line w1, packet_read_line_generic fd (some (data_packet payload ++ rest)) dst_len w
      = Res.ok
          (if chomped_length PACKET_READ_CHOMP_NEWLINE payload ≠ 0 then some line else none,
           dst_len.map (fun _ => (chomped_length PACKET_READ_CHOMP_NEWLINE payload : Int)),
           some rest) w1
      ∧ w1.packet_buffer = line
      ∧ line.take (chomped_length PACKET_READ_CHOMP_NEWLINE payload)
          = payload.take (chomped_length PACKET_READ_CHOMP_NEWLINE payload)
      ∧ line.get? (chomped_length PACKET_READ_CHOMP_NEWLINE payload) = some 0 := by
  have hmax : LARGE_PACKET_MAX = 65520 := rfl
  have hread := packet_read_cursor_payload fd (encode_header (payload.length + 4)) payload rest
    w.packet_buffer LARGE_PACKET_MAX PACKET_READ_CHOMP_NEWLINE w hfd (encode_header_length _)
    (packet_length_data_packet_header payload (by omega)) hsize (by omega)
  have hb := chomped_length_bounds PACKET_READ_CHOMP_NEWLINE payload
  have hreg := chomped_region payload (w.packet_buffer.drop payload.length)
    (chomped_length PACKET_READ_CHOMP_NEWLINE payload) hb.1
  generalize chomped_length PACKET_READ_CHOMP_NEWLINE payload = n at hread hb hreg
  generalize (payload ++ w.packet_buffer.drop payload.length).take n ++ [0]
    ++ (payload ++ w.packet_buffer.drop payload.length).drop (n + 1) = line at hread hreg
  refine ⟨line, { packet_trace line n false w with packet_buffer := line }, ?_, rfl,
    hreg.1, hreg.2⟩
  unfold packet_read_line_generic data_packet
  rw [List.append_assoc, hread]
  dsimp only
  congr 2
  by_cases hn : n = 0
  · subst hn; simp
  · have : (n : Int) ≠ 0 := by omega
    simp [hn, this]

/-- A complete data packet with a payload shorter than the scratch buffer, on a
descriptor: the line reader returns the line and its length and leaves the
descriptor behind the packet, and the scratch buffer holds the line. -/
theorem packet_read_line_generic_fd_line (fd : Int) (payload rest : List Nat)
    (dst_len : Option Int) (w : World) (hfd : 0 ≤ fd)
    (hsize : payload.length < LARGE_PACKET_MAX)
    (hw : w.packet_buffer.length = LARGE_PACKET_MAX)
    (hdata : w.fd_in_data = data_packet payload ++ rest) :
    ∃ line w1, packet_read_line_generic fd none dst_len w
      = Res.ok
          (if chomped_length PACKET_READ_CHOMP_NEWLINE payload ≠ 0 then some line else none,
           dst_len.map (fun _ => (chomped_length PACKET_READ_CHOMP_NEWLINE payload : Int)),
           none) w1
      ∧ w1.fd_in_data = rest
      ∧ w1.packet_buffer = line
      ∧ line.take (chomped_length PACKET_READ_CHOMP_NEWLINE payload)
          = payload.take (chomped_length PACKET_READ_CHOMP_NEWLINE payload)
      ∧ line.get? (chomped_length PACKET_READ_CHOMP_NEWLINE payload) = some 0 := by
  have hmax : LARGE_PACKET_MAX = 65520 := rfl
  have hread := packet_read_fd_data fd (encode_header (payload.length + 4)) payload rest
    w.packet_buffer LARGE_PACKET_MAX PACKET_READ_CHOMP_NEWLINE w hfd (encode_header_length _)
    (packet_length_data_packet_header payload (by omega)) hsize (by omega)
    (by rw [hdata]; unfold data_packet; rw [List.append_assoc])
  have hb := chomped_length_bounds PACKET_READ_CHOMP_NEWLINE payload
  have hreg := chomped_region payload (w.packet_buffer.drop payload.length)
    (chomped_length PACKET_READ_CHOMP_NEWLINE payload) hb.1
  generalize chomped_length PACKET_READ_CHOMP_NEWLINE payload = n at hread hb hreg
  generalize (payload ++ w.packet_buffer.drop payload.length).take n ++ [0]
    ++ (payload ++ w.packet_buffer.drop payload.length).drop (n + 1) = line at hread hreg
  refine ⟨line,
    { packet_trace line n false { w with fd_in_data := rest } with packet_buffer := line },
    ?_, ?_, rfl, hreg.1, hreg.2⟩
  · unfold packet_read_line_generic
    rw [hread]
    dsimp only
    congr 2
    by_cases hn : n = 0
    · subst hn; simp
    · have : (n : Int) ≠ 0 := by omega
      simp [hn, this]
  · show (packet_trace line n false { w with fd_in_data := rest }).fd_in_data = rest
    rw [packet_trace_fd_in_data]

theorem chomped_length_replicate (options n c : Nat) (hc : c ≠ 10) :
    chomped_length options (List.replicate n c) = n := by
  have h := reported_length_eq_chomped options (List.replicate n c) []
  rw [List.append_nil, List.length_replicate, reported_length_replicate options n c hc] at h
  exact h.symm

/-- C8 (amended): the readers bound the total length only through the capacity
of the destination.  The line readers abort with `bad line length` for every
header whose total is above `MAX_PACKET_LEN + 3`.  For a complete packet of any
total in `4..=MAX_PACKET_LEN + 3` they return: `packet_read_line_buf` (a cursor)
and `packet_read_line` (a descriptor) hand back the line in the scratch buffer
(the payload up to the reported length, then a NUL; `NULL` when that length is
0), report the payload length, less one for a final newline, and leave the
source behind the packet.  `packet_read_till_flush` applies no upper bound: it
appends the payload of a complete packet of any total in `4..=65535`, returns
its length and leaves the descriptor behind the flush packet. -/
theorem readers_bound_by_capacity :
    (∀ (fd : Int) (src src1 : Option (List Nat)) (dst_len : Option Int) (linelen : List Nat)
        (w w1 : World) (T : Int),
      get_packet_data fd src [0, 0, 0, 0] 4 PACKET_READ_CHOMP_NEWLINE w
        = Res.ok (4, src1, linelen) w1 →
      packet_length linelen = T → T > (LARGE_PACKET_MAX : Int) + 3 →
      packet_read_line_generic fd src dst_len w
        = Res.die (Fatal.bad_line_length (T - 4)) w1) ∧
    (∀ (fd : Int) (payload rest : List Nat) (dst_len : Option Int) (w : World),
      fd < 0 → payload.length + 4 ≤ LARGE_PACKET_MAX + 3 →
      w.packet_buffer.length = LARGE_PACKET_MAX →
      ∃ line w1, packet_read_line_generic fd (some (data_packet payload ++ rest)) dst_len w
        = Res.ok
            (if chomped_length PACKET_READ_CHOMP_NEWLINE payload ≠ 0 then some line else none,
             dst_len.map (fun _ => (chomped_length PACKET_READ_CHOMP_NEWLINE payload : Int)),
             some rest) w1
        ∧ w1.packet_buffer = line
        ∧ line.take (chomped_length PACKET_READ_CHOMP_NEWLINE payload)
            = payload.take (chomped_length PACKET_READ_CHOMP_NEWLINE payload)
        ∧ line.get? (chomped_length PACKET_READ_CHOMP_NEWLINE payload) = some 0) ∧
    (∀ (payload rest : List Nat) (dst_len : Option Int) (w : World),
      payload.length + 4 ≤ LARGE_PACKET_MAX + 3 →
      w.packet_buffer.length = LARGE_PACKET_MAX →
      ∃ line w1, packet_read_line_buf (some (data_packet payload ++ rest)) dst_len w
        = Res.ok
            (if chomped_length PACKET_READ_CHOMP_NEWLINE payload ≠ 0 then some line else none,
             dst_len.map (fun _ => (chomped_length PACKET_READ_CHOMP_NEWLINE payload : Int)),
             some rest) w1
        ∧ w1.packet_buffer = line
        ∧ line.take (chomped_length PACKET_READ_CHOMP_NEWLINE payload)
            = payload.take (chomped_length PACKET_READ_CHOMP_NEWLINE payload)
        ∧ line.get? (chomped_length PACKET_READ_CHOMP_NEWLINE payload) = some 0) ∧
    (∀ (fd : Int) (payload rest : List Nat) (len_p : Option Int) (w : World),
      0 ≤ fd → payload.length + 4 ≤ LARGE_PACKET_MAX + 3 →
      w.packet_buffer.length = LARGE_PACKET_MAX →
      w.fd_in_data = data_packet payload ++ rest →
      ∃ line w1, packet_read_line fd len_p w
        = Res.ok
            (if chomped_length PACKET_READ_CHOMP_NEWLINE payload ≠ 0 then some line else none,
             len_p.map (fun _ => (chomped_length PACKET_READ_CHOMP_NEWLINE payload : Int)),
             none) w1
        ∧ w1.fd_in_data = rest
        ∧ w1.packet_buffer = line
        ∧ line.take (chomped_length PACKET_READ_CHOMP_NEWLINE payload)
            = payload.take (chomped_length PACKET_READ_CHOMP_NEWLINE payload)
        ∧ line.get? (chomped_length PACKET_READ_CHOMP_NEWLINE payload) = some 0) ∧
    (∀ (fd_in : Int) (sb : StrBuf) (w : World) (payload rest : List Nat),
      0 ≤ fd_in → payload.length + 4 ≤ 65535 →
      w.fd_in_data = data_packet payload ++ (flush_pkt ++ rest) →
      sb.buf.length + payload.length + 1 < 18446744073709551616 →
      ∃ sb1 w1, packet_read_till_flush fd_in sb w = Res.ok ((payload.length : Int), sb1) w1
        ∧ sb1.buf = sb.buf ++ payload
        ∧ w1.fd_in_data = rest) := by
  have hmax : LARGE_PACKET_MAX = 65520 := rfl
  refine ⟨?_, ?_, ?_, ?_, ?_⟩
  · intro fd src src1 dst_len linelen w w1 T hhdr hlen hT
    exact packet_read_line_generic_too_long fd src src1 dst_len linelen w w1 T hhdr hlen hT
  · intro fd payload rest dst_len w hfd hp hw
    exact packet_read_line_generic_cursor_line fd payload rest dst_len w hfd (by omega) hw
  · intro payload rest dst_len w hp hw
    exact packet_read_line_generic_cursor_line (-1) payload rest dst_len w (by decide)
      (by omega) hw
  · intro fd payload rest len_p w hfd hp hw hdata
    exact packet_read_line_generic_fd_line fd payload rest len_p w hfd (by omega) hw hdata
  · intro fd_in sb w payload rest hfd hp hdata hmem
    obtain ⟨sb1, w1, h1, h2, _, h4⟩ := packet_read_till_flush_packets fd_in sb w [payload] rest
      hfd (by intro p hp1; rw [List.mem_singleton] at hp1; rw [hp1]; exact hp)
      (by rw [hdata]; unfold data_packets data_packets; simp only [List.append_nil])
      (by rw [List.flatten_cons, List.flatten_nil, List.append_nil]; exact hmem)
    rw [List.flatten_cons, List.flatten_nil, List.append_nil] at h1 h2
    exact ⟨sb1, w1, h1, h2, untraced_fd_in_data _ _ _ h4⟩

/-- Witness for C8 (amended): the header `fff4` (total 65524) makes the line
reader abort; the packet `fff3` with 65519 bytes `a` (total 65523) is returned
by `packet_read_line_buf` from a cursor and by `packet_read_line` from a
descriptor, with length 65519; the packet `0006hi` followed by a flush packet is
appended by `packet_read_till_flush`. -/
theorem readers_bound_by_capacity_witness :
    packet_read_line_generic (-1) (some ([102, 102, 102, 52] ++ [])) (some 0) world0
        = Res.die (Fatal.bad_line_length (65524 - 4)) world0
    ∧ (∃ line w1,
        packet_read_line_buf (some (data_packet (List.replicate 65519 97) ++ [])) (some 0) world0
          = Res.ok (some line, some 65519, some []) w1
        ∧ w1.packet_buffer = line
        ∧ line.take 65519 = (List.replicate 65519 97).take 65519
        ∧ line.get? 65519 = some 0)
    ∧ (∃ line w1,
        packet_read_line 0 (some 0)
            { world0 with fd_in_data := data_packet (List.replicate 65519 97) ++ [] }
          = Res.ok (some line, some 65519, none) w1
        ∧ w1.fd_in_data = []
        ∧ w1.packet_buffer = line
        ∧ line.take 65519 = (List.replicate 65519 97).take 65519
        ∧ line.get? 65519 = some 0)
    ∧ ∃ sb1 w1,
      packet_read_till_flush 0 { buf := [], alloc := 0 }
          { world0 with fd_in_data := data_packet [104, 105] ++ (flush_pkt ++ []) }
        = Res.ok (([104, 105].length : Int), sb1) w1
      ∧ sb1.buf = [] ++ [104, 105]
      ∧ w1.fd_in_data = [] := by
  have hlen : (List.replicate 65519 97).length + 4 ≤ LARGE_PACKET_MAX + 3 := by
    rw [List.length_replicate]
    decide
  have hc := chomped_length_replicate PACKET_READ_CHOMP_NEWLINE 65519 97 (by decide)
  have h1 := readers_bound_by_capacity.1 (-1) (some ([102, 102, 102, 52] ++ [])) (some [])
    (some 0) [102, 102, 102, 52] world0 world0 65524
    (get_packet_data_cursor_header (-1) [102, 102, 102, 52] [] PACKET_READ_CHOMP_NEWLINE world0
      (by decide) rfl)
    (by decide) (by decide)
  have h2 := readers_bound_by_capacity.2.2.1 (List.replicate 65519 97) [] (some 0) world0
    hlen world0_packet_buffer_length
  have h3 := readers_bound_by_capacity.2.2.2.1 0 (List.replicate 65519 97) [] (some 0)
    { world0 with fd_in_data := data_packet (List.replicate 65519 97) ++ [] } (by decide)
    hlen world0_packet_buffer_length rfl
  have h4 := readers_bound_by_capacity.2.2.2.2 0 { buf := [], alloc := 0 }
    { world0 with fd_in_data := data_packet [104, 105] ++ (flush_pkt ++ []) }
    [104, 105] [] (by decide) (by decide) rfl (by decide)
  rw [hc] at h2 h3
  exact ⟨h1, h2, h3, h4⟩

end PktLine
